import Mathlib

/-!
# The MarkLogic test-data loader (`marklogic-test-data.js`)

A shallow embedding of the load script: the two fixture arrays `redDocuments`
and `blueDocuments`, the function `insertDocuments`, and the top-level
`try { ... } catch (error) { ...; throw error }` block.

The script talks to the database through `xdmp.documentInsert`, `xdmp.log`
and `cts.estimate(cts.collectionQuery(..))`.  Those are supplied by the
database product, so the embedding takes them as a record of operations
(`Host`) over an arbitrary world type; every call the script makes is also
written to a list of events, so that "what was attempted" and "what was
logged" can be stated.  `declareUpdate()` (line 5) and the commented-out clear
step (lines 7-14) run no code of the script and have no counterpart here.
-/

namespace MarkLogicTestData

/-! ## JSON payloads -/

/-- JSON-shaped values as they occur in the object literals of the script.
A number literal is kept as a decimal: `num m d` stands for `m / 10^d`, written
without trailing zeros (`1299.99` is `num 129999 2`, `3500.00` is `num 3500 0`). -/
inductive JVal where
  | str (s : String)
  | num (mantissa : Int) (decimals : Nat)
  | bool (b : Bool)
  | arr (items : List JVal)
  | obj (fields : List (String × JVal))

/-- Property access `v.key` on an object literal; `none` where JavaScript gives `undefined`. -/
def JVal.field : JVal → String → Option JVal
  | .obj fields, key => fields.lookup key
  | _, _ => none

/-- An element of `redDocuments` / `blueDocuments`: `{ uri: ..., content: ... }`. -/
structure Document where
  uri : String
  content : JVal

/-- Integer number literal. -/
def int (n : Int) : JVal := .num n 0

/-- Array of string literals. -/
def strs (xs : List String) : JVal := .arr (xs.map JVal.str)

/-! ## The fixtures (lines 17-256) -/

def redDocuments : List Document := [
  { uri := "/test-data/red/song1.json",
    content := .obj [
      ("id", .str "red-001"),
      ("title", .str "Tom Sawyer"),
      ("artist", .str "Rush"),
      ("album", .str "Moving Pictures"),
      ("year", int 1981),
      ("genre", .str "Progressive Rock"),
      ("duration", int 285),
      ("lyrics_sample", .str "A modern day warrior, mean mean stride"),
      ("rating", int 5),
      ("instruments", strs ["guitar", "bass", "drums", "keyboards"]),
      ("collections", strs ["red"]),
      ("metadata", .obj [
        ("songwriter", strs ["Geddy Lee", "Alex Lifeson", "Neil Peart"]),
        ("producer", .str "Terry Brown"),
        ("studio", .str "Le Studio"),
        ("country", .str "Canada")])] },
  { uri := "/test-data/red/song2.json",
    content := .obj [
      ("id", .str "red-002"),
      ("title", .str "Limelight"),
      ("artist", .str "Rush"),
      ("album", .str "Moving Pictures"),
      ("year", int 1981),
      ("genre", .str "Progressive Rock"),
      ("duration", int 263),
      ("lyrics_sample", .str "Living on a lighted stage approaches the unreal"),
      ("rating", int 5),
      ("instruments", strs ["guitar", "bass", "drums"]),
      ("collections", strs ["red"]),
      ("metadata", .obj [
        ("songwriter", strs ["Geddy Lee", "Alex Lifeson", "Neil Peart"]),
        ("producer", .str "Terry Brown"),
        ("studio", .str "Le Studio"),
        ("country", .str "Canada")])] },
  { uri := "/test-data/red/product1.json",
    content := .obj [
      ("id", .str "red-003"),
      ("name", .str "Epic Guitar Amplifier"),
      ("category", .str "Musical Equipment"),
      ("price", .num 129999 2),
      ("brand", .str "RushTone"),
      ("model", .str "2112-Pro"),
      ("year", int 2024),
      ("specifications", .obj [
        ("watts", int 100),
        ("tubes", strs ["12AX7", "EL34"]),
        ("channels", int 3),
        ("reverb", .bool true)]),
      ("collections", strs ["red"]),
      ("metadata", .obj [
        ("manufacturer", .str "Progressive Audio"),
        ("warranty", .str "5 years"),
        ("country", .str "USA")])] },
  { uri := "/test-data/red/customer1.json",
    content := .obj [
      ("id", .str "red-004"),
      ("name", .str "Neil Percussion"),
      ("email", .str "neil.drums@rush.com"),
      ("age", int 45),
      ("location", .str "Toronto, Canada"),
      ("preferences", strs ["progressive rock", "complex rhythms", "philosophical lyrics"]),
      ("purchase_history", .arr [
        .obj [("item", .str "Drum Kit"), ("price", int 3500), ("date", .str "2024-01-15")],
        .obj [("item", .str "Cymbals Set"), ("price", int 850), ("date", .str "2024-02-20")]]),
      ("collections", strs ["red"]),
      ("metadata", .obj [
        ("customer_since", .str "2020-03-15"),
        ("loyalty_tier", .str "Platinum"),
        ("total_spent", int 4350)])] },
  { uri := "/test-data/red/article1.json",
    content := .obj [
      ("id", .str "red-005"),
      ("title", .str "The Evolution of Progressive Rock"),
      ("author", .str "Music Historian"),
      ("publication_date", .str "2024-06-01"),
      ("category", .str "Music Analysis"),
      ("content", .str "Progressive rock emerged in the late 1960s and reached its pinnacle with bands like Rush, Yes, and Genesis. The genre is characterized by complex compositions, virtuosic musicianship, and conceptual themes."),
      ("tags", strs ["progressive rock", "music history", "Rush", "complex compositions"]),
      ("word_count", int 2500),
      ("collections", strs ["red"]),
      ("metadata", .obj [
        ("publisher", .str "Rock Chronicles"),
        ("language", .str "English"),
        ("views", int 15420)])] }]

def blueDocuments : List Document := [
  { uri := "/test-data/blue/song3.json",
    content := .obj [
      ("id", .str "blue-001"),
      ("title", .str "Freewill"),
      ("artist", .str "Rush"),
      ("album", .str "Permanent Waves"),
      ("year", int 1980),
      ("genre", .str "Progressive Rock"),
      ("duration", int 320),
      ("lyrics_sample", .str "You can choose a ready guide in some celestial voice"),
      ("rating", int 5),
      ("instruments", strs ["guitar", "bass", "drums"]),
      ("collections", strs ["blue"]),
      ("metadata", .obj [
        ("songwriter", strs ["Geddy Lee", "Alex Lifeson", "Neil Peart"]),
        ("producer", .str "Terry Brown"),
        ("studio", .str "Advision Studios"),
        ("country", .str "Canada")])] },
  { uri := "/test-data/blue/song4.json",
    content := .obj [
      ("id", .str "blue-002"),
      ("title", .str "The Spirit of Radio"),
      ("artist", .str "Rush"),
      ("album", .str "Permanent Waves"),
      ("year", int 1980),
      ("genre", .str "Progressive Rock"),
      ("duration", int 297),
      ("lyrics_sample", .str "Begin the day with a friendly voice"),
      ("rating", int 4),
      ("instruments", strs ["guitar", "bass", "drums"]),
      ("collections", strs ["blue"]),
      ("metadata", .obj [
        ("songwriter", strs ["Geddy Lee", "Alex Lifeson", "Neil Peart"]),
        ("producer", .str "Terry Brown"),
        ("studio", .str "Advision Studios"),
        ("country", .str "Canada")])] },
  { uri := "/test-data/blue/product2.json",
    content := .obj [
      ("id", .str "blue-003"),
      ("name", .str "Synthesizer Workstation"),
      ("category", .str "Musical Equipment"),
      ("price", .num 249999 2),
      ("brand", .str "ProgreSynth"),
      ("model", .str "Geddy-2112"),
      ("year", int 2024),
      ("specifications", .obj [
        ("keys", int 88),
        ("voices", int 256),
        ("presets", int 1000),
        ("sequencer", .bool true)]),
      ("collections", strs ["blue"]),
      ("metadata", .obj [
        ("manufacturer", .str "Electronic Music Co"),
        ("warranty", .str "3 years"),
        ("country", .str "Japan")])] },
  { uri := "/test-data/blue/customer2.json",
    content := .obj [
      ("id", .str "blue-004"),
      ("name", .str "Alex Strings"),
      ("email", .str "alex.guitar@rush.com"),
      ("age", int 38),
      ("location", .str "Vancouver, Canada"),
      ("preferences", strs ["guitar solos", "intricate compositions", "vintage gear"]),
      ("purchase_history", .arr [
        .obj [("item", .str "Electric Guitar"), ("price", int 2200), ("date", .str "2024-03-10")],
        .obj [("item", .str "Effects Pedals"), ("price", int 450), ("date", .str "2024-04-15")]]),
      ("collections", strs ["blue"]),
      ("metadata", .obj [
        ("customer_since", .str "2021-07-20"),
        ("loyalty_tier", .str "Gold"),
        ("total_spent", int 2650)])] },
  { uri := "/test-data/blue/event1.json",
    content := .obj [
      ("id", .str "blue-005"),
      ("title", .str "Progressive Rock Festival 2024"),
      ("location", .str "Toronto Music Centre"),
      ("date", .str "2024-08-15"),
      ("time", .str "19:00"),
      ("category", .str "Music Event"),
      ("description", .str "A celebration of progressive rock featuring tribute bands and original compositions inspired by the greatest prog rock legends."),
      ("ticket_price", int 75),
      ("capacity", int 5000),
      ("featured_bands", strs ["Rush Tribute", "Genesis Revival", "Yes Reimagined"]),
      ("collections", strs ["blue"]),
      ("metadata", .obj [
        ("organizer", .str "Prog Rock Productions"),
        ("venue_type", .str "Indoor Arena"),
        ("age_restriction", .str "All Ages")])] }]

/-! ## The database interface -/

/-- A thrown error object.  The script reads only `error.message`. -/
structure JsError where
  name : String
  message : String
deriving DecidableEq

/-- The value of `xdmp.permission(role, capability)`. -/
structure Permission where
  role : String
  capability : String
deriving DecidableEq

/-- The options object passed as third argument of `xdmp.documentInsert`. -/
structure InsertOptions where
  collections : List String
  permissions : List Permission
deriving DecidableEq

/-- The operations of the database product that the script calls, over a world `W`.
Each may throw: `documentInsert` and `log` return the thrown error, if any, and
the world after the call; `estimate c` is `cts.estimate(cts.collectionQuery(c))`,
a read-only query. -/
structure Host (W : Type) where
  documentInsert : W → String → JVal → InsertOptions → Option JsError × W
  log : W → String → Option JsError × W
  estimate : W → String → Except JsError Nat

/-- The messages the script passes to `xdmp.log`, one constructor per call site. -/
inductive LogLine where
  /-- Line 278. -/
  | inserted (uri collectionName : String)
  /-- Line 281. -/
  | errorInserting (uri message : String)
  /-- Line 290. -/
  | starting
  /-- Line 294. -/
  | redInserted (n : Nat)
  /-- Line 298. -/
  | blueInserted (n : Nat)
  /-- Line 302. -/
  | totalInserted (n : Nat)
  /-- Line 303. -/
  | redSummary (n : Nat)
  /-- Line 304. -/
  | blueSummary (n : Nat)
  /-- Line 310. -/
  | redCount (n : Nat)
  /-- Line 311. -/
  | blueCount (n : Nat)
  /-- Line 313. -/
  | complete
  /-- Line 316. -/
  | epicFailure (message : String)
  /-- Lines 321-327. -/
  | sample (text : String)
deriving DecidableEq

/-- The string each message evaluates to. -/
def LogLine.render : LogLine → String
  | .inserted uri collectionName =>
      "🎸 Inserted document: " ++ uri ++ " into collection: " ++ collectionName
  | .errorInserting uri message => "🔥 Error inserting " ++ uri ++ ": " ++ message
  | .starting => "🎸 Starting epic test data loading - Rush 2112 style! 🎸"
  | .redInserted n => "🔥 Successfully inserted " ++ toString n ++ " documents into RED collection"
  | .blueInserted n => "🔥 Successfully inserted " ++ toString n ++ " documents into BLUE collection"
  | .totalInserted n => "🎸 EPIC SUCCESS! Total documents inserted: " ++ toString n
  | .redSummary n => "🎸 Red collection: " ++ toString n ++ " documents"
  | .blueSummary n => "🎸 Blue collection: " ++ toString n ++ " documents"
  | .redCount n => "🚀 Verification - Red collection count: " ++ toString n
  | .blueCount n => "🚀 Verification - Blue collection count: " ++ toString n
  | .complete => "🎸 Test data loading complete - Rock on! 🎸"
  | .epicFailure message => "💥 Epic failure during data loading: " ++ message
  | .sample text => text

/-- A call made by the script, with what the call did. -/
inductive Event where
  | insertCall (uri : String) (content : JVal) (options : InsertOptions) (thrown : Option JsError)
  | logCall (line : LogLine) (thrown : Option JsError)
  | estimateCall (collection : String) (result : Except JsError Nat)

/-- How a piece of JavaScript ends: normally with a value, or by throwing. -/
inductive Completion (α : Type) where
  | normal (value : α)
  | throw (error : JsError)
deriving DecidableEq

/-- The result of running a piece of the script: its completion, the world it
leaves, and the calls it made, in order. -/
structure Run (W α : Type) where
  completion : Completion α
  world : W
  events : List Event

/-- A piece of the script, run from a world. -/
def Prog (W α : Type) : Type := W → Run W α

/-- Sequencing: `q` runs only if `p` completes normally. -/
def Prog.bind {W α β : Type} (p : Prog W α) (q : α → Prog W β) : Prog W β := fun w =>
  match p w with
  | ⟨.normal a, w1, ev1⟩ =>
    match q a w1 with
    | ⟨c, w2, ev2⟩ => ⟨c, w2, ev1 ++ ev2⟩
  | ⟨.throw e, w1, ev1⟩ => ⟨.throw e, w1, ev1⟩

/-- A statement that does nothing and yields `a`. -/
def Prog.pure {W α : Type} (a : α) : Prog W α := fun w => ⟨.normal a, w, []⟩

/-- The statement `throw e`. -/
def Prog.throw {W α : Type} (e : JsError) : Prog W α := fun w => ⟨.throw e, w, []⟩

/-- The statement `try { p } catch (error) { handler error }`. -/
def Prog.tryCatch {W α : Type} (p : Prog W α) (handler : JsError → Prog W α) : Prog W α := fun w =>
  match p w with
  | ⟨.normal a, w1, ev1⟩ => ⟨.normal a, w1, ev1⟩
  | ⟨.throw e, w1, ev1⟩ =>
    match handler e w1 with
    | ⟨c, w2, ev2⟩ => ⟨c, w2, ev1 ++ ev2⟩

section Script

variable {W : Type}

/-- The call `xdmp.log(line)`. -/
def xdmpLog (H : Host W) (line : LogLine) : Prog W Unit := fun w =>
  match H.log w line.render with
  | (none, w1) => ⟨.normal (), w1, [.logCall line none]⟩
  | (some e, w1) => ⟨.throw e, w1, [.logCall line (some e)]⟩

/-- The call `xdmp.documentInsert(uri, content, options)`. -/
def xdmpDocumentInsert (H : Host W) (uri : String) (content : JVal) (options : InsertOptions) :
    Prog W Unit := fun w =>
  match H.documentInsert w uri content options with
  | (none, w1) => ⟨.normal (), w1, [.insertCall uri content options none]⟩
  | (some e, w1) => ⟨.throw e, w1, [.insertCall uri content options (some e)]⟩

/-- The call `cts.estimate(cts.collectionQuery(collection))`. -/
def ctsEstimate (H : Host W) (collection : String) : Prog W Nat := fun w =>
  match H.estimate w collection with
  | .ok n => ⟨.normal n, w, [.estimateCall collection (.ok n)]⟩
  | .error e => ⟨.throw e, w, [.estimateCall collection (.error e)]⟩

/-- The options literal of lines 268-274. -/
def insertOptions (collectionName : String) : InsertOptions :=
  { collections := [collectionName],
    permissions := [⟨"rest-reader", "read"⟩, ⟨"rest-writer", "update"⟩] }

/-- The `try` block of one loop iteration (lines 263-279), run with the current
value of `insertedCount`.  It yields the thrown error, if any, together with the
value `insertedCount` has when the block is left: the increment of line 277 comes
after the insert and before the log call of line 278. -/
def tryInsert (H : Host W) (collectionName : String) (doc : Document) (insertedCount : Nat) :
    Prog W (Option JsError × Nat) := fun w =>
  match xdmpDocumentInsert H doc.uri doc.content (insertOptions collectionName) w with
  | ⟨.throw e, w1, ev1⟩ => ⟨.normal (some e, insertedCount), w1, ev1⟩
  | ⟨.normal (), w1, ev1⟩ =>
    match xdmpLog H (.inserted doc.uri collectionName) w1 with
    | ⟨.throw e, w2, ev2⟩ => ⟨.normal (some e, insertedCount + 1), w2, ev1 ++ ev2⟩
    | ⟨.normal (), w2, ev2⟩ => ⟨.normal (none, insertedCount + 1), w2, ev1 ++ ev2⟩

/-- The loop of lines 262-283 followed by `return insertedCount`, run on the
documents still to be visited and the current value of `insertedCount`. -/
def insertDocumentsFrom (H : Host W) (collectionName : String) :
    List Document → Nat → Prog W Nat
  | [], insertedCount => Prog.pure insertedCount
  | doc :: rest, insertedCount =>
    Prog.bind (tryInsert H collectionName doc insertedCount) fun r =>
      match r with
      | (none, n) => insertDocumentsFrom H collectionName rest n
      | (some error, n) =>
        Prog.bind (xdmpLog H (.errorInserting doc.uri error.message)) fun _ =>
          insertDocumentsFrom H collectionName rest n

/-- The function `insertDocuments(documents, collectionName)` (lines 259-286). -/
def insertDocuments (H : Host W) (documents : List Document) (collectionName : String) :
    Prog W Nat :=
  insertDocumentsFrom H collectionName documents 0

/-- The values the load block computes. -/
structure LoadSummary where
  redInserted : Nat
  blueInserted : Nat
  totalInserted : Nat
  redCount : Nat
  blueCount : Nat
deriving DecidableEq

/-- The body of the top-level `try` (lines 290-313). -/
def loadBody (H : Host W) : Prog W LoadSummary :=
  Prog.bind (xdmpLog H .starting) fun _ =>
  Prog.bind (insertDocuments H redDocuments "red") fun redInserted =>
  Prog.bind (xdmpLog H (.redInserted redInserted)) fun _ =>
  Prog.bind (insertDocuments H blueDocuments "blue") fun blueInserted =>
  Prog.bind (xdmpLog H (.blueInserted blueInserted)) fun _ =>
  Prog.bind (xdmpLog H (.totalInserted (redInserted + blueInserted))) fun _ =>
  Prog.bind (xdmpLog H (.redSummary redInserted)) fun _ =>
  Prog.bind (xdmpLog H (.blueSummary blueInserted)) fun _ =>
  Prog.bind (ctsEstimate H "red") fun redCount =>
  Prog.bind (ctsEstimate H "blue") fun blueCount =>
  Prog.bind (xdmpLog H (.redCount redCount)) fun _ =>
  Prog.bind (xdmpLog H (.blueCount blueCount)) fun _ =>
  Prog.bind (xdmpLog H .complete) fun _ =>
  Prog.pure
    { redInserted := redInserted, blueInserted := blueInserted,
      totalInserted := redInserted + blueInserted, redCount := redCount, blueCount := blueCount }

/-- The `catch (error)` block of lines 315-318. -/
def loadHandler (H : Host W) (error : JsError) : Prog W LoadSummary :=
  Prog.bind (xdmpLog H (.epicFailure error.message)) fun _ => Prog.throw error

/-- The top-level `try { ... } catch (error) { ... }` of lines 289-318. -/
def loadBlock (H : Host W) : Prog W LoadSummary :=
  Prog.tryCatch (loadBody H) (loadHandler H)

/-- The texts of the seven trailing log calls (lines 321-327). -/
def sampleQueries : List String := [
  "\n🎸 SAMPLE QUERIES TO TEST YOUR DATA: 🎸",
  "1. Count red documents: cts.estimate(cts.collectionQuery(\x27red\x27))",
  "2. Count blue documents: cts.estimate(cts.collectionQuery(\x27blue\x27))",
  "3. Search for Rush songs: cts.search(cts.andQuery([cts.collectionQuery([\x27red\x27,\x27blue\x27]), cts.wordQuery(\x27Rush\x27)]))",
  "4. Find documents by year: cts.search(cts.jsonPropertyValueQuery(\x27year\x27, 1981))",
  "5. Search in red collection only: cts.search(cts.andQuery([cts.collectionQuery(\x27red\x27), cts.wordQuery(\x27guitar\x27)]))",
  "\n🚀 Your MarkLogic database is now rocking with test data! 🚀"]

/-- A run of log calls, one per text. -/
def logAll (H : Host W) : List String → Prog W Unit
  | [] => Prog.pure ()
  | text :: rest => Prog.bind (xdmpLog H (.sample text)) fun _ => logAll H rest

/-- The whole script from line 289 on: the load block, then the trailing log calls. -/
def loadScript (H : Host W) : Prog W LoadSummary :=
  Prog.bind (loadBlock H) fun summary => Prog.bind (logAll H sampleQueries) fun _ => Prog.pure summary

end Script

/-! ## Reading the event list -/

/-- The arguments of the `xdmp.documentInsert` calls, in the order they were made. -/
def insertAttempts : List Event → List (String × JVal × InsertOptions)
  | [] => []
  | .insertCall uri content options _ :: rest => (uri, content, options) :: insertAttempts rest
  | _ :: rest => insertAttempts rest

/-- What each `xdmp.documentInsert` call did, in order: `none` for success. -/
def insertOutcomes : List Event → List (Option JsError)
  | [] => []
  | .insertCall _ _ _ thrown :: rest => thrown :: insertOutcomes rest
  | _ :: rest => insertOutcomes rest

/-- The per-document failure records written to the log: URI and error message. -/
def failureRecords : List Event → List (String × String)
  | [] => []
  | .logCall (.errorInserting uri message) none :: rest => (uri, message) :: failureRecords rest
  | _ :: rest => failureRecords rest

/-- The per-document success records written to the log: URI and collection. -/
def successRecords : List Event → List (String × String)
  | [] => []
  | .logCall (.inserted uri collectionName) none :: rest =>
      (uri, collectionName) :: successRecords rest
  | _ :: rest => successRecords rest

/-- The failure records to expect from a batch and the outcome of each insert:
one per failed insert, with the URI of the document and the message of the error. -/
def expectedFailures (documents : List Document) (outcomes : List (Option JsError)) :
    List (String × String) :=
  (documents.zip outcomes).filterMap fun p => p.2.map fun e => (p.1.uri, e.message)

/-- The success records to expect from a batch and the outcome of each insert. -/
def expectedSuccesses (collectionName : String) (documents : List Document)
    (outcomes : List (Option JsError)) : List (String × String) :=
  (documents.zip outcomes).filterMap fun p =>
    if p.2.isNone then some (p.1.uri, collectionName) else none

/-- Every `xdmp.log` call of the host returns normally. -/
def LogSucceeds {W : Type} (H : Host W) : Prop := ∀ w text, (H.log w text).1 = none

/-- Every `xdmp.documentInsert` call of the host returns normally. -/
def InsertSucceeds {W : Type} (H : Host W) : Prop :=
  ∀ w uri content options, (H.documentInsert w uri content options).1 = none

/-- Every count query of the host returns normally. -/
def EstimateSucceeds {W : Type} (H : Host W) : Prop :=
  ∀ w collection, ∃ n, H.estimate w collection = .ok n

/-- The number a count query answers, `0` standing in where it throws. -/
def estimateValue {W : Type} (H : Host W) (w : W) (collection : String) : Nat :=
  match H.estimate w collection with
  | .ok n => n
  | .error _ => 0

/-- The `id` property of a fixture payload. -/
def Document.id (d : Document) : Option JVal := d.content.field "id"

/-! ## The fixture store -/

/-- A document as the store holds it: payload, collection tags, permissions. -/
structure StoredDoc where
  content : JVal
  collections : List String
  permissions : List Permission

/-- What the store does with an insert whose URI is already present. -/
inductive DuplicatePolicy where
  | overwrite
  | reject
deriving DecidableEq

/-- Modelled from the spec: the Fixture Store, the keyed document collection behind
`xdmp.documentInsert` and `cts.estimate`, which the repository does not contain.
Documents are keyed by URI; `attempts` counts the insert calls received so far, so
that an injected failure may depend on the history. -/
structure FixtureStore where
  docs : List (String × StoredDoc)
  attempts : Nat

/-- Modelled from the spec: the initial, empty state of the Fixture Store. -/
def FixtureStore.empty : FixtureStore := ⟨[], 0⟩

/-- Modelled from the spec: retrieval by URI in the Fixture Store. -/
def FixtureStore.get (s : FixtureStore) (uri : String) : Option StoredDoc :=
  s.docs.lookup uri

/-- Modelled from the spec: whether a URI is present in the Fixture Store. -/
def FixtureStore.has (s : FixtureStore) (uri : String) : Bool :=
  s.docs.any fun e => e.1 == uri

/-- Modelled from the spec: `count(collection)` of the Fixture Store, the number of
documents whose tag set includes the collection name; derived, not stored. -/
def FixtureStore.count (s : FixtureStore) (collection : String) : Nat :=
  s.docs.countP fun e => e.2.collections.contains collection

/-- Modelled from the spec: storing a document under a URI of the Fixture Store.
A present URI keeps its place and gets the new document, so URIs stay unique. -/
def putDoc (docs : List (String × StoredDoc)) (uri : String) (d : StoredDoc) :
    List (String × StoredDoc) :=
  if docs.any (fun e => e.1 == uri) then docs.map fun e => if e.1 = uri then (uri, d) else e
  else docs ++ [(uri, d)]

/-- An injected failure of an insert call (malformed payload, transient error, ...),
decided from the store and the arguments of the call. -/
abbrev Faults : Type := FixtureStore → String → JVal → InsertOptions → Option JsError

/-- No injected failure. -/
def noFaults : Faults := fun _ _ _ _ => none

/-- The error of an insert rejected because its URI is present. -/
def duplicateUri (uri : String) : JsError := ⟨"DUPLICATE-URI", "Document exists at " ++ uri⟩

/-- Modelled from the spec: insertion into the Fixture Store.  An injected failure or,
under the reject policy, a URI already present makes the call throw and leaves the
documents as they were; otherwise the document is stored with the tags and
permissions of the options. -/
def FixtureStore.documentInsert (policy : DuplicatePolicy) (faults : Faults) (s : FixtureStore)
    (uri : String) (content : JVal) (options : InsertOptions) : Option JsError × FixtureStore :=
  match faults s uri content options with
  | some e => (some e, { s with attempts := s.attempts + 1 })
  | none =>
    if s.has uri && policy == .reject then
      (some (duplicateUri uri), { s with attempts := s.attempts + 1 })
    else
      (none, { docs := putDoc s.docs uri ⟨content, options.collections, options.permissions⟩,
               attempts := s.attempts + 1 })

/-- Modelled from the spec: the Fixture Store as the host of the script.  Logging is
advisory and leaves the store alone; the count query never fails. -/
def fixtureHost (policy : DuplicatePolicy) (faults : Faults) : Host FixtureStore where
  documentInsert := FixtureStore.documentInsert policy faults
  log := fun s _ => (none, s)
  estimate := fun s collection => .ok (s.count collection)

/-- The document the store is asked to hold by the insert call of lines 265-275:
the content of `doc`, the collection name as only tag, the two permissions. -/
def storedDoc (collectionName : String) (doc : Document) : StoredDoc :=
  ⟨doc.content, (insertOptions collectionName).collections,
    (insertOptions collectionName).permissions⟩

/-- A history of `insertDocuments` calls, run one after the other. -/
def insertBatches {W : Type} (H : Host W) : List (List Document × String) → Prog W Unit
  | [] => Prog.pure ()
  | batch :: rest =>
    Prog.bind (insertDocuments H batch.1 batch.2) fun _ => insertBatches H rest

/-- The store holds exactly `d` under `uri`: the URI is present, and every entry
with that URI is `(uri, d)`. -/
def Holds (docs : List (String × StoredDoc)) (uri : String) (d : StoredDoc) : Prop :=
  (docs.any fun e => e.1 == uri) = true ∧ ∀ e ∈ docs, e.1 = uri → e = (uri, d)

/-! ## Sample stores and failures -/

/-- A failure injected into the third insert call a store receives. -/
def failThird : Faults := fun s _ _ _ =>
  if s.attempts = 2 then some ⟨"XDMP-SAMPLE", "payload refused"⟩ else none

/-- A store that already holds a document at the URI of the third red fixture. -/
def storeWithProduct1 : FixtureStore :=
  ⟨[("/test-data/red/product1.json", ⟨.str "earlier", ["red"], []⟩)], 1⟩

/-- A batch that names the same URI twice, with different content. -/
def twoVersions : List Document :=
  [⟨"/test-data/red/song1.json", .str "first"⟩, ⟨"/test-data/red/song1.json", .str "second"⟩]

/-- A host whose log calls always throw, the error naming the text it was given;
inserts and count queries work. -/
def brokenLogHost : Host Unit where
  documentInsert := fun w _ _ _ => (none, w)
  log := fun w text => (some ⟨"XDMP-LOG", text⟩, w)
  estimate := fun _ _ => .ok 0

/-- The fixture store with a count query that throws. -/
def noCountHost : Host FixtureStore where
  documentInsert := FixtureStore.documentInsert .overwrite noFaults
  log := fun s _ => (none, s)
  estimate := fun _ _ => .error ⟨"XDMP-SAMPLE", "count unavailable"⟩

/-! ## More ways to read a run -/

/-- The URIs named by the per-document records written to the log, success and
failure records alike, in the order they were written. -/
def documentRecords : List Event → List String
  | [] => []
  | .logCall (.inserted uri _) none :: rest => uri :: documentRecords rest
  | .logCall (.errorInserting uri _) none :: rest => uri :: documentRecords rest
  | _ :: rest => documentRecords rest

/-- The errors thrown by calls other than inserts: log calls and count queries. -/
def otherFailures : List Event → List JsError
  | [] => []
  | .logCall _ (some e) :: rest => e :: otherFailures rest
  | .estimateCall _ (.error e) :: rest => e :: otherFailures rest
  | _ :: rest => otherFailures rest

/-- The arguments of the insert call `insertDocuments` makes for a document. -/
def insertArgs (collectionName : String) (doc : Document) : String × JVal × InsertOptions :=
  (doc.uri, doc.content, insertOptions collectionName)

/-- A property of the world that a piece of the script keeps. -/
def Preserves {W α : Type} (P : W → Prop) (p : Prog W α) : Prop :=
  ∀ w, P w → P (p w).world

/-- A piece of the script that throws only after a log call or a count query threw. -/
def ThrowsOnlyAfterOtherFailure {W α : Type} (p : Prog W α) : Prop :=
  ∀ w e, (p w).completion = .throw e → otherFailures (p w).events ≠ []

/-- Every `xdmp.documentInsert` call of the host throws. -/
def InsertFails {W : Type} (H : Host W) : Prop :=
  ∀ w uri content options, (H.documentInsert w uri content options).1 ≠ none

/-- Modelled from the spec: the Fixture Store as host of the script when the
surrounding operations may fail too: a log call or a count query throws when its
oracle says so, and neither changes the store. -/
def faultyHost (policy : DuplicatePolicy) (faults : Faults)
    (logFaults countFaults : FixtureStore → String → Option JsError) : Host FixtureStore where
  documentInsert := FixtureStore.documentInsert policy faults
  log := fun s text => (logFaults s text, s)
  estimate := fun s collection =>
    match countFaults s collection with
    | some e => .error e
    | none => .ok (s.count collection)

/-- Modelled from the spec: the number of documents the Fixture Store holds. -/
def FixtureStore.size (s : FixtureStore) : Nat := s.docs.length

/-- Injected failures that are decided by the arguments of the insert call alone,
not by the state of the store. -/
def StoreBlind (faults : Faults) : Prop :=
  ∀ s s' uri content options, faults s uri content options = faults s' uri content options

/-- A way `f` of reading the event list gives, on every run of `p`, an initial part
of the list `L`, and the whole of `L` when `p` completes normally. -/
def ProjectsTo {W α β : Type} (f : List Event → List β) (L : List β) (p : Prog W α) : Prop :=
  ∀ w, f (p w).events <+: L ∧ ∀ a, (p w).completion = .normal a → f (p w).events = L

/-- Whether a message is a per-document record (lines 278 and 281). -/
def LogLine.perDocument : LogLine → Bool
  | .inserted _ _ => true
  | .errorInserting _ _ => true
  | _ => false

/-- Log calls that throw once the store has received three insert calls. -/
def logDownAfterThird : FixtureStore → String → Option JsError := fun s _ =>
  if s.attempts = 3 then some ⟨"XDMP-LOG", "log unavailable"⟩ else none

/-- No count query fails. -/
def noCountFaults : FixtureStore → String → Option JsError := fun _ _ => none

/-- A failure injected into every insert call. -/
def failAll : Faults := fun _ uri _ _ => some ⟨"XDMP-SAMPLE", "refused " ++ uri⟩

/-- The shape of a fixture URI: `/test-data/<collection>/<slug>.json`. -/
def fixtureUri (collection slug : String) : String :=
  "/test-data/" ++ collection ++ "/" ++ slug ++ ".json"

/-- The string a JSON string value holds. -/
def JVal.asString : JVal → Option String
  | .str s => some s
  | _ => none

/-- The `id` property of a fixture payload, as a string. -/
def Document.idString (d : Document) : Option String := d.id.bind JVal.asString

/-- Modelled from the spec: whether the Fixture Store in state `s` accepts the insert
`insertDocuments` makes for a document: no injected failure, and no rejection of a
present URI. -/
def accepts (policy : DuplicatePolicy) (faults : Faults) (s : FixtureStore)
    (collectionName : String) (doc : Document) : Bool :=
  (faults s doc.uri doc.content (insertOptions collectionName)).isNone &&
    !(s.has doc.uri && policy == .reject)

/-! ## Log calls that throw -/

/-- The errors thrown by the log calls of the `catch` block (line 281). -/
def catchLogFailures : List Event → List JsError
  | [] => []
  | .logCall (.errorInserting _ _) (some e) :: rest => e :: catchLogFailures rest
  | _ :: rest => catchLogFailures rest

/-- The errors thrown by `xdmp.log` calls. -/
def logFailures : List Event → List JsError
  | [] => []
  | .logCall _ (some e) :: rest => e :: logFailures rest
  | _ :: rest => logFailures rest

/-- The counts the load writes to the log (lines 294, 298 and 302-304): the lines
written, in order. -/
def countsLogged : List Event → List LogLine
  | [] => []
  | .logCall (.redInserted n) none :: rest => .redInserted n :: countsLogged rest
  | .logCall (.blueInserted n) none :: rest => .blueInserted n :: countsLogged rest
  | .logCall (.totalInserted n) none :: rest => .totalInserted n :: countsLogged rest
  | .logCall (.redSummary n) none :: rest => .redSummary n :: countsLogged rest
  | .logCall (.blueSummary n) none :: rest => .blueSummary n :: countsLogged rest
  | _ :: rest => countsLogged rest

/-- Log calls that throw when they are given one message, and only then. -/
def logDownFor (line : LogLine) : FixtureStore → String → Option JsError := fun _ text =>
  if text = line.render then some ⟨"XDMP-LOG", "log unavailable"⟩ else none

/-! ## Replaying a run on the fixture store -/

/-- Modelled from the spec: the documents of the Fixture Store after the calls of a
run, from the documents before.  Every insert call that returned stored its document
with the tags and permissions of its options; no other call changed a document. -/
def replay : List Event → List (String × StoredDoc) → List (String × StoredDoc)
  | [], docs => docs
  | .insertCall uri content options none :: rest, docs =>
      replay rest (putDoc docs uri ⟨content, options.collections, options.permissions⟩)
  | _ :: rest, docs => replay rest docs

/-- A piece of the script whose runs on the fixture store leave the documents that
replaying its calls gives. -/
def Replays {α : Type} (p : Prog FixtureStore α) : Prop :=
  ∀ s, (p s).world.docs = replay (p s).events s.docs

/-- The document an insert call with these arguments stores. -/
def storedBy (args : String × JVal × InsertOptions) : StoredDoc :=
  ⟨args.2.1, args.2.2.collections, args.2.2.permissions⟩

end MarkLogicTestData

/-!
# The Optic examples (`optic-examples.js`)

Two of the example queries: the `validated_email` column of `errorHandlingQuery`
(lines 939-962) and `batchProcessing` (lines 763-774).  The Optic library
(`op.matches`, `op.when`, `where`, `orderBy`, `limit`, `select`) is supplied by
the database product; it is given here its documented relational and
regular-expression meaning, on lists of rows and lists of characters.
-/

namespace OpticExamples

open MarkLogicTestData (JVal)

/-! ## String literals and patterns -/

/-- The backslash character. -/
def backslash : Char := Char.ofNat 92

/-- The character a one-character escape of a JavaScript string literal stands for.
A character that names no escape stands for itself; escapes that take more
characters (`x`, `u`, digits other than `0`) are not covered. -/
def escapeValue (c : Char) : Option Char :=
  if c = 'n' then some (Char.ofNat 10)
  else if c = 't' then some (Char.ofNat 9)
  else if c = 'r' then some (Char.ofNat 13)
  else if c = 'b' then some (Char.ofNat 8)
  else if c = 'f' then some (Char.ofNat 12)
  else if c = 'v' then some (Char.ofNat 11)
  else if c = '0' then some (Char.ofNat 0)
  else if c = 'x' ∨ c = 'u' ∨ c.isDigit then none
  else some c

/-- The value of a JavaScript string literal, from the characters written between
its quotes. -/
def jsStringValue : List Char → Option (List Char)
  | [] => some []
  | c :: rest =>
    if c = backslash then
      match rest with
      | [] => none
      | e :: rest2 =>
        match escapeValue e, jsStringValue rest2 with
        | some v, some tail => some (v :: tail)
        | _, _ => none
    else
      match jsStringValue rest with
      | some tail => some (c :: tail)
      | none => none

/-- The characters between the quotes of the pattern literal of line 951. -/
def emailPatternSource : String := "^[^@]+@[^@]+\\.[^@]+$"

/-- The string that the literal of line 951 evaluates to, the second argument of
`op.matches`. -/
def emailPattern : Option String :=
  (jsStringValue emailPatternSource.toList).map String.mk

/-- A set of characters in a pattern. -/
inductive CharSet where
  /-- The pattern `.`: any character but a line feed. -/
  | dot
  /-- A literal character or a class `[...]`. -/
  | oneOf (cs : List Char)
  /-- A negated class `[^...]`. -/
  | noneOf (cs : List Char)
deriving DecidableEq

/-- Whether a character belongs to a set. -/
def CharSet.mem : CharSet → Char → Bool
  | .dot, c => c != Char.ofNat 10
  | .oneOf cs, c => cs.contains c
  | .noneOf cs, c => !cs.contains c

/-- How often an item may repeat. -/
inductive Quant where
  | one
  | plus
  | star
  | opt
deriving DecidableEq

/-- A set of characters with its quantifier. -/
structure Item where
  set : CharSet
  quant : Quant
deriving DecidableEq

/-- A pattern without groups and alternatives: a run of items, with or without
the anchors `^` and `$`. -/
structure Pattern where
  anchoredStart : Bool
  anchoredEnd : Bool
  items : List Item
deriving DecidableEq

/-- Where the reader of a pattern stands. -/
inductive Mode where
  | atStart
  | normal
  | escape
  | classOpen
  | classBody (negated : Bool) (cs : List Char)
  | classEscape (negated : Bool) (cs : List Char)
  | afterDollar
deriving DecidableEq

/-- The reader of a pattern: what was read so far. -/
structure ParseState where
  mode : Mode
  anchoredStart : Bool
  items : List Item
deriving DecidableEq

/-- Put a quantifier on the item read last. -/
def quantifyLast (q : Quant) (items : List Item) : Option (List Item) :=
  match items.getLast? with
  | some ⟨set, .one⟩ => some (items.dropLast ++ [⟨set, q⟩])
  | _ => none

/-- Read a character outside of a class. -/
def readNormal (st : ParseState) (c : Char) : Option ParseState :=
  if c = backslash then some { st with mode := .escape }
  else if c = '[' then some { st with mode := .classOpen }
  else if c = '.' then some { st with mode := .normal, items := st.items ++ [⟨.dot, .one⟩] }
  else if c = '+' then (quantifyLast .plus st.items).map fun items =>
    { st with mode := .normal, items := items }
  else if c = '*' then (quantifyLast .star st.items).map fun items =>
    { st with mode := .normal, items := items }
  else if c = '?' then (quantifyLast .opt st.items).map fun items =>
    { st with mode := .normal, items := items }
  else if c = '$' then some { st with mode := .afterDollar }
  else if c = '(' ∨ c = ')' ∨ c = '|' ∨ c = '^' ∨ c = ']' ∨ c = Char.ofNat 123 ∨
      c = Char.ofNat 125 then none
  else some { st with mode := .normal, items := st.items ++ [⟨.oneOf [c], .one⟩] }

/-- Read one character of a pattern; `none` for what this reader does not cover. -/
def parseStep (state : Option ParseState) (c : Char) : Option ParseState :=
  match state with
  | none => none
  | some st =>
    match st.mode with
    | .atStart =>
      if c = '^' then some { st with mode := .normal, anchoredStart := true }
      else readNormal st c
    | .normal => readNormal st c
    | .escape =>
      if c.isAlphanum then none
      else some { st with mode := .normal, items := st.items ++ [⟨.oneOf [c], .one⟩] }
    | .classOpen =>
      if c = '^' then some { st with mode := .classBody true [] }
      else if c = ']' ∨ c = '[' ∨ c = '-' then none
      else if c = backslash then some { st with mode := .classEscape false [] }
      else some { st with mode := .classBody false [c] }
    | .classBody negated cs =>
      if c = ']' then
        some { st with
          mode := .normal,
          items := st.items ++ [⟨if negated then .noneOf cs else .oneOf cs, .one⟩] }
      else if c = '[' ∨ c = '-' then none
      else if c = backslash then some { st with mode := .classEscape negated cs }
      else some { st with mode := .classBody negated (cs ++ [c]) }
    | .classEscape negated cs =>
      if c.isAlphanum then none
      else some { st with mode := .classBody negated (cs ++ [c]) }
    | .afterDollar => none

/-- Read a pattern. -/
def parsePattern (pattern : List Char) : Option Pattern :=
  match pattern.foldl parseStep (some ⟨.atStart, false, []⟩) with
  | some ⟨.atStart, a, items⟩ => some ⟨a, false, items⟩
  | some ⟨.normal, a, items⟩ => some ⟨a, false, items⟩
  | some ⟨.afterDollar, a, items⟩ => some ⟨a, true, items⟩
  | _ => none

/-- Any number of characters of a set, then `k` on the rest. -/
def starThen (set : CharSet) (k : List Char → Bool) : List Char → Bool
  | [] => k []
  | c :: s => k (c :: s) || (set.mem c && starThen set k s)

/-- One item, then `k` on the rest. -/
def itemThen (item : Item) (k : List Char → Bool) (s : List Char) : Bool :=
  match item.quant, s with
  | .one, [] => false
  | .one, c :: rest => item.set.mem c && k rest
  | .plus, [] => false
  | .plus, c :: rest => item.set.mem c && starThen item.set k rest
  | .star, s => starThen item.set k s
  | .opt, [] => k []
  | .opt, c :: rest => k (c :: rest) || (item.set.mem c && k rest)

/-- A run of items, then `final` on the rest. -/
def matchItems (items : List Item) (final : List Char → Bool) : List Char → Bool :=
  items.foldr itemThen final

/-- The test `k` on the input or on what is left of it after some characters. -/
def anySuffix (k : List Char → Bool) : List Char → Bool
  | [] => k []
  | c :: s => k (c :: s) || anySuffix k s

/-- Whether some part of the input matches the pattern: the part starts the input
if the pattern has `^`, and ends it if the pattern has `$`. -/
def Pattern.test (p : Pattern) (input : List Char) : Bool :=
  if p.anchoredStart then
    matchItems p.items (fun rest => if p.anchoredEnd then rest.isEmpty else true) input
  else
    anySuffix (matchItems p.items (fun rest => if p.anchoredEnd then rest.isEmpty else true))
      input

/-- The call `op.matches(input, pattern)`; `none` where the pattern is beyond the
reader. -/
def opMatches (input pattern : String) : Option Bool :=
  (parsePattern pattern.toList).map fun p => p.test input.toList

/-- The call `op.when(condition, value, otherwise)`. -/
def opWhen {α : Type} (condition : Bool) (value otherwise : α) : α :=
  if condition then value else otherwise

/-- The `validated_email` column of `errorHandlingQuery` for a row whose `email`
column holds the given string (lines 950-955). -/
def validatedEmail (email : String) : Option String :=
  match emailPattern with
  | none => none
  | some pattern =>
    (opMatches email pattern).map fun matched => opWhen matched email "INVALID_EMAIL"

/-- The shape `local@domain.tld` in words: exactly one `@`, a non-empty part before
it, and after it a `.` with non-empty text on both sides. -/
def hasEmailShape (email : String) : Bool :=
  email.toList.count '@' == 1 &&
  !(email.toList.takeWhile fun c => c != '@').isEmpty &&
  ((((email.toList.dropWhile fun c => c != '@').drop 1).drop 1).dropLast).contains '.'

/-! ## Rows and batches -/

/-- A row of the view `large_dataset.records`: the three columns the query selects,
with `id` a whole number, and whatever other columns the view has. -/
structure Row where
  id : Int
  data_field : JVal
  processed_flag : JVal
  others : List (String × JVal)

/-- A row of the result: the columns `id`, `data_field`, `processed_flag`. -/
structure BatchRow where
  id : Int
  data_field : JVal
  processed_flag : JVal

/-- The order of `orderBy(['id'])`: ascending in the column `id`. -/
def Row.le (a b : Row) : Prop := a.id ≤ b.id

instance : DecidableRel Row.le := fun a b => Int.decLe a.id b.id

instance : IsTotal Row Row.le := ⟨fun a b => Int.le_total a.id b.id⟩

instance : IsTrans Row Row.le := ⟨fun _ _ _ hab hbc => Int.le_trans hab hbc⟩

/-- The step `.where(op.gt(op.col('id'), offsetValue))`. -/
def opWhereIdGt (offsetValue : Int) (rows : List Row) : List Row :=
  rows.filter fun r => decide (offsetValue < r.id)

/-- The step `.orderBy(['id'])`. -/
def opOrderById (rows : List Row) : List Row := rows.insertionSort Row.le

/-- The step `.limit(batchSize)`. -/
def opLimit (batchSize : Nat) (rows : List Row) : List Row := rows.take batchSize

/-- The step `.select(['id', 'data_field', 'processed_flag'])`. -/
def opSelect (rows : List Row) : List BatchRow :=
  rows.map fun r => ⟨r.id, r.data_field, r.processed_flag⟩

/-- The rows a call of `batchProcessing` takes from the view, before the columns
are selected. -/
def batchRows (view : List Row) (batchSize : Option Nat) (offsetValue : Option Int) :
    List Row :=
  opLimit (batchSize.getD 1000) (opOrderById (opWhereIdGt (offsetValue.getD 0) view))

/-- The function `batchProcessing(batchSize = 1000, offsetValue = 0)` of lines
763-774, on the rows of the view; an argument left out is `none`. -/
def batchProcessing (view : List Row) (batchSize : Option Nat) (offsetValue : Option Int) :
    List BatchRow :=
  opSelect (batchRows view batchSize offsetValue)

/-- The loop of a caller of `batchProcessing`, which the file leaves to its user:
calling it again and again, each time with `offsetValue` set to the `id` of the
last row of the batch before, until a batch comes back empty; `calls` bounds the
number of calls, and the first call is made with the offset given (`none` for the
default). -/
def allBatches (view : List Row) (batchSize : Option Nat) :
    Nat → Option Int → List (List BatchRow)
  | 0, _ => []
  | calls + 1, offsetValue =>
    match (batchProcessing view batchSize offsetValue).getLast? with
    | none => []
    | some last =>
      batchProcessing view batchSize offsetValue ::
        allBatches view batchSize calls (some last.id)

/-- A small view, with ids in no particular order. -/
def sampleView : List Row :=
  [⟨5, .str "e", .bool false, []⟩, ⟨3, .str "c", .bool true, []⟩, ⟨-1, .str "z", .bool false, []⟩,
   ⟨9, .str "i", .bool false, [("note", .str "last")]⟩, ⟨7, .str "g", .bool true, []⟩]

end OpticExamples

namespace MarkLogicTestData

/-! ## One iteration of the loop -/

section Loop

variable {W : Type}

/-- An `xdmp.log` call of a host whose log calls succeed. -/
theorem xdmpLog_of_logSucceeds (H : Host W) (hlog : LogSucceeds H) (line : LogLine) (w : W) :
    xdmpLog H line w = ⟨.normal (), (H.log w line.render).2, [.logCall line none]⟩ := by
  have h := hlog w line.render
  unfold xdmpLog
  generalize H.log w line.render = r at h
  obtain ⟨o, w1⟩ := r
  simp only at h
  subst h
  rfl

/-- The loop on an empty rest returns the counter. -/
theorem insertDocumentsFrom_nil (H : Host W) (collectionName : String) (n : Nat) (w : W) :
    insertDocumentsFrom H collectionName [] n w = ⟨.normal n, w, []⟩ := rfl

/-- An iteration whose insert succeeds: the counter goes up, the success line is
logged, and the loop goes on with the rest. -/
theorem insertDocumentsFrom_cons_ok (H : Host W) (hlog : LogSucceeds H) (collectionName : String)
    (doc : Document) (rest : List Document) (n : Nat) (w : W)
    (h : (H.documentInsert w doc.uri doc.content (insertOptions collectionName)).1 = none) :
    insertDocumentsFrom H collectionName (doc :: rest) n w =
      ⟨(insertDocumentsFrom H collectionName rest (n + 1)
          (H.log (H.documentInsert w doc.uri doc.content (insertOptions collectionName)).2
            (LogLine.inserted doc.uri collectionName).render).2).completion,
       (insertDocumentsFrom H collectionName rest (n + 1)
          (H.log (H.documentInsert w doc.uri doc.content (insertOptions collectionName)).2
            (LogLine.inserted doc.uri collectionName).render).2).world,
       .insertCall doc.uri doc.content (insertOptions collectionName) none ::
         .logCall (.inserted doc.uri collectionName) none ::
         (insertDocumentsFrom H collectionName rest (n + 1)
          (H.log (H.documentInsert w doc.uri doc.content (insertOptions collectionName)).2
            (LogLine.inserted doc.uri collectionName).render).2).events⟩ := by
  generalize hr : H.documentInsert w doc.uri doc.content (insertOptions collectionName) = r at h
  obtain ⟨o, w1⟩ := r
  simp only at h
  subst h
  simp only [insertDocumentsFrom, Prog.bind, tryInsert, xdmpDocumentInsert, hr,
    xdmpLog_of_logSucceeds H hlog, List.singleton_append, List.cons_append, List.nil_append]

/-- An iteration whose insert throws: the counter stays, the failure line is logged
with the URI and the message of the error, and the loop goes on with the rest. -/
theorem insertDocumentsFrom_cons_err (H : Host W) (hlog : LogSucceeds H) (collectionName : String)
    (doc : Document) (rest : List Document) (n : Nat) (w : W) (e : JsError)
    (h : (H.documentInsert w doc.uri doc.content (insertOptions collectionName)).1 = some e) :
    insertDocumentsFrom H collectionName (doc :: rest) n w =
      ⟨(insertDocumentsFrom H collectionName rest n
          (H.log (H.documentInsert w doc.uri doc.content (insertOptions collectionName)).2
            (LogLine.errorInserting doc.uri e.message).render).2).completion,
       (insertDocumentsFrom H collectionName rest n
          (H.log (H.documentInsert w doc.uri doc.content (insertOptions collectionName)).2
            (LogLine.errorInserting doc.uri e.message).render).2).world,
       .insertCall doc.uri doc.content (insertOptions collectionName) (some e) ::
         .logCall (.errorInserting doc.uri e.message) none ::
         (insertDocumentsFrom H collectionName rest n
          (H.log (H.documentInsert w doc.uri doc.content (insertOptions collectionName)).2
            (LogLine.errorInserting doc.uri e.message).render).2).events⟩ := by
  generalize hr : H.documentInsert w doc.uri doc.content (insertOptions collectionName) = r at h
  obtain ⟨o, w1⟩ := r
  simp only at h
  subst h
  simp only [insertDocumentsFrom, Prog.bind, tryInsert, xdmpDocumentInsert, hr,
    xdmpLog_of_logSucceeds H hlog, List.singleton_append, List.cons_append, List.nil_append]

/-- What a run of the loop does when the log calls succeed, whatever the inserts do:
it returns normally; the counter has grown by the number of successful inserts; one
insert was attempted per document, in order; the failure and success records are
those of the failed and successful inserts. -/
theorem insertDocumentsFrom_run (H : Host W) (hlog : LogSucceeds H) (collectionName : String) :
    ∀ (documents : List Document) (n : Nat) (w : W),
      (insertDocumentsFrom H collectionName documents n w).completion =
          .normal (n + (insertOutcomes
            (insertDocumentsFrom H collectionName documents n w).events).countP Option.isNone) ∧
      insertAttempts (insertDocumentsFrom H collectionName documents n w).events =
          documents.map (fun d => (d.uri, d.content, insertOptions collectionName)) ∧
      (insertOutcomes (insertDocumentsFrom H collectionName documents n w).events).length =
          documents.length ∧
      failureRecords (insertDocumentsFrom H collectionName documents n w).events =
          expectedFailures documents
            (insertOutcomes (insertDocumentsFrom H collectionName documents n w).events) ∧
      successRecords (insertDocumentsFrom H collectionName documents n w).events =
          expectedSuccesses collectionName documents
            (insertOutcomes (insertDocumentsFrom H collectionName documents n w).events) := by
  intro documents
  induction documents with
  | nil =>
    intro n w
    simp [insertDocumentsFrom_nil, insertOutcomes, insertAttempts, failureRecords,
      successRecords, expectedFailures, expectedSuccesses]
  | cons doc rest ih =>
    intro n w
    cases h : (H.documentInsert w doc.uri doc.content (insertOptions collectionName)).1 with
    | none =>
      rw [insertDocumentsFrom_cons_ok H hlog collectionName doc rest n w h]
      obtain ⟨h1, h2, h3, h4, h5⟩ := ih (n + 1)
        (H.log (H.documentInsert w doc.uri doc.content (insertOptions collectionName)).2
          (LogLine.inserted doc.uri collectionName).render).2
      refine ⟨?_, ?_, ?_, ?_, ?_⟩
      · simp only [insertOutcomes, h1, List.countP_cons, Option.isNone_none, if_true]
        congr 1
        omega
      · simp only [insertAttempts, h2, List.map_cons]
      · simp only [insertOutcomes, List.length_cons, h3]
      · simp only [insertOutcomes, failureRecords, h4]
        simp [expectedFailures]
      · simp only [insertOutcomes, successRecords, h5]
        simp [expectedSuccesses]
    | some e =>
      rw [insertDocumentsFrom_cons_err H hlog collectionName doc rest n w e h]
      obtain ⟨h1, h2, h3, h4, h5⟩ := ih n
        (H.log (H.documentInsert w doc.uri doc.content (insertOptions collectionName)).2
          (LogLine.errorInserting doc.uri e.message).render).2
      refine ⟨?_, ?_, ?_, ?_, ?_⟩
      · simp only [insertOutcomes, h1, List.countP_cons, Option.isNone_some]
        simp
      · simp only [insertAttempts, h2, List.map_cons]
      · simp only [insertOutcomes, List.length_cons, h3]
      · simp only [insertOutcomes, failureRecords, h4]
        simp [expectedFailures]
      · simp only [insertOutcomes, successRecords, h5]
        simp [expectedSuccesses]

/-- There are as many expected failure records as failed inserts. -/
theorem expectedFailures_length :
    ∀ (documents : List Document) (outcomes : List (Option JsError)),
      outcomes.length = documents.length →
      (expectedFailures documents outcomes).length = outcomes.countP Option.isSome := by
  intro documents
  induction documents with
  | nil =>
    intro outcomes h
    cases outcomes with
    | nil => rfl
    | cons o os => simp at h
  | cons d ds ih =>
    intro outcomes h
    cases outcomes with
    | nil => simp at h
    | cons o os =>
      have ih2 := ih os (by simpa using h)
      unfold expectedFailures at ih2 ⊢
      cases o with
      | none => simpa [List.zip_cons_cons, List.filterMap_cons] using ih2
      | some e => simpa [List.zip_cons_cons, List.filterMap_cons] using ih2

/-- Successful and failed inserts together are all the inserts. -/
theorem countP_isNone_add_isSome (outcomes : List (Option JsError)) :
    outcomes.countP Option.isNone + outcomes.countP Option.isSome = outcomes.length := by
  induction outcomes with
  | nil => rfl
  | cons o os ih =>
    cases o with
    | none => simp [List.countP_cons]; omega
    | some e => simp [List.countP_cons]; omega

/-- When exactly one insert of a batch failed, the expected failure records are the
single record of the failing document. -/
theorem expectedFailures_of_one_failure :
    ∀ (documents : List Document) (outcomes : List (Option JsError)),
      outcomes.length = documents.length →
      outcomes.countP Option.isSome = 1 →
      ∃ (i : Nat) (e : JsError) (hi : i < documents.length),
        outcomes[i]? = some (some e) ∧
        expectedFailures documents outcomes = [((documents.get ⟨i, hi⟩).uri, e.message)] := by
  intro documents
  induction documents with
  | nil =>
    intro outcomes h h1
    cases outcomes with
    | nil => simp at h1
    | cons o os => simp at h
  | cons d ds ih =>
    intro outcomes h h1
    cases outcomes with
    | nil => simp at h
    | cons o os =>
      have hlen : os.length = ds.length := by simpa using h
      cases o with
      | none =>
        have h1r : os.countP Option.isSome = 1 := by simpa [List.countP_cons] using h1
        obtain ⟨i, e, hi, hget, hrec⟩ := ih os hlen h1r
        refine ⟨i + 1, e, by simpa using hi, by simpa using hget, ?_⟩
        unfold expectedFailures at hrec ⊢
        simpa [List.zip_cons_cons, List.filterMap_cons] using hrec
      | some e =>
        have h0 : os.countP Option.isSome = 0 := by simpa [List.countP_cons] using h1
        have hnil : expectedFailures ds os = [] := by
          apply List.eq_nil_of_length_eq_zero
          rw [expectedFailures_length ds os hlen, h0]
        refine ⟨0, e, by simp, by simp, ?_⟩
        unfold expectedFailures at hnil ⊢
        simp [List.zip_cons_cons, List.filterMap_cons, hnil]

end Loop

/-! ## Sequencing -/

section Sequencing

variable {W : Type}

/-- Sequencing after a part that completes normally. -/
theorem Prog.bind_of_normal {α β : Type} (p : Prog W α) (q : α → Prog W β) (w : W) (a : α)
    (h : (p w).completion = .normal a) :
    Prog.bind p q w =
      ⟨(q a (p w).world).completion, (q a (p w).world).world,
       (p w).events ++ (q a (p w).world).events⟩ := by
  unfold Prog.bind
  generalize p w = r at h
  obtain ⟨c, w1, ev1⟩ := r
  simp only at h
  subst h
  rfl

/-- Sequencing after a part that throws: the rest does not run. -/
theorem Prog.bind_of_throw {α β : Type} (p : Prog W α) (q : α → Prog W β) (w : W) (e : JsError)
    (h : (p w).completion = .throw e) :
    Prog.bind p q w = ⟨.throw e, (p w).world, (p w).events⟩ := by
  unfold Prog.bind
  generalize p w = r at h
  obtain ⟨c, w1, ev1⟩ := r
  simp only at h
  subst h
  rfl

/-- A `try` whose body completes normally: the handler does not run. -/
theorem Prog.tryCatch_of_normal {α : Type} (p : Prog W α) (handler : JsError → Prog W α) (w : W)
    (a : α) (h : (p w).completion = .normal a) :
    Prog.tryCatch p handler w = p w := by
  unfold Prog.tryCatch
  generalize p w = r at h
  obtain ⟨c, w1, ev1⟩ := r
  simp only at h
  subst h
  rfl

/-- A `try` whose body throws: the handler runs on the error, from the world the
body left. -/
theorem Prog.tryCatch_of_throw {α : Type} (p : Prog W α) (handler : JsError → Prog W α) (w : W)
    (e : JsError) (h : (p w).completion = .throw e) :
    Prog.tryCatch p handler w =
      ⟨(handler e (p w).world).completion, (handler e (p w).world).world,
       (p w).events ++ (handler e (p w).world).events⟩ := by
  unfold Prog.tryCatch
  generalize p w = r at h
  obtain ⟨c, w1, ev1⟩ := r
  simp only at h
  subst h
  rfl

/-- Sequencing after a log call that succeeds. -/
theorem bind_xdmpLog (H : Host W) (hlog : LogSucceeds H) {β : Type} (line : LogLine)
    (q : Unit → Prog W β) (w : W) :
    Prog.bind (xdmpLog H line) q w =
      ⟨(q () (H.log w line.render).2).completion, (q () (H.log w line.render).2).world,
       .logCall line none :: (q () (H.log w line.render).2).events⟩ := by
  rw [Prog.bind_of_normal (xdmpLog H line) q w () (by rw [xdmpLog_of_logSucceeds H hlog])]
  simp only [xdmpLog_of_logSucceeds H hlog, List.singleton_append]

/-- A count query that succeeds. -/
theorem ctsEstimate_of_estimateSucceeds (H : Host W) (hest : EstimateSucceeds H)
    (collection : String) (w : W) :
    ctsEstimate H collection w =
      ⟨.normal (estimateValue H w collection), w,
       [.estimateCall collection (.ok (estimateValue H w collection))]⟩ := by
  obtain ⟨n, hn⟩ := hest w collection
  simp only [ctsEstimate, estimateValue, hn]

/-- Sequencing after a count query that succeeds. -/
theorem bind_ctsEstimate (H : Host W) (hest : EstimateSucceeds H) {β : Type} (collection : String)
    (q : Nat → Prog W β) (w : W) :
    Prog.bind (ctsEstimate H collection) q w =
      ⟨(q (estimateValue H w collection) w).completion,
       (q (estimateValue H w collection) w).world,
       .estimateCall collection (.ok (estimateValue H w collection)) ::
         (q (estimateValue H w collection) w).events⟩ := by
  rw [Prog.bind_of_normal (ctsEstimate H collection) q w (estimateValue H w collection)
    (by rw [ctsEstimate_of_estimateSucceeds H hest])]
  simp only [ctsEstimate_of_estimateSucceeds H hest, List.singleton_append]

/-- The value `insertDocuments` returns when the log calls succeed. -/
theorem insertDocuments_completion (H : Host W) (hlog : LogSucceeds H)
    (documents : List Document) (collectionName : String) (w : W) :
    (insertDocuments H documents collectionName w).completion =
      .normal ((insertOutcomes
        (insertDocuments H documents collectionName w).events).countP Option.isNone) := by
  have h := (insertDocumentsFrom_run H hlog collectionName documents 0 w).1
  unfold insertDocuments
  rw [h, Nat.zero_add]

/-- Sequencing after a call of `insertDocuments`, when the log calls succeed. -/
theorem bind_insertDocuments (H : Host W) (hlog : LogSucceeds H) {β : Type}
    (documents : List Document) (collectionName : String) (q : Nat → Prog W β) (w : W) :
    Prog.bind (insertDocuments H documents collectionName) q w =
      ⟨(q ((insertOutcomes (insertDocuments H documents collectionName w).events).countP
            Option.isNone) (insertDocuments H documents collectionName w).world).completion,
       (q ((insertOutcomes (insertDocuments H documents collectionName w).events).countP
            Option.isNone) (insertDocuments H documents collectionName w).world).world,
       (insertDocuments H documents collectionName w).events ++
         (q ((insertOutcomes (insertDocuments H documents collectionName w).events).countP
            Option.isNone) (insertDocuments H documents collectionName w).world).events⟩ :=
  Prog.bind_of_normal _ q w _ (insertDocuments_completion H hlog documents collectionName w)

/-- Failure records of two runs of calls, one after the other. -/
theorem failureRecords_append (a b : List Event) :
    failureRecords (a ++ b) = failureRecords a ++ failureRecords b := by
  induction a with
  | nil => rfl
  | cons e rest ih =>
    rcases e with ⟨uri, content, options, thrown⟩ | ⟨line, thrown⟩ | ⟨collection, result⟩
    · simp [failureRecords, ih]
    · cases line <;> cases thrown <;> simp [failureRecords, ih]
    · simp [failureRecords, ih]

/-- Insert outcomes of two runs of calls, one after the other. -/
theorem insertOutcomes_append (a b : List Event) :
    insertOutcomes (a ++ b) = insertOutcomes a ++ insertOutcomes b := by
  induction a with
  | nil => rfl
  | cons e rest ih =>
    rcases e with ⟨uri, content, options, thrown⟩ | ⟨line, thrown⟩ | ⟨collection, result⟩ <;>
      simp [insertOutcomes, ih]

/-- The trailing log calls, when log calls succeed: they complete and record no failure. -/
theorem logAll_run (H : Host W) (hlog : LogSucceeds H) :
    ∀ (texts : List String) (w : W),
      (logAll H texts w).completion = .normal () ∧
      failureRecords (logAll H texts w).events = [] ∧
      insertOutcomes (logAll H texts w).events = [] := by
  intro texts
  induction texts with
  | nil => intro w; exact ⟨rfl, rfl, rfl⟩
  | cons text rest ih =>
    intro w
    obtain ⟨h1, h2, h3⟩ := ih (H.log w (LogLine.sample text).render).2
    simp only [logAll, bind_xdmpLog H hlog]
    exact ⟨h1, by simpa [failureRecords] using h2, by simpa [insertOutcomes] using h3⟩

/-- When every insert succeeds, every recorded outcome of the loop is a success. -/
theorem insertOutcomes_of_insertSucceeds (H : Host W) (hins : InsertSucceeds H)
    (hlog : LogSucceeds H) (collectionName : String) :
    ∀ (documents : List Document) (n : Nat) (w : W),
      insertOutcomes (insertDocumentsFrom H collectionName documents n w).events =
        List.replicate documents.length none := by
  intro documents
  induction documents with
  | nil => intro n w; rfl
  | cons doc rest ih =>
    intro n w
    rw [insertDocumentsFrom_cons_ok H hlog collectionName doc rest n w (hins _ _ _ _)]
    simp only [insertOutcomes, ih, List.length_cons, List.replicate_succ]

/-- When every insert and log call succeeds, `insertDocuments` returns the length of
the batch and records no failure. -/
theorem insertDocuments_of_insertSucceeds (H : Host W) (hins : InsertSucceeds H)
    (hlog : LogSucceeds H) (documents : List Document) (collectionName : String) (w : W) :
    (insertDocuments H documents collectionName w).completion = .normal documents.length ∧
    failureRecords (insertDocuments H documents collectionName w).events = [] := by
  have hout := insertOutcomes_of_insertSucceeds H hins hlog collectionName documents 0 w
  obtain ⟨_, _, h3, h4, _⟩ := insertDocumentsFrom_run H hlog collectionName documents 0 w
  constructor
  · rw [insertDocuments_completion H hlog]
    unfold insertDocuments
    rw [hout]
    simp [List.countP_replicate]
  · unfold insertDocuments
    rw [h4]
    apply List.eq_nil_of_length_eq_zero
    rw [expectedFailures_length _ _ h3, hout]
    simp [List.countP_replicate]

end Sequencing

/-- The log calls of the fixture store succeed. -/
theorem fixtureHost_logSucceeds (policy : DuplicatePolicy) (faults : Faults) :
    LogSucceeds (fixtureHost policy faults) := fun _ _ => rfl

/-! ## The load -/

section Load

variable {W : Type}

/-- The load body when every insert, log call and count query succeeds. -/
theorem loadBody_of_succeeds (H : Host W) (hins : InsertSucceeds H) (hlog : LogSucceeds H)
    (hest : EstimateSucceeds H) (w : W) :
    (∃ redCount blueCount : Nat,
      (loadBody H w).completion = .normal ⟨5, 5, 10, redCount, blueCount⟩) ∧
    failureRecords (loadBody H w).events = [] := by
  have hc : ∀ (documents : List Document) (collectionName : String) (w : W),
      (insertOutcomes (insertDocuments H documents collectionName w).events).countP
        Option.isNone = documents.length := by
    intro documents collectionName w
    have h1 := insertDocuments_completion H hlog documents collectionName w
    rw [(insertDocuments_of_insertSucceeds H hins hlog documents collectionName w).1] at h1
    injection h1 with h1
    exact h1.symm
  have hf : ∀ (documents : List Document) (collectionName : String) (w : W),
      failureRecords (insertDocuments H documents collectionName w).events = [] :=
    fun documents collectionName w =>
      (insertDocuments_of_insertSucceeds H hins hlog documents collectionName w).2
  simp only [loadBody, bind_xdmpLog H hlog, bind_insertDocuments H hlog,
    bind_ctsEstimate H hest, Prog.pure, hc]
  refine ⟨⟨_, _, rfl⟩, ?_⟩
  simp [failureRecords, failureRecords_append, hf]

/-- Inserts into an overwriting store without injected failures always succeed. -/
theorem fixtureHost_overwrite_insertSucceeds :
    InsertSucceeds (fixtureHost .overwrite noFaults) := by
  intro s uri content options
  simp [fixtureHost, FixtureStore.documentInsert, noFaults]

/-- The count queries of the fixture store succeed. -/
theorem fixtureHost_estimateSucceeds (policy : DuplicatePolicy) (faults : Faults) :
    EstimateSucceeds (fixtureHost policy faults) := fun s c => ⟨s.count c, rfl⟩

/-- C5: after the load script has run on the empty store with every insert
succeeding, under either duplicate policy, five stored documents are tagged "red"
and five "blue", and these are the counts the verification step reads back. -/
theorem loadScript_counts_five (policy : DuplicatePolicy) :
    insertOutcomes (loadScript (fixtureHost policy noFaults) FixtureStore.empty).events =
      List.replicate 10 none ∧
    (∃ summary : LoadSummary,
      (loadScript (fixtureHost policy noFaults) FixtureStore.empty).completion =
        .normal summary ∧
      summary.redCount = 5 ∧ summary.blueCount = 5) ∧
    (loadScript (fixtureHost policy noFaults) FixtureStore.empty).world.count "red" = 5 ∧
    (loadScript (fixtureHost policy noFaults) FixtureStore.empty).world.count "blue" = 5 := by
  cases policy
  · exact ⟨by decide, ⟨⟨5, 5, 10, 5, 5⟩, by decide, rfl, rfl⟩, by decide, by decide⟩
  · exact ⟨by decide, ⟨⟨5, 5, 10, 5, 5⟩, by decide, rfl, rfl⟩, by decide, by decide⟩

/-- C10, as the code has it: when an error `e` escapes the body of the top-level
`try`, the handler passes its message to `xdmp.log` and the block always ends by
throwing; it throws the very same `e` when that log call returns normally, and the
error of the log call when the log call itself throws. -/
theorem loadBlock_logs_and_rethrows (H : Host W) (w : W) (e : JsError)
    (h : (loadBody H w).completion = .throw e) :
    (loadBlock H w).events =
      (loadBody H w).events ++
        [.logCall (.epicFailure e.message)
          (H.log (loadBody H w).world (LogLine.epicFailure e.message).render).1] ∧
    ((H.log (loadBody H w).world (LogLine.epicFailure e.message).render).1 = none →
      (loadBlock H w).completion = .throw e) ∧
    (∀ e2 : JsError,
      (H.log (loadBody H w).world (LogLine.epicFailure e.message).render).1 = some e2 →
      (loadBlock H w).completion = .throw e2) ∧
    (∃ thrown : JsError, (loadBlock H w).completion = .throw thrown) := by
  unfold loadBlock
  rw [Prog.tryCatch_of_throw (loadBody H) (loadHandler H) w e h]
  generalize (loadBody H w).world = w1
  generalize (loadBody H w).events = ev1
  simp only [loadHandler, Prog.bind, xdmpLog, Prog.throw]
  generalize H.log w1 (LogLine.epicFailure e.message).render = r
  obtain ⟨o, w2⟩ := r
  cases o with
  | none => simp
  | some e2 => simp

/-- Witness of C10: on a store whose count query throws, the load block logs the
error and rethrows it. -/
theorem loadBlock_logs_and_rethrows_witness :
    (loadBody noCountHost FixtureStore.empty).completion =
      .throw ⟨"XDMP-SAMPLE", "count unavailable"⟩ ∧
    (loadBlock noCountHost FixtureStore.empty).completion =
      .throw ⟨"XDMP-SAMPLE", "count unavailable"⟩ :=
  ⟨by decide,
   (loadBlock_logs_and_rethrows noCountHost FixtureStore.empty
      ⟨"XDMP-SAMPLE", "count unavailable"⟩ (by decide)).2.1 rfl⟩

/-- C10 as stated fails: with a log that always throws, the error escaping the body
is the one of the first log call, and the block throws another one, that of the
log call in the handler. -/
theorem loadBlock_rethrow_replaced_by_log_error :
    (loadBody brokenLogHost ()).completion =
      .throw ⟨"XDMP-LOG", LogLine.starting.render⟩ ∧
    (loadBlock brokenLogHost ()).completion ≠
      .throw ⟨"XDMP-LOG", LogLine.starting.render⟩ ∧
    (loadBlock brokenLogHost ()).completion =
      .throw ⟨"XDMP-LOG", (LogLine.epicFailure LogLine.starting.render).render⟩ := by
  refine ⟨by decide, by decide, by decide⟩

end Load

/-! ## The fixture store: storing and retrieving -/

section Store

/-- Replacing the documents at a URI leaves retrieval by another URI as it was. -/
theorem lookup_map_replace_of_ne (uri other : String) (d : StoredDoc) (hne : other ≠ uri) :
    ∀ docs : List (String × StoredDoc),
      (docs.map fun e => if e.1 = uri then (uri, d) else e).lookup other = docs.lookup other := by
  have hb : (other == uri) = false := by simpa using hne
  intro docs
  induction docs with
  | nil => rfl
  | cons e rest ih =>
    obtain ⟨k, v⟩ := e
    by_cases hk : k = uri
    · subst hk
      simp only [List.map_cons, if_true, List.lookup_cons, hb, ih]
    · simp only [List.map_cons, hk, if_false, List.lookup_cons, ih]

/-- Appending a document at a URI leaves retrieval by another URI as it was. -/
theorem lookup_append_of_ne (uri other : String) (d : StoredDoc) (hne : other ≠ uri) :
    ∀ docs : List (String × StoredDoc),
      (docs ++ [(uri, d)]).lookup other = docs.lookup other := by
  have hb : (other == uri) = false := by simpa using hne
  intro docs
  induction docs with
  | nil => simp only [List.nil_append, List.lookup_cons, hb, List.lookup_nil]
  | cons e rest ih =>
    obtain ⟨k, v⟩ := e
    simp only [List.cons_append, List.lookup_cons, ih]

/-- Replacing the documents at a present URI makes retrieval give the new document. -/
theorem lookup_map_replace_self (uri : String) (d : StoredDoc) :
    ∀ docs : List (String × StoredDoc), (docs.any fun e => e.1 == uri) = true →
      (docs.map fun e => if e.1 = uri then (uri, d) else e).lookup uri = some d := by
  intro docs
  induction docs with
  | nil => intro h; simp at h
  | cons e rest ih =>
    intro h
    obtain ⟨k, v⟩ := e
    by_cases hk : k = uri
    · subst hk
      simp only [List.map_cons, if_true, List.lookup_cons, beq_self_eq_true]
    · have hrest : (rest.any fun e => e.1 == uri) = true := by
        simpa [List.any_cons, hk] using h
      have hb : (uri == k) = false := by
        simpa using fun h2 : uri = k => hk h2.symm
      simp only [List.map_cons, hk, if_false, List.lookup_cons, hb, ih hrest]

/-- Appending a document at an absent URI makes retrieval give the new document. -/
theorem lookup_append_self (uri : String) (d : StoredDoc) :
    ∀ docs : List (String × StoredDoc), ¬ (docs.any fun e => e.1 == uri) = true →
      (docs ++ [(uri, d)]).lookup uri = some d := by
  intro docs
  induction docs with
  | nil => intro _; simp only [List.nil_append, List.lookup_cons, beq_self_eq_true]
  | cons e rest ih =>
    intro h
    obtain ⟨k, v⟩ := e
    have hk : ¬ k = uri := by
      intro hk
      apply h
      simp [List.any_cons, hk]
    have hrest : ¬ (rest.any fun e => e.1 == uri) = true := by
      intro hr
      apply h
      simp only [List.any_cons, hr, Bool.or_true]
    have hb : (uri == k) = false := by
      simpa using fun h2 : uri = k => hk h2.symm
    simp only [List.cons_append, List.lookup_cons, hb, ih hrest]

/-- After storing under a URI, retrieval by that URI gives the stored document. -/
theorem lookup_putDoc_self (docs : List (String × StoredDoc)) (uri : String) (d : StoredDoc) :
    (putDoc docs uri d).lookup uri = some d := by
  unfold putDoc
  split
  · rename_i h
    exact lookup_map_replace_self uri d docs h
  · rename_i h
    exact lookup_append_self uri d docs h

/-- Storing under a URI leaves retrieval by any other URI as it was. -/
theorem lookup_putDoc_of_ne (docs : List (String × StoredDoc)) (uri other : String)
    (d : StoredDoc) (hne : other ≠ uri) :
    (putDoc docs uri d).lookup other = docs.lookup other := by
  unfold putDoc
  split
  · exact lookup_map_replace_of_ne uri other d hne docs
  · exact lookup_append_of_ne uri other d hne docs

/-- Every entry of the store after storing is an entry from before or the new one. -/
theorem mem_putDoc (docs : List (String × StoredDoc)) (uri : String) (d : StoredDoc)
    (e : String × StoredDoc) (h : e ∈ putDoc docs uri d) : e ∈ docs ∨ e = (uri, d) := by
  unfold putDoc at h
  split at h
  · obtain ⟨e0, he0, hmap⟩ := List.mem_map.mp h
    by_cases hk : e0.1 = uri
    · right
      simpa [hk] using hmap.symm
    · left
      have : e0 = e := by simpa [hk] using hmap
      exact this ▸ he0
  · rcases List.mem_append.mp h with h1 | h1
    · exact Or.inl h1
    · exact Or.inr (by simpa using h1)

/-- A URI present before storing is present after it. -/
theorem any_putDoc_of_any (docs : List (String × StoredDoc)) (uri other : String)
    (d : StoredDoc) (h : (docs.any fun e => e.1 == other) = true) :
    ((putDoc docs uri d).any fun e => e.1 == other) = true := by
  unfold putDoc
  obtain ⟨e, he, hk⟩ := List.any_eq_true.mp h
  split
  · apply List.any_eq_true.mpr
    by_cases hu : e.1 = uri
    · refine ⟨(uri, d), List.mem_map.mpr ⟨e, he, by simp [hu]⟩, ?_⟩
      have : e.1 = other := by simpa using hk
      simp [← this, hu]
    · exact ⟨e, List.mem_map.mpr ⟨e, he, by simp [hu]⟩, hk⟩
  · exact List.any_eq_true.mpr ⟨e, List.mem_append_left _ he, hk⟩

/-- The URI stored under is present afterwards. -/
theorem any_putDoc_self (docs : List (String × StoredDoc)) (uri : String) (d : StoredDoc) :
    ((putDoc docs uri d).any fun e => e.1 == uri) = true := by
  by_cases h : (docs.any fun e => e.1 == uri) = true
  · exact any_putDoc_of_any docs uri uri d h
  · unfold putDoc
    rw [if_neg h]
    simp

end Store

/-! ## The loop on the fixture store -/

section FixtureLoop

/-- A failed insert leaves the documents of the store as they were. -/
theorem documentInsert_docs_of_error (policy : DuplicatePolicy) (faults : Faults)
    (s : FixtureStore) (uri : String) (content : JVal) (options : InsertOptions) (e : JsError)
    (h : (FixtureStore.documentInsert policy faults s uri content options).1 = some e) :
    (FixtureStore.documentInsert policy faults s uri content options).2.docs = s.docs := by
  unfold FixtureStore.documentInsert at h ⊢
  split
  · rfl
  · rename_i hf
    rw [hf] at h
    split
    · rfl
    · rename_i hc
      simp [hc] at h

/-- A successful insert stores the document under its URI. -/
theorem documentInsert_docs_of_ok (policy : DuplicatePolicy) (faults : Faults)
    (s : FixtureStore) (uri : String) (content : JVal) (options : InsertOptions)
    (h : (FixtureStore.documentInsert policy faults s uri content options).1 = none) :
    (FixtureStore.documentInsert policy faults s uri content options).2.docs =
      putDoc s.docs uri ⟨content, options.collections, options.permissions⟩ := by
  unfold FixtureStore.documentInsert at h ⊢
  split
  · rename_i e hf
    rw [hf] at h
    simp at h
  · rename_i hf
    rw [hf] at h
    split
    · rename_i hc
      simp [hc] at h
    · rfl

/-- One iteration on the fixture store: the loop goes on from the store the insert
call left, and the outcome of the insert call heads the outcomes. -/
theorem fixture_cons (policy : DuplicatePolicy) (faults : Faults) (collectionName : String)
    (doc : Document) (rest : List Document) (n : Nat) (s : FixtureStore) :
    ∃ m : Nat,
      (insertDocumentsFrom (fixtureHost policy faults) collectionName (doc :: rest) n s).world =
        (insertDocumentsFrom (fixtureHost policy faults) collectionName rest m
          (FixtureStore.documentInsert policy faults s doc.uri doc.content
            (insertOptions collectionName)).2).world ∧
      insertOutcomes
          (insertDocumentsFrom (fixtureHost policy faults) collectionName (doc :: rest) n s).events =
        (FixtureStore.documentInsert policy faults s doc.uri doc.content
            (insertOptions collectionName)).1 ::
          insertOutcomes (insertDocumentsFrom (fixtureHost policy faults) collectionName rest m
            (FixtureStore.documentInsert policy faults s doc.uri doc.content
              (insertOptions collectionName)).2).events := by
  cases h : (FixtureStore.documentInsert policy faults s doc.uri doc.content
      (insertOptions collectionName)).1 with
  | none =>
    refine ⟨n + 1, ?_⟩
    rw [insertDocumentsFrom_cons_ok (fixtureHost policy faults) (fixtureHost_logSucceeds _ _)
      collectionName doc rest n s h]
    exact ⟨rfl, rfl⟩
  | some e =>
    refine ⟨n, ?_⟩
    rw [insertDocumentsFrom_cons_err (fixtureHost policy faults) (fixtureHost_logSucceeds _ _)
      collectionName doc rest n s e h]
    exact ⟨rfl, rfl⟩

/-- Frame for one URI: if no document of the batch with that URI is inserted
successfully, retrieval by that URI gives after the loop what it gave before. -/
theorem get_after_loop_of_no_success (policy : DuplicatePolicy) (faults : Faults)
    (collectionName : String) (uri : String) :
    ∀ (documents : List Document) (n : Nat) (s : FixtureStore),
      (∀ (j : Nat) (later : Document), documents[j]? = some later → later.uri = uri →
        (insertOutcomes (insertDocumentsFrom (fixtureHost policy faults) collectionName
          documents n s).events)[j]? ≠ some none) →
      (insertDocumentsFrom (fixtureHost policy faults) collectionName documents n s).world.get uri
        = s.get uri := by
  intro documents
  induction documents with
  | nil => intro n s _; rfl
  | cons doc rest ih =>
    intro n s hno
    obtain ⟨m, hw, ho⟩ := fixture_cons policy faults collectionName doc rest n s
    rw [hw]
    rw [ho] at hno
    have hrest := ih m (FixtureStore.documentInsert policy faults s doc.uri doc.content
      (insertOptions collectionName)).2 (fun j later hj hu => by
        have := hno (j + 1) later (by simpa using hj) hu
        simpa using this)
    rw [hrest]
    cases h : (FixtureStore.documentInsert policy faults s doc.uri doc.content
        (insertOptions collectionName)).1 with
    | none =>
      have hne : uri ≠ doc.uri := by
        intro hu
        have := hno 0 doc (by simp) hu.symm
        simp [h] at this
      unfold FixtureStore.get
      rw [documentInsert_docs_of_ok policy faults s _ _ _ h]
      exact lookup_putDoc_of_ne s.docs doc.uri uri _ hne
    | some e =>
      unfold FixtureStore.get
      rw [documentInsert_docs_of_error policy faults s _ _ _ e h]

/-- Round trip through the loop: a document whose insert succeeded, and which no
later successful insert of the batch replaced, is what retrieval by its URI gives. -/
theorem get_after_loop_of_success (policy : DuplicatePolicy) (faults : Faults)
    (collectionName : String) :
    ∀ (documents : List Document) (n : Nat) (s : FixtureStore) (i : Nat) (doc : Document),
      documents[i]? = some doc →
      (insertOutcomes (insertDocumentsFrom (fixtureHost policy faults) collectionName
        documents n s).events)[i]? = some none →
      (∀ (j : Nat) (later : Document), i < j → documents[j]? = some later →
        later.uri = doc.uri →
        (insertOutcomes (insertDocumentsFrom (fixtureHost policy faults) collectionName
          documents n s).events)[j]? ≠ some none) →
      (insertDocumentsFrom (fixtureHost policy faults) collectionName documents n s).world.get
        doc.uri = some (storedDoc collectionName doc) := by
  intro documents
  induction documents with
  | nil => intro n s i doc hdoc; simp at hdoc
  | cons first rest ih =>
    intro n s i doc hdoc hok hlast
    obtain ⟨m, hw, ho⟩ := fixture_cons policy faults collectionName first rest n s
    rw [ho] at hok hlast
    rw [hw]
    cases i with
    | zero =>
      have hfirst : first = doc := by simpa using hdoc
      subst hfirst
      have h : (FixtureStore.documentInsert policy faults s first.uri first.content
          (insertOptions collectionName)).1 = none := by simpa using hok
      rw [get_after_loop_of_no_success policy faults collectionName first.uri rest m _
        (fun j later hj hu => by
          have := hlast (j + 1) later (Nat.succ_pos j) (by simpa using hj) hu
          simpa using this)]
      unfold FixtureStore.get
      rw [documentInsert_docs_of_ok policy faults s _ _ _ h]
      exact lookup_putDoc_self s.docs first.uri _
    | succ i =>
      exact ih m _ i doc (by simpa using hdoc) (by simpa using hok)
        (fun j later hij hj hu => by
          have := hlast (j + 1) later (Nat.succ_lt_succ hij) (by simpa using hj) hu
          simpa using this)

end FixtureLoop

/-! ## Round trip -/

/-- C7, as the code has it: on the fixture store, under either duplicate policy and
any injected failures, for every batch, every collection name `c` and every
document of the batch whose insert succeeded and whose URI is not the URI of a
later document of the batch that was inserted successfully, retrieval by the
document's URI after `insertDocuments` gives the document's content, with `c`
among its tags. -/
theorem insertDocuments_round_trip (policy : DuplicatePolicy) (faults : Faults)
    (documents : List Document) (collectionName : String) (s : FixtureStore)
    (i : Nat) (doc : Document) (hdoc : documents[i]? = some doc)
    (hok : (insertOutcomes (insertDocuments (fixtureHost policy faults) documents
      collectionName s).events)[i]? = some none)
    (hlast : ∀ (j : Nat) (later : Document), i < j → documents[j]? = some later →
      later.uri = doc.uri →
      (insertOutcomes (insertDocuments (fixtureHost policy faults) documents
        collectionName s).events)[j]? ≠ some none) :
    ∃ stored : StoredDoc,
      (insertDocuments (fixtureHost policy faults) documents collectionName s).world.get doc.uri
        = some stored ∧
      stored.content = doc.content ∧ collectionName ∈ stored.collections :=
  ⟨storedDoc collectionName doc,
   get_after_loop_of_success policy faults collectionName documents 0 s i doc hdoc hok hlast,
   rfl, List.mem_singleton.mpr rfl⟩

/-- Witness of C7: the first red document after the red batch was loaded into the
empty rejecting store. -/
theorem insertDocuments_round_trip_witness :
    ∃ stored : StoredDoc,
      (insertDocuments (fixtureHost .reject noFaults) redDocuments "red"
        FixtureStore.empty).world.get "/test-data/red/song1.json" = some stored ∧
      stored.content = (redDocuments.headD ⟨"", .str ""⟩).content ∧ "red" ∈ stored.collections :=
  insertDocuments_round_trip .reject noFaults redDocuments "red" FixtureStore.empty 0
    (redDocuments.headD ⟨"", .str ""⟩) rfl (by decide)
    (fun j later hij hj hu => by
      have hj5 : j < 5 := by
        by_contra hge
        have : redDocuments[j]? = none := List.getElem?_eq_none (by simpa using hge)
        rw [this] at hj
        cases hj
      interval_cases j
      all_goals
        simp [redDocuments] at hj
        subst hj
        simp [redDocuments] at hu)

/-- C7 as stated fails: on the overwriting store both inserts of a batch that names
a URI twice succeed, and retrieval gives the content of the second document, not
that of the first. -/
theorem round_trip_fails_for_repeated_uri :
    ¬ (∀ (i : Nat) (doc : Document), twoVersions[i]? = some doc →
        (insertOutcomes (insertDocuments (fixtureHost .overwrite noFaults) twoVersions "red"
          FixtureStore.empty).events)[i]? = some none →
        ∃ stored : StoredDoc,
          (insertDocuments (fixtureHost .overwrite noFaults) twoVersions "red"
            FixtureStore.empty).world.get doc.uri = some stored ∧
          stored.content = doc.content ∧ "red" ∈ stored.collections) := by
  intro h
  obtain ⟨stored, hget, hcontent, _⟩ :=
    h 0 ⟨"/test-data/red/song1.json", .str "first"⟩ rfl (by decide)
  have hsecond : (insertDocuments (fixtureHost .overwrite noFaults) twoVersions "red"
      FixtureStore.empty).world.get "/test-data/red/song1.json" =
      some ⟨.str "second", ["red"], (insertOptions "red").permissions⟩ := by rfl
  rw [hsecond] at hget
  injection hget with hget
  subst hget
  simp at hcontent

/-! ## The load on the fixture store -/

section FixtureLoad

variable {W : Type}

/-- The script after a load body that completed normally, when log calls succeed:
the trailing log calls change neither the result nor the records. -/
theorem loadScript_of_body_normal (H : Host W) (hlog : LogSucceeds H) (w : W)
    (summary : LoadSummary) (h : (loadBody H w).completion = .normal summary) :
    (loadScript H w).completion = .normal summary ∧
    (loadScript H w).world = (logAll H sampleQueries (loadBody H w).world).world ∧
    failureRecords (loadScript H w).events = failureRecords (loadBody H w).events ∧
    insertOutcomes (loadScript H w).events = insertOutcomes (loadBody H w).events := by
  have hblock : loadBlock H w = loadBody H w :=
    Prog.tryCatch_of_normal (loadBody H) (loadHandler H) w _ h
  obtain ⟨hl1, hl2, hl3⟩ := logAll_run H hlog sampleQueries (loadBlock H w).world
  have hscript := Prog.bind_of_normal (loadBlock H)
    (fun summary => Prog.bind (logAll H sampleQueries) fun _ => Prog.pure summary) w
    summary (by rw [hblock, h])
  have hrest := Prog.bind_of_normal (logAll H sampleQueries)
    (fun _ => (Prog.pure summary : Prog W LoadSummary)) (loadBlock H w).world () hl1
  unfold loadScript
  rw [hscript]
  simp only [hrest, Prog.pure, failureRecords_append, insertOutcomes_append, hl2, hl3,
    List.append_nil, failureRecords, insertOutcomes]
  rw [hblock]
  exact ⟨trivial, rfl, rfl, rfl⟩

/-- The trailing log calls leave the fixture store as it is. -/
theorem logAll_world_fixture (policy : DuplicatePolicy) (faults : Faults) :
    ∀ (texts : List String) (s : FixtureStore),
      (logAll (fixtureHost policy faults) texts s).world = s := by
  intro texts
  induction texts with
  | nil => intro s; rfl
  | cons text rest ih =>
    intro s
    simp only [logAll, bind_xdmpLog (fixtureHost policy faults) (fixtureHost_logSucceeds _ _)]
    exact ih s

/-- The load script on the fixture store: it completes normally; its store is the one
left by the red batch followed by the blue batch; the counts it reports are those
of the two calls of `insertDocuments` and of that store. -/
theorem loadScript_fixture (policy : DuplicatePolicy) (faults : Faults) (s : FixtureStore) :
    (loadScript (fixtureHost policy faults) s).world =
      (insertDocuments (fixtureHost policy faults) blueDocuments "blue"
        (insertDocuments (fixtureHost policy faults) redDocuments "red" s).world).world ∧
    (loadScript (fixtureHost policy faults) s).completion =
      .normal
        ⟨(insertOutcomes (insertDocuments (fixtureHost policy faults) redDocuments "red"
            s).events).countP Option.isNone,
         (insertOutcomes (insertDocuments (fixtureHost policy faults) blueDocuments "blue"
            (insertDocuments (fixtureHost policy faults) redDocuments "red" s).world).events).countP
            Option.isNone,
         (insertOutcomes (insertDocuments (fixtureHost policy faults) redDocuments "red"
            s).events).countP Option.isNone +
          (insertOutcomes (insertDocuments (fixtureHost policy faults) blueDocuments "blue"
            (insertDocuments (fixtureHost policy faults) redDocuments "red" s).world).events).countP
            Option.isNone,
         (insertDocuments (fixtureHost policy faults) blueDocuments "blue"
            (insertDocuments (fixtureHost policy faults) redDocuments "red" s).world).world.count
            "red",
         (insertDocuments (fixtureHost policy faults) blueDocuments "blue"
            (insertDocuments (fixtureHost policy faults) redDocuments "red" s).world).world.count
            "blue"⟩ ∧
    failureRecords (loadScript (fixtureHost policy faults) s).events =
      failureRecords (insertDocuments (fixtureHost policy faults) redDocuments "red" s).events ++
        failureRecords (insertDocuments (fixtureHost policy faults) blueDocuments "blue"
          (insertDocuments (fixtureHost policy faults) redDocuments "red" s).world).events ∧
    insertOutcomes (loadScript (fixtureHost policy faults) s).events =
      insertOutcomes (insertDocuments (fixtureHost policy faults) redDocuments "red" s).events ++
        insertOutcomes (insertDocuments (fixtureHost policy faults) blueDocuments "blue"
          (insertDocuments (fixtureHost policy faults) redDocuments "red" s).world).events := by
  have hlog := fixtureHost_logSucceeds policy faults
  have hest := fixtureHost_estimateSucceeds policy faults
  have hbody : (loadBody (fixtureHost policy faults) s).completion =
      .normal
        ⟨(insertOutcomes (insertDocuments (fixtureHost policy faults) redDocuments "red"
            s).events).countP Option.isNone,
         (insertOutcomes (insertDocuments (fixtureHost policy faults) blueDocuments "blue"
            (insertDocuments (fixtureHost policy faults) redDocuments "red" s).world).events).countP
            Option.isNone,
         (insertOutcomes (insertDocuments (fixtureHost policy faults) redDocuments "red"
            s).events).countP Option.isNone +
          (insertOutcomes (insertDocuments (fixtureHost policy faults) blueDocuments "blue"
            (insertDocuments (fixtureHost policy faults) redDocuments "red" s).world).events).countP
            Option.isNone,
         (insertDocuments (fixtureHost policy faults) blueDocuments "blue"
            (insertDocuments (fixtureHost policy faults) redDocuments "red" s).world).world.count
            "red",
         (insertDocuments (fixtureHost policy faults) blueDocuments "blue"
            (insertDocuments (fixtureHost policy faults) redDocuments "red" s).world).world.count
            "blue"⟩ ∧
      (loadBody (fixtureHost policy faults) s).world =
        (insertDocuments (fixtureHost policy faults) blueDocuments "blue"
          (insertDocuments (fixtureHost policy faults) redDocuments "red" s).world).world ∧
      failureRecords (loadBody (fixtureHost policy faults) s).events =
        failureRecords (insertDocuments (fixtureHost policy faults) redDocuments "red" s).events ++
          failureRecords (insertDocuments (fixtureHost policy faults) blueDocuments "blue"
            (insertDocuments (fixtureHost policy faults) redDocuments "red" s).world).events ∧
      insertOutcomes (loadBody (fixtureHost policy faults) s).events =
        insertOutcomes (insertDocuments (fixtureHost policy faults) redDocuments "red" s).events ++
          insertOutcomes (insertDocuments (fixtureHost policy faults) blueDocuments "blue"
            (insertDocuments (fixtureHost policy faults) redDocuments "red" s).world).events := by
    simp only [loadBody, bind_xdmpLog _ hlog, bind_insertDocuments _ hlog,
      bind_ctsEstimate _ hest, Prog.pure]
    refine ⟨rfl, rfl, ?_, ?_⟩
    · simp only [failureRecords, failureRecords_append, List.append_nil]
      rfl
    · simp only [insertOutcomes, insertOutcomes_append, List.append_nil]
      rfl
  obtain ⟨hb1, hb2, hb3, hb4⟩ := hbody
  obtain ⟨h1, h2, h3, h4⟩ := loadScript_of_body_normal _ hlog s _ hb1
  refine ⟨?_, h1, h3.trans hb3, h4.trans hb4⟩
  rw [h2, logAll_world_fixture, hb2]

end FixtureLoad

/-! ## Collections never inserted into -/

section Untagged

/-- The count of a collection is zero exactly when no stored document is tagged with it. -/
theorem count_eq_zero_iff (s : FixtureStore) (c : String) :
    s.count c = 0 ↔ ∀ e ∈ s.docs, c ∉ e.2.collections := by
  unfold FixtureStore.count
  rw [List.countP_eq_zero]
  constructor
  · intro h e he hc
    exact h e he (by simpa using hc)
  · intro h e he hc
    exact h e he (by simpa using hc)

/-- The loop run for one collection name tags no document with another name. -/
theorem loop_keeps_untagged (policy : DuplicatePolicy) (faults : Faults)
    (collectionName c : String) (hne : c ≠ collectionName) :
    ∀ (documents : List Document) (n : Nat) (s : FixtureStore),
      (∀ e ∈ s.docs, c ∉ e.2.collections) →
      ∀ e ∈ (insertDocumentsFrom (fixtureHost policy faults) collectionName documents n
        s).world.docs, c ∉ e.2.collections := by
  intro documents
  induction documents with
  | nil => intro n s h; exact h
  | cons doc rest ih =>
    intro n s h
    obtain ⟨m, hw, _⟩ := fixture_cons policy faults collectionName doc rest n s
    rw [hw]
    apply ih m
    cases ho : (FixtureStore.documentInsert policy faults s doc.uri doc.content
        (insertOptions collectionName)).1 with
    | none =>
      rw [documentInsert_docs_of_ok policy faults s _ _ _ ho]
      intro e he
      rcases mem_putDoc _ _ _ e he with h1 | h1
      · exact h e h1
      · subst h1
        simpa [insertOptions] using hne
    | some err =>
      rw [documentInsert_docs_of_error policy faults s _ _ _ err ho]
      exact h

/-- A history of `insertDocuments` calls tags no document with a name none of the
calls was given. -/
theorem batches_keep_untagged (policy : DuplicatePolicy) (faults : Faults) (c : String) :
    ∀ (calls : List (List Document × String)) (s : FixtureStore),
      c ∉ calls.map Prod.snd →
      (∀ e ∈ s.docs, c ∉ e.2.collections) →
      ∀ e ∈ (insertBatches (fixtureHost policy faults) calls s).world.docs,
        c ∉ e.2.collections := by
  intro calls
  induction calls with
  | nil => intro s _ h; exact h
  | cons batch rest ih =>
    intro s hc h
    have hc1 : c ≠ batch.2 := by
      intro heq
      exact hc (by simp [heq])
    have hc2 : c ∉ rest.map Prod.snd := by
      intro hmem
      exact hc (by simp only [List.map_cons, List.mem_cons, hmem, or_true])
    simp only [insertBatches,
      bind_insertDocuments (fixtureHost policy faults) (fixtureHost_logSucceeds _ _)]
    exact ih _ hc2 (loop_keeps_untagged policy faults batch.2 c hc1 batch.1 0 s h)

end Untagged

/-- C8: on the fixture store, under either duplicate policy and any injected
failures: after any history of `insertDocuments` calls from the empty store, a
collection name `c` that none of the calls was given has count 0, and the count
query answers 0 without throwing; in particular, after the load script has run on
the empty store, every name other than "red" and "blue" has count 0. -/
theorem count_zero_of_never_inserted (policy : DuplicatePolicy) (faults : Faults) :
    (∀ (calls : List (List Document × String)) (c : String), c ∉ calls.map Prod.snd →
      (insertBatches (fixtureHost policy faults) calls FixtureStore.empty).world.count c = 0 ∧
      (fixtureHost policy faults).estimate
        (insertBatches (fixtureHost policy faults) calls FixtureStore.empty).world c = .ok 0) ∧
    (∀ c : String, c ≠ "red" → c ≠ "blue" →
      (loadScript (fixtureHost policy faults) FixtureStore.empty).world.count c = 0 ∧
      (fixtureHost policy faults).estimate
        (loadScript (fixtureHost policy faults) FixtureStore.empty).world c = .ok 0) := by
  have hempty : ∀ c : String, ∀ e ∈ FixtureStore.empty.docs, c ∉ e.2.collections := by
    intro c e he
    simp [FixtureStore.empty] at he
  constructor
  · intro calls c hc
    have h0 : (insertBatches (fixtureHost policy faults) calls FixtureStore.empty).world.count c
        = 0 :=
      (count_eq_zero_iff _ c).mpr
        (batches_keep_untagged policy faults c calls FixtureStore.empty hc (hempty c))
    refine ⟨h0, ?_⟩
    show Except.ok _ = Except.ok 0
    rw [h0]
  · intro c hred hblue
    have h0 : (loadScript (fixtureHost policy faults) FixtureStore.empty).world.count c = 0 := by
      rw [(loadScript_fixture policy faults FixtureStore.empty).1]
      apply (count_eq_zero_iff _ c).mpr
      exact loop_keeps_untagged policy faults "blue" c hblue blueDocuments 0 _
        (loop_keeps_untagged policy faults "red" c hred redDocuments 0 _ (hempty c))
    refine ⟨h0, ?_⟩
    show Except.ok _ = Except.ok 0
    rw [h0]

/-- Witness of C8: after the red and the blue batch, "green" has count 0. -/
theorem count_zero_of_never_inserted_witness :
    (insertBatches (fixtureHost .reject failThird)
      [(redDocuments, "red"), (blueDocuments, "blue")] FixtureStore.empty).world.count "green"
      = 0 ∧
    (loadScript (fixtureHost .reject failThird) FixtureStore.empty).world.count "green" = 0 :=
  ⟨((count_zero_of_never_inserted .reject failThird).1
      [(redDocuments, "red"), (blueDocuments, "blue")] "green" (by decide)).1,
   ((count_zero_of_never_inserted .reject failThird).2 "green" (by decide) (by decide)).1⟩

/-! ## Loading twice -/

section Twice

/-- After storing `d` under `uri`, the store holds exactly `d` there. -/
theorem holds_putDoc_self (docs : List (String × StoredDoc)) (uri : String) (d : StoredDoc) :
    Holds (putDoc docs uri d) uri d := by
  refine ⟨any_putDoc_self docs uri d, ?_⟩
  intro e he hk
  unfold putDoc at he
  split at he
  · obtain ⟨e0, _, hmap⟩ := List.mem_map.mp he
    by_cases h0 : e0.1 = uri
    · simpa [h0] using hmap.symm
    · have : e0 = e := by simpa [h0] using hmap
      exact absurd (this ▸ hk) h0
  · rename_i hany
    rcases List.mem_append.mp he with h1 | h1
    · exfalso
      apply hany
      exact List.any_eq_true.mpr ⟨e, h1, by simpa using hk⟩
    · simpa using h1

/-- Storing under another URI does not disturb what the store holds under `uri`. -/
theorem holds_putDoc_of_ne (docs : List (String × StoredDoc)) (uri other : String)
    (d held : StoredDoc) (hne : uri ≠ other) (h : Holds docs uri held) :
    Holds (putDoc docs other d) uri held := by
  refine ⟨any_putDoc_of_any docs other uri d h.1, ?_⟩
  intro e he hk
  rcases mem_putDoc docs other d e he with h1 | h1
  · exact h.2 e h1 hk
  · subst h1
    exact absurd hk.symm hne

/-- Storing again what the store holds already changes nothing. -/
theorem putDoc_eq_self (docs : List (String × StoredDoc)) (uri : String) (d : StoredDoc)
    (h : Holds docs uri d) : putDoc docs uri d = docs := by
  unfold putDoc
  rw [if_pos h.1]
  conv_rhs => rw [← List.map_id docs]
  apply List.map_congr_left
  intro e he
  by_cases hk : e.1 = uri
  · simp [hk, h.2 e he hk]
  · simp [hk]

/-- Without injected failures an insert into the overwriting store succeeds. -/
theorem overwrite_insert_ok (s : FixtureStore) (uri : String) (content : JVal)
    (options : InsertOptions) :
    (FixtureStore.documentInsert .overwrite noFaults s uri content options).1 = none :=
  fixtureHost_overwrite_insertSucceeds s uri content options

/-- On the overwriting store the loop leaves alone what is held under a URI that
the batch does not name. -/
theorem loop_holds_of_holds (collectionName : String) (uri : String) (held : StoredDoc) :
    ∀ (documents : List Document) (n : Nat) (s : FixtureStore),
      (∀ doc ∈ documents, uri ≠ doc.uri) → Holds s.docs uri held →
      Holds (insertDocumentsFrom (fixtureHost .overwrite noFaults) collectionName documents n
        s).world.docs uri held := by
  intro documents
  induction documents with
  | nil => intro n s _ h; exact h
  | cons doc rest ih =>
    intro n s hne h
    obtain ⟨m, hw, _⟩ := fixture_cons .overwrite noFaults collectionName doc rest n s
    rw [hw]
    apply ih m _ (fun d hd => hne d (List.mem_cons_of_mem _ hd))
    rw [documentInsert_docs_of_ok .overwrite noFaults s _ _ _ (overwrite_insert_ok _ _ _ _)]
    exact holds_putDoc_of_ne s.docs uri doc.uri _ held (hne doc (List.mem_cons_self _ _)) h

/-- On the overwriting store, after a batch with pairwise distinct URIs the store
holds each document of the batch under its URI. -/
theorem loop_holds_batch (collectionName : String) :
    ∀ (documents : List Document) (n : Nat) (s : FixtureStore),
      (documents.map Document.uri).Nodup →
      ∀ doc ∈ documents,
        Holds (insertDocumentsFrom (fixtureHost .overwrite noFaults) collectionName documents n
          s).world.docs doc.uri (storedDoc collectionName doc) := by
  intro documents
  induction documents with
  | nil => intro n s _ doc hdoc; simp at hdoc
  | cons first rest ih =>
    intro n s hnd doc hdoc
    obtain ⟨m, hw, _⟩ := fixture_cons .overwrite noFaults collectionName first rest n s
    rw [hw]
    have hnd2 : first.uri ∉ rest.map Document.uri ∧ (rest.map Document.uri).Nodup := by
      simpa using hnd
    rcases List.mem_cons.mp hdoc with h1 | h1
    · subst h1
      apply loop_holds_of_holds collectionName doc.uri _ rest m _
      · intro d hd heq
        exact hnd2.1 (List.mem_map.mpr ⟨d, hd, heq.symm⟩)
      · rw [documentInsert_docs_of_ok .overwrite noFaults s _ _ _
          (overwrite_insert_ok _ _ _ _)]
        exact holds_putDoc_self s.docs doc.uri _
    · exact ih m _ hnd2.2 doc h1

/-- On the overwriting store, a batch whose documents the store holds already
leaves the documents of the store as they are. -/
theorem loop_docs_eq_of_holds (collectionName : String) :
    ∀ (documents : List Document) (n : Nat) (s : FixtureStore),
      (∀ doc ∈ documents, Holds s.docs doc.uri (storedDoc collectionName doc)) →
      (insertDocumentsFrom (fixtureHost .overwrite noFaults) collectionName documents n
        s).world.docs = s.docs := by
  intro documents
  induction documents with
  | nil => intro n s _; rfl
  | cons first rest ih =>
    intro n s h
    obtain ⟨m, hw, _⟩ := fixture_cons .overwrite noFaults collectionName first rest n s
    have hstep : (FixtureStore.documentInsert .overwrite noFaults s first.uri first.content
        (insertOptions collectionName)).2.docs = s.docs := by
      rw [documentInsert_docs_of_ok .overwrite noFaults s _ _ _ (overwrite_insert_ok _ _ _ _)]
      exact putDoc_eq_self s.docs first.uri _ (h first (List.mem_cons_self _ _))
    rw [hw, ih m _ (fun d hd => by rw [hstep]; exact h d (List.mem_cons_of_mem _ hd)), hstep]

/-- Under any policy and failures, a URI present before the loop is present after it. -/
theorem loop_has_of_has (policy : DuplicatePolicy) (faults : Faults) (collectionName : String)
    (uri : String) :
    ∀ (documents : List Document) (n : Nat) (s : FixtureStore),
      s.has uri = true →
      (insertDocumentsFrom (fixtureHost policy faults) collectionName documents n
        s).world.has uri = true := by
  intro documents
  induction documents with
  | nil => intro n s h; exact h
  | cons doc rest ih =>
    intro n s h
    obtain ⟨m, hw, _⟩ := fixture_cons policy faults collectionName doc rest n s
    rw [hw]
    apply ih m
    unfold FixtureStore.has at h ⊢
    cases ho : (FixtureStore.documentInsert policy faults s doc.uri doc.content
        (insertOptions collectionName)).1 with
    | none =>
      rw [documentInsert_docs_of_ok policy faults s _ _ _ ho]
      exact any_putDoc_of_any s.docs doc.uri uri _ h
    | some err =>
      rw [documentInsert_docs_of_error policy faults s _ _ _ err ho]
      exact h

/-- Without injected failures, the URI of an insert call is present in the store
after the call, whether the call succeeded or was rejected. -/
theorem has_after_insert (policy : DuplicatePolicy) (s : FixtureStore) (uri : String)
    (content : JVal) (options : InsertOptions) :
    (FixtureStore.documentInsert policy noFaults s uri content options).2.has uri = true := by
  unfold FixtureStore.has
  cases ho : (FixtureStore.documentInsert policy noFaults s uri content options).1 with
  | none =>
    rw [documentInsert_docs_of_ok policy noFaults s _ _ _ ho]
    exact any_putDoc_self s.docs uri _
  | some err =>
    rw [documentInsert_docs_of_error policy noFaults s _ _ _ err ho]
    have hs : s.has uri = true := by
      by_contra hno
      simp [FixtureStore.documentInsert, noFaults, hno] at ho
    exact hs

/-- Without injected failures, every URI of a batch is present after the loop. -/
theorem loop_has_batch (policy : DuplicatePolicy) (collectionName : String) :
    ∀ (documents : List Document) (n : Nat) (s : FixtureStore),
      ∀ doc ∈ documents,
        (insertDocumentsFrom (fixtureHost policy noFaults) collectionName documents n
          s).world.has doc.uri = true := by
  intro documents
  induction documents with
  | nil => intro n s doc hdoc; simp at hdoc
  | cons first rest ih =>
    intro n s doc hdoc
    obtain ⟨m, hw, _⟩ := fixture_cons policy noFaults collectionName first rest n s
    rw [hw]
    rcases List.mem_cons.mp hdoc with h1 | h1
    · subst h1
      exact loop_has_of_has policy noFaults collectionName doc.uri rest m _
        (has_after_insert policy s doc.uri doc.content _)
    · exact ih m _ doc h1

/-- On the rejecting store, a batch whose URIs are all present has every insert
rejected, and the documents of the store stay as they are. -/
theorem loop_rejects_present (collectionName : String) :
    ∀ (documents : List Document) (n : Nat) (s : FixtureStore),
      (∀ doc ∈ documents, s.has doc.uri = true) →
      insertOutcomes (insertDocumentsFrom (fixtureHost .reject noFaults) collectionName
          documents n s).events = documents.map (fun d => some (duplicateUri d.uri)) ∧
      (insertDocumentsFrom (fixtureHost .reject noFaults) collectionName documents n
          s).world.docs = s.docs := by
  intro documents
  induction documents with
  | nil => intro n s _; exact ⟨rfl, rfl⟩
  | cons first rest ih =>
    intro n s h
    obtain ⟨m, hw, ho⟩ := fixture_cons .reject noFaults collectionName first rest n s
    have hfirst : (FixtureStore.documentInsert .reject noFaults s first.uri first.content
        (insertOptions collectionName)).1 = some (duplicateUri first.uri) := by
      simp [FixtureStore.documentInsert, noFaults, h first (List.mem_cons_self _ _)]
    have hstep := documentInsert_docs_of_error .reject noFaults s _ _ _ _ hfirst
    have hrest := ih m (FixtureStore.documentInsert .reject noFaults s first.uri first.content
      (insertOptions collectionName)).2 (fun d hd => by
        have := h d (List.mem_cons_of_mem _ hd)
        unfold FixtureStore.has at this ⊢
        rw [hstep]
        exact this)
    rw [hw, ho, hrest.1, hrest.2, hstep, hfirst]
    exact ⟨rfl, rfl⟩

/-- The failure records expected when every insert of a batch is rejected. -/
theorem expectedFailures_of_rejected (documents : List Document) :
    expectedFailures documents (documents.map fun d => some (duplicateUri d.uri)) =
      documents.map (fun d => (d.uri, (duplicateUri d.uri).message)) := by
  induction documents with
  | nil => rfl
  | cons d rest ih =>
    unfold expectedFailures at ih ⊢
    simp only [List.map_cons, List.zip_cons_cons, List.filterMap_cons, Option.map_some', ih]

/-- No insert of a batch succeeded when every insert was rejected. -/
theorem countP_isNone_of_rejected (documents : List Document) :
    (documents.map fun d => some (duplicateUri d.uri)).countP Option.isNone = 0 := by
  rw [List.countP_eq_zero]
  intro o ho
  obtain ⟨d, _, hd⟩ := List.mem_map.mp ho
  subst hd
  simp

end Twice

/-- The URIs of the red fixtures are pairwise distinct. -/
theorem redDocuments_uri_nodup : (redDocuments.map Document.uri).Nodup := by decide

/-- The URIs of the blue fixtures are pairwise distinct. -/
theorem blueDocuments_uri_nodup : (blueDocuments.map Document.uri).Nodup := by decide

/-- No red fixture shares its URI with a blue one. -/
theorem red_uri_ne_blue_uri : ∀ r ∈ redDocuments, ∀ b ∈ blueDocuments, r.uri ≠ b.uri := by
  decide

/-- Loading twice into the overwriting store: the second load leaves the documents of
the store as the first load left them. -/
theorem load_twice_overwrite_docs (s : FixtureStore) :
    (loadScript (fixtureHost .overwrite noFaults)
      (loadScript (fixtureHost .overwrite noFaults) s).world).world.docs =
    (loadScript (fixtureHost .overwrite noFaults) s).world.docs := by
  rw [(loadScript_fixture .overwrite noFaults _).1]
  generalize hs1 : (loadScript (fixtureHost .overwrite noFaults) s).world = s1
  have hfirst := (loadScript_fixture .overwrite noFaults s).1
  rw [hs1] at hfirst
  have hredHeld : ∀ r ∈ redDocuments, Holds s1.docs r.uri (storedDoc "red" r) := by
    intro r hr
    rw [hfirst]
    exact loop_holds_of_holds "blue" r.uri _ blueDocuments 0 _
      (fun b hb => red_uri_ne_blue_uri r hr b hb)
      (loop_holds_batch "red" redDocuments 0 s redDocuments_uri_nodup r hr)
  have hblueHeld : ∀ b ∈ blueDocuments, Holds s1.docs b.uri (storedDoc "blue" b) := by
    intro b hb
    rw [hfirst]
    exact loop_holds_batch "blue" blueDocuments 0 _ blueDocuments_uri_nodup b hb
  have hred2 : (insertDocuments (fixtureHost .overwrite noFaults) redDocuments "red"
      s1).world.docs = s1.docs :=
    loop_docs_eq_of_holds "red" redDocuments 0 s1 hredHeld
  have hblue2 : (insertDocuments (fixtureHost .overwrite noFaults) blueDocuments "blue"
      (insertDocuments (fixtureHost .overwrite noFaults) redDocuments "red" s1).world).world.docs =
      (insertDocuments (fixtureHost .overwrite noFaults) redDocuments "red" s1).world.docs :=
    loop_docs_eq_of_holds "blue" blueDocuments 0 _ (fun b hb => by
      rw [hred2]
      exact hblueHeld b hb)
  rw [hblue2, hred2]

/-- Loading twice into the rejecting store: in the second load every insert of the red
and of the blue batch is rejected. -/
theorem load_twice_reject_outcomes (s : FixtureStore) :
    insertOutcomes (insertDocuments (fixtureHost .reject noFaults) redDocuments "red"
      (loadScript (fixtureHost .reject noFaults) s).world).events =
        redDocuments.map (fun d => some (duplicateUri d.uri)) ∧
    insertOutcomes (insertDocuments (fixtureHost .reject noFaults) blueDocuments "blue"
      (insertDocuments (fixtureHost .reject noFaults) redDocuments "red"
        (loadScript (fixtureHost .reject noFaults) s).world).world).events =
        blueDocuments.map (fun d => some (duplicateUri d.uri)) := by
  generalize hs1 : (loadScript (fixtureHost .reject noFaults) s).world = s1
  have hfirst := (loadScript_fixture .reject noFaults s).1
  rw [hs1] at hfirst
  have hredHas : ∀ r ∈ redDocuments, s1.has r.uri = true := by
    intro r hr
    rw [hfirst]
    exact loop_has_of_has .reject noFaults "blue" r.uri blueDocuments 0 _
      (loop_has_batch .reject "red" redDocuments 0 s r hr)
  have hblueHas : ∀ b ∈ blueDocuments, s1.has b.uri = true := by
    intro b hb
    rw [hfirst]
    exact loop_has_batch .reject "blue" blueDocuments 0 _ b hb
  obtain ⟨hr1, hr2⟩ := loop_rejects_present "red" redDocuments 0 s1 hredHas
  obtain ⟨hb1, _⟩ := loop_rejects_present "blue" blueDocuments 0
    (insertDocuments (fixtureHost .reject noFaults) redDocuments "red" s1).world
    (fun b hb => by
      have := hblueHas b hb
      unfold FixtureStore.has at this ⊢
      rw [show (insertDocuments (fixtureHost .reject noFaults) redDocuments "red"
        s1).world.docs = s1.docs from hr2]
      exact this)
  exact ⟨hr1, hb1⟩

/-! ## Runs in which any call may throw -/

section AnyHost

variable {W : Type}

/-- Insert attempts of two runs of calls, one after the other. -/
theorem insertAttempts_append (a b : List Event) :
    insertAttempts (a ++ b) = insertAttempts a ++ insertAttempts b := by
  induction a with
  | nil => rfl
  | cons e rest ih =>
    rcases e with ⟨uri, content, options, thrown⟩ | ⟨line, thrown⟩ | ⟨collection, result⟩ <;>
      simp [insertAttempts, ih]

/-- Per-document records of two runs of calls, one after the other. -/
theorem documentRecords_append (a b : List Event) :
    documentRecords (a ++ b) = documentRecords a ++ documentRecords b := by
  induction a with
  | nil => rfl
  | cons e rest ih =>
    rcases e with ⟨uri, content, options, thrown⟩ | ⟨line, thrown⟩ | ⟨collection, result⟩
    · simp [documentRecords, ih]
    · cases line <;> cases thrown <;> simp [documentRecords, ih]
    · simp [documentRecords, ih]

/-- Failures of other calls in two runs of calls, one after the other. -/
theorem otherFailures_append (a b : List Event) :
    otherFailures (a ++ b) = otherFailures a ++ otherFailures b := by
  induction a with
  | nil => rfl
  | cons e rest ih =>
    rcases e with ⟨uri, content, options, thrown⟩ | ⟨line, thrown⟩ | ⟨collection, result⟩
    · simp [otherFailures, ih]
    · cases thrown <;> simp [otherFailures, ih]
    · cases result <;> simp [otherFailures, ih]

/-- One iteration of the loop on any host, for a property `P` of the world that
insert calls of this collection and log calls keep.  The iteration makes exactly
one insert call, for its document; then either the loop goes on with the rest, or
a log call in the `catch` block threw and the error leaves the loop. -/
theorem loop_step (H : Host W) (collectionName : String) (P : W → Prop)
    (hI : ∀ w uri content, P w →
      P (H.documentInsert w uri content (insertOptions collectionName)).2)
    (hL : ∀ w text, P w → P (H.log w text).2)
    (doc : Document) (rest : List Document) (n : Nat) (w : W) (hw : P w) :
    ∃ (n1 : Nat) (w1 : W) (ev : List Event),
      P w1 ∧ insertAttempts ev = [insertArgs collectionName doc] ∧
      ((insertDocumentsFrom H collectionName (doc :: rest) n w =
          ⟨(insertDocumentsFrom H collectionName rest n1 w1).completion,
           (insertDocumentsFrom H collectionName rest n1 w1).world,
           ev ++ (insertDocumentsFrom H collectionName rest n1 w1).events⟩ ∧
        documentRecords ev = [doc.uri]) ∨
       (∃ e : JsError, insertDocumentsFrom H collectionName (doc :: rest) n w = ⟨.throw e, w1, ev⟩ ∧
          otherFailures ev ≠ [] ∧ documentRecords ev = [])) := by
  have hw1 := hI w doc.uri doc.content hw
  rcases h1 : H.documentInsert w doc.uri doc.content (insertOptions collectionName) with ⟨o1, w1⟩
  rw [h1] at hw1
  simp only at hw1
  cases o1 with
  | none =>
    have hw2 := hL w1 (LogLine.inserted doc.uri collectionName).render hw1
    rcases h2 : H.log w1 (LogLine.inserted doc.uri collectionName).render with ⟨o2, w2⟩
    rw [h2] at hw2
    simp only at hw2
    cases o2 with
    | none =>
      refine ⟨n + 1, w2,
        [.insertCall doc.uri doc.content (insertOptions collectionName) none,
         .logCall (.inserted doc.uri collectionName) none], hw2, rfl, Or.inl ⟨?_, rfl⟩⟩
      simp only [insertDocumentsFrom, Prog.bind, tryInsert, xdmpDocumentInsert, xdmpLog, h1, h2,
        List.singleton_append, List.cons_append, List.nil_append]
    | some e2 =>
      have hw3 := hL w2 (LogLine.errorInserting doc.uri e2.message).render hw2
      rcases h3 : H.log w2 (LogLine.errorInserting doc.uri e2.message).render with ⟨o3, w3⟩
      rw [h3] at hw3
      simp only at hw3
      cases o3 with
      | none =>
        refine ⟨n + 1, w3,
          [.insertCall doc.uri doc.content (insertOptions collectionName) none,
           .logCall (.inserted doc.uri collectionName) (some e2),
           .logCall (.errorInserting doc.uri e2.message) none], hw3, rfl, Or.inl ⟨?_, rfl⟩⟩
        simp only [insertDocumentsFrom, Prog.bind, tryInsert, xdmpDocumentInsert, xdmpLog,
          h1, h2, h3, List.singleton_append, List.cons_append, List.nil_append]
      | some e3 =>
        refine ⟨n + 1, w3,
          [.insertCall doc.uri doc.content (insertOptions collectionName) none,
           .logCall (.inserted doc.uri collectionName) (some e2),
           .logCall (.errorInserting doc.uri e2.message) (some e3)], hw3, rfl,
          Or.inr ⟨e3, ?_, by simp [otherFailures], rfl⟩⟩
        simp only [insertDocumentsFrom, Prog.bind, tryInsert, xdmpDocumentInsert, xdmpLog,
          h1, h2, h3, List.singleton_append, List.cons_append, List.nil_append]
  | some e1 =>
    have hw3 := hL w1 (LogLine.errorInserting doc.uri e1.message).render hw1
    rcases h3 : H.log w1 (LogLine.errorInserting doc.uri e1.message).render with ⟨o3, w3⟩
    rw [h3] at hw3
    simp only at hw3
    cases o3 with
    | none =>
      refine ⟨n, w3,
        [.insertCall doc.uri doc.content (insertOptions collectionName) (some e1),
         .logCall (.errorInserting doc.uri e1.message) none], hw3, rfl, Or.inl ⟨?_, rfl⟩⟩
      simp only [insertDocumentsFrom, Prog.bind, tryInsert, xdmpDocumentInsert, xdmpLog,
        h1, h3, List.singleton_append, List.cons_append, List.nil_append]
    | some e3 =>
      refine ⟨n, w3,
        [.insertCall doc.uri doc.content (insertOptions collectionName) (some e1),
         .logCall (.errorInserting doc.uri e1.message) (some e3)], hw3, rfl,
        Or.inr ⟨e3, ?_, by simp [otherFailures], rfl⟩⟩
      simp only [insertDocumentsFrom, Prog.bind, tryInsert, xdmpDocumentInsert, xdmpLog,
        h1, h3, List.singleton_append, List.cons_append, List.nil_append]

/-- The loop on any host, for a property `P` of the world that insert calls of this
collection and log calls keep: `P` holds of the world the loop leaves; the insert
calls made, and the per-document records written, are those of an initial part of
the batch, in order, and of the whole batch when the loop returns normally; and the
loop throws only after a log call threw. -/
theorem loop_run_any (H : Host W) (collectionName : String) (P : W → Prop)
    (hI : ∀ w uri content, P w →
      P (H.documentInsert w uri content (insertOptions collectionName)).2)
    (hL : ∀ w text, P w → P (H.log w text).2) :
    ∀ (documents : List Document) (n : Nat) (w : W), P w →
      P (insertDocumentsFrom H collectionName documents n w).world ∧
      insertAttempts (insertDocumentsFrom H collectionName documents n w).events <+:
        documents.map (insertArgs collectionName) ∧
      documentRecords (insertDocumentsFrom H collectionName documents n w).events <+:
        documents.map Document.uri ∧
      (∀ k : Nat, (insertDocumentsFrom H collectionName documents n w).completion = .normal k →
        insertAttempts (insertDocumentsFrom H collectionName documents n w).events =
          documents.map (insertArgs collectionName) ∧
        documentRecords (insertDocumentsFrom H collectionName documents n w).events =
          documents.map Document.uri) ∧
      (∀ e : JsError, (insertDocumentsFrom H collectionName documents n w).completion = .throw e →
        otherFailures (insertDocumentsFrom H collectionName documents n w).events ≠ []) := by
  intro documents
  induction documents with
  | nil =>
    intro n w hw
    refine ⟨hw, ?_, ?_, ?_, ?_⟩
    · exact List.nil_prefix
    · exact List.nil_prefix
    · intro k _; exact ⟨rfl, rfl⟩
    · intro e he; cases he
  | cons doc rest ih =>
    intro n w hw
    obtain ⟨n1, w1, ev, hw1, hatt, hstep⟩ := loop_step H collectionName P hI hL doc rest n w hw
    rcases hstep with ⟨hrun, hrec⟩ | ⟨e, hrun, hother, hrec⟩
    · obtain ⟨h1, h2, h3, h4, h5⟩ := ih n1 w1 hw1
      rw [hrun]
      simp only [insertAttempts_append, documentRecords_append, otherFailures_append, hatt, hrec,
        List.map_cons, List.singleton_append]
      refine ⟨h1, ?_, ?_, ?_, ?_⟩
      · exact (List.prefix_cons_inj _).mpr h2
      · exact (List.prefix_cons_inj _).mpr h3
      · intro k hk
        obtain ⟨h4a, h4b⟩ := h4 k hk
        rw [h4a, h4b]
        exact ⟨rfl, rfl⟩
      · intro e he
        have := h5 e he
        intro hnil
        exact this (List.append_eq_nil.mp hnil).2
    · rw [hrun]
      simp only [hatt, hrec, List.map_cons]
      refine ⟨hw1, ?_, List.nil_prefix, ?_, ?_⟩
      · exact (List.prefix_cons_inj _).mpr List.nil_prefix
      · intro k hk; cases hk
      · intro _ _; exact hother

end AnyHost

/-! ## Properties that pieces of the script pass on -/

section Compositional

variable {W : Type}

/-- A sequence either ran its second part after the first completed normally, or
stopped at the error the first part threw. -/
theorem Prog.bind_cases {α β : Type} (p : Prog W α) (q : α → Prog W β) (w : W) :
    (∃ a, (p w).completion = .normal a ∧
      Prog.bind p q w =
        ⟨(q a (p w).world).completion, (q a (p w).world).world,
         (p w).events ++ (q a (p w).world).events⟩) ∨
    (∃ e, (p w).completion = .throw e ∧
      Prog.bind p q w = ⟨.throw e, (p w).world, (p w).events⟩) := by
  cases h : (p w).completion with
  | normal a => exact Or.inl ⟨a, rfl, Prog.bind_of_normal p q w a h⟩
  | throw e => exact Or.inr ⟨e, rfl, Prog.bind_of_throw p q w e h⟩

/-- A `try` either came through its body, or ran the handler on the error the body
threw. -/
theorem Prog.tryCatch_cases {α : Type} (p : Prog W α) (handler : JsError → Prog W α) (w : W) :
    (∃ a, (p w).completion = .normal a ∧ Prog.tryCatch p handler w = p w) ∨
    (∃ e, (p w).completion = .throw e ∧
      Prog.tryCatch p handler w =
        ⟨(handler e (p w).world).completion, (handler e (p w).world).world,
         (p w).events ++ (handler e (p w).world).events⟩) := by
  cases h : (p w).completion with
  | normal a => exact Or.inl ⟨a, rfl, Prog.tryCatch_of_normal p handler w a h⟩
  | throw e => exact Or.inr ⟨e, rfl, Prog.tryCatch_of_throw p handler w e h⟩

/-- A sequence keeps what both of its parts keep. -/
theorem preserves_bind {α β : Type} (P : W → Prop) (p : Prog W α) (q : α → Prog W β)
    (hp : Preserves P p) (hq : ∀ a, Preserves P (q a)) : Preserves P (Prog.bind p q) := by
  intro w hw
  rcases Prog.bind_cases p q w with ⟨a, _, h⟩ | ⟨e, _, h⟩
  · rw [h]
    exact hq a _ (hp w hw)
  · rw [h]
    exact hp w hw

/-- A `try` keeps what its body and its handler keep. -/
theorem preserves_tryCatch {α : Type} (P : W → Prop) (p : Prog W α)
    (handler : JsError → Prog W α) (hp : Preserves P p) (hh : ∀ e, Preserves P (handler e)) :
    Preserves P (Prog.tryCatch p handler) := by
  intro w hw
  rcases Prog.tryCatch_cases p handler w with ⟨a, _, h⟩ | ⟨e, _, h⟩
  · rw [h]
    exact hp w hw
  · rw [h]
    exact hh e _ (hp w hw)

/-- Doing nothing keeps everything. -/
theorem preserves_pure {α : Type} (P : W → Prop) (a : α) :
    Preserves P (Prog.pure a : Prog W α) := fun _ hw => hw

/-- Throwing keeps everything. -/
theorem preserves_throw {α : Type} (P : W → Prop) (e : JsError) :
    Preserves P (Prog.throw e : Prog W α) := fun _ hw => hw

/-- A log call keeps what the log operation of the host keeps. -/
theorem preserves_xdmpLog (H : Host W) (P : W → Prop) (hL : ∀ w text, P w → P (H.log w text).2)
    (line : LogLine) : Preserves P (xdmpLog H line) := by
  intro w hw
  have h := hL w line.render hw
  unfold xdmpLog
  rcases hr : H.log w line.render with ⟨o, w1⟩
  rw [hr] at h
  cases o <;> exact h

/-- A count query leaves the world as it is. -/
theorem preserves_ctsEstimate (H : Host W) (P : W → Prop) (collection : String) :
    Preserves P (ctsEstimate H collection) := by
  intro w hw
  unfold ctsEstimate
  cases H.estimate w collection <;> exact hw

/-- The function `insertDocuments` keeps what insert calls of its collection and log
calls keep. -/
theorem preserves_insertDocuments (H : Host W) (P : W → Prop) (collectionName : String)
    (hI : ∀ w uri content, P w →
      P (H.documentInsert w uri content (insertOptions collectionName)).2)
    (hL : ∀ w text, P w → P (H.log w text).2) (documents : List Document) :
    Preserves P (insertDocuments H documents collectionName) :=
  fun w hw => (loop_run_any H collectionName P hI hL documents 0 w hw).1

/-- The trailing log calls keep what log calls keep. -/
theorem preserves_logAll (H : Host W) (P : W → Prop) (hL : ∀ w text, P w → P (H.log w text).2) :
    ∀ texts : List String, Preserves P (logAll H texts) := by
  intro texts
  induction texts with
  | nil => exact preserves_pure P ()
  | cons text rest ih =>
    exact preserves_bind P _ _ (preserves_xdmpLog H P hL _) (fun _ => ih)

/-- The load body keeps what insert calls for "red", insert calls for "blue" and log
calls keep. -/
theorem preserves_loadBody (H : Host W) (P : W → Prop)
    (hR : ∀ w uri content, P w → P (H.documentInsert w uri content (insertOptions "red")).2)
    (hB : ∀ w uri content, P w → P (H.documentInsert w uri content (insertOptions "blue")).2)
    (hL : ∀ w text, P w → P (H.log w text).2) : Preserves P (loadBody H) := by
  unfold loadBody
  refine preserves_bind P _ _ (preserves_xdmpLog H P hL _) fun _ => ?_
  refine preserves_bind P _ _ (preserves_insertDocuments H P "red" hR hL _) fun _ => ?_
  refine preserves_bind P _ _ (preserves_xdmpLog H P hL _) fun _ => ?_
  refine preserves_bind P _ _ (preserves_insertDocuments H P "blue" hB hL _) fun _ => ?_
  refine preserves_bind P _ _ (preserves_xdmpLog H P hL _) fun _ => ?_
  refine preserves_bind P _ _ (preserves_xdmpLog H P hL _) fun _ => ?_
  refine preserves_bind P _ _ (preserves_xdmpLog H P hL _) fun _ => ?_
  refine preserves_bind P _ _ (preserves_xdmpLog H P hL _) fun _ => ?_
  refine preserves_bind P _ _ (preserves_ctsEstimate H P _) fun _ => ?_
  refine preserves_bind P _ _ (preserves_ctsEstimate H P _) fun _ => ?_
  refine preserves_bind P _ _ (preserves_xdmpLog H P hL _) fun _ => ?_
  refine preserves_bind P _ _ (preserves_xdmpLog H P hL _) fun _ => ?_
  refine preserves_bind P _ _ (preserves_xdmpLog H P hL _) fun _ => ?_
  exact preserves_pure P _

/-- The whole script keeps what insert calls for "red", insert calls for "blue" and
log calls keep, however it ends. -/
theorem preserves_loadScript (H : Host W) (P : W → Prop)
    (hR : ∀ w uri content, P w → P (H.documentInsert w uri content (insertOptions "red")).2)
    (hB : ∀ w uri content, P w → P (H.documentInsert w uri content (insertOptions "blue")).2)
    (hL : ∀ w text, P w → P (H.log w text).2) : Preserves P (loadScript H) := by
  unfold loadScript loadBlock
  refine preserves_bind P _ _ ?_ fun _ => ?_
  · refine preserves_tryCatch P _ _ (preserves_loadBody H P hR hB hL) fun e => ?_
    exact preserves_bind P _ _ (preserves_xdmpLog H P hL _) fun _ => preserves_throw P e
  · exact preserves_bind P _ _ (preserves_logAll H P hL _) fun _ => preserves_pure P _

/-- A sequence throws only after another call failed, if its parts do. -/
theorem throwsOnly_bind {α β : Type} (p : Prog W α) (q : α → Prog W β)
    (hp : ThrowsOnlyAfterOtherFailure p) (hq : ∀ a, ThrowsOnlyAfterOtherFailure (q a)) :
    ThrowsOnlyAfterOtherFailure (Prog.bind p q) := by
  intro w e he
  rcases Prog.bind_cases p q w with ⟨a, _, h⟩ | ⟨e1, h1, h⟩
  · rw [h] at he ⊢
    simp only [otherFailures_append]
    intro hnil
    exact hq a _ e he (List.append_eq_nil.mp hnil).2
  · rw [h]
    exact hp w e1 h1

/-- A `try` throws only after another call failed, if its body does. -/
theorem throwsOnly_tryCatch {α : Type} (p : Prog W α) (handler : JsError → Prog W α)
    (hp : ThrowsOnlyAfterOtherFailure p) :
    ThrowsOnlyAfterOtherFailure (Prog.tryCatch p handler) := by
  intro w e he
  rcases Prog.tryCatch_cases p handler w with ⟨a, ha, h⟩ | ⟨e1, h1, h⟩
  · rw [h] at he
    rw [ha] at he
    cases he
  · rw [h]
    simp only [otherFailures_append]
    intro hnil
    exact hp w e1 h1 (List.append_eq_nil.mp hnil).1

/-- Doing nothing does not throw. -/
theorem throwsOnly_pure {α : Type} (a : α) :
    ThrowsOnlyAfterOtherFailure (Prog.pure a : Prog W α) := by
  intro w e he
  cases he

/-- A log call throws only when the log operation threw. -/
theorem throwsOnly_xdmpLog (H : Host W) (line : LogLine) :
    ThrowsOnlyAfterOtherFailure (xdmpLog H line) := by
  intro w e he
  unfold xdmpLog at he ⊢
  rcases hr : H.log w line.render with ⟨o, w1⟩
  rw [hr] at he
  cases o with
  | none => cases he
  | some e1 => simp [otherFailures]

/-- A count query throws only when the query threw. -/
theorem throwsOnly_ctsEstimate (H : Host W) (collection : String) :
    ThrowsOnlyAfterOtherFailure (ctsEstimate H collection) := by
  intro w e he
  unfold ctsEstimate at he ⊢
  cases hr : H.estimate w collection with
  | ok n => rw [hr] at he; cases he
  | error e1 => simp [otherFailures]

/-- The function `insertDocuments` throws only after a log call threw. -/
theorem throwsOnly_insertDocuments (H : Host W) (documents : List Document)
    (collectionName : String) :
    ThrowsOnlyAfterOtherFailure (insertDocuments H documents collectionName) :=
  fun w e he =>
    (loop_run_any H collectionName (fun _ => True) (fun _ _ _ _ => trivial)
      (fun _ _ _ => trivial) documents 0 w trivial).2.2.2.2 e he

/-- The load block throws only after a log call or a count query threw. -/
theorem throwsOnly_loadBlock (H : Host W) : ThrowsOnlyAfterOtherFailure (loadBlock H) := by
  unfold loadBlock
  apply throwsOnly_tryCatch
  unfold loadBody
  refine throwsOnly_bind _ _ (throwsOnly_xdmpLog H _) fun _ => ?_
  refine throwsOnly_bind _ _ (throwsOnly_insertDocuments H _ _) fun _ => ?_
  refine throwsOnly_bind _ _ (throwsOnly_xdmpLog H _) fun _ => ?_
  refine throwsOnly_bind _ _ (throwsOnly_insertDocuments H _ _) fun _ => ?_
  refine throwsOnly_bind _ _ (throwsOnly_xdmpLog H _) fun _ => ?_
  refine throwsOnly_bind _ _ (throwsOnly_xdmpLog H _) fun _ => ?_
  refine throwsOnly_bind _ _ (throwsOnly_xdmpLog H _) fun _ => ?_
  refine throwsOnly_bind _ _ (throwsOnly_xdmpLog H _) fun _ => ?_
  refine throwsOnly_bind _ _ (throwsOnly_ctsEstimate H _) fun _ => ?_
  refine throwsOnly_bind _ _ (throwsOnly_ctsEstimate H _) fun _ => ?_
  refine throwsOnly_bind _ _ (throwsOnly_xdmpLog H _) fun _ => ?_
  refine throwsOnly_bind _ _ (throwsOnly_xdmpLog H _) fun _ => ?_
  refine throwsOnly_bind _ _ (throwsOnly_xdmpLog H _) fun _ => ?_
  exact throwsOnly_pure _

/-- Reading an empty event list gives nothing, for a reading that goes through
concatenation. -/
theorem project_nil {β : Type} (f : List Event → List β)
    (hf : ∀ a b, f (a ++ b) = f a ++ f b) : f [] = [] := by
  have h := congrArg List.length (hf [] [])
  simp only [List.append_nil, List.length_append] at h
  exact List.eq_nil_of_length_eq_zero (by omega)

/-- Readings of a sequence: the lists of the two parts, one after the other. -/
theorem projectsTo_bind {α β γ : Type} (f : List Event → List γ)
    (hf : ∀ a b, f (a ++ b) = f a ++ f b) (L1 L2 : List γ) (p : Prog W α) (q : α → Prog W β)
    (hp : ProjectsTo f L1 p) (hq : ∀ a, ProjectsTo f L2 (q a)) :
    ProjectsTo f (L1 ++ L2) (Prog.bind p q) := by
  intro w
  rcases Prog.bind_cases p q w with ⟨a, ha, h⟩ | ⟨e, he, h⟩
  · rw [h]
    simp only [hf, (hp w).2 a ha]
    refine ⟨(List.prefix_append_right_inj L1).mpr (hq a _).1, ?_⟩
    intro b hb
    rw [(hq a _).2 b hb]
  · rw [h]
    refine ⟨(hp w).1.trans (List.prefix_append L1 L2), ?_⟩
    intro b hb
    cases hb

/-- Readings of a sequence whose first part contributes nothing. -/
theorem projectsTo_bind_left {α β γ : Type} (f : List Event → List γ)
    (hf : ∀ a b, f (a ++ b) = f a ++ f b) (L : List γ) (p : Prog W α) (q : α → Prog W β)
    (hp : ProjectsTo f [] p) (hq : ∀ a, ProjectsTo f L (q a)) :
    ProjectsTo f L (Prog.bind p q) := by
  have h := projectsTo_bind f hf [] L p q hp hq
  simpa using h

/-- Readings of a sequence whose second part contributes nothing. -/
theorem projectsTo_bind_right {α β γ : Type} (f : List Event → List γ)
    (hf : ∀ a b, f (a ++ b) = f a ++ f b) (L : List γ) (p : Prog W α) (q : α → Prog W β)
    (hp : ProjectsTo f L p) (hq : ∀ a, ProjectsTo f [] (q a)) :
    ProjectsTo f L (Prog.bind p q) := by
  have h := projectsTo_bind f hf L [] p q hp hq
  simpa using h

/-- Readings of doing nothing. -/
theorem projectsTo_pure {α γ : Type} (f : List Event → List γ)
    (hf : ∀ a b, f (a ++ b) = f a ++ f b) (a : α) :
    ProjectsTo f [] (Prog.pure a : Prog W α) := by
  intro w
  have h0 := project_nil f hf
  exact ⟨by simp [Prog.pure, h0], fun _ _ => h0⟩

/-- Readings of a log call whose message is not a per-document record, for a reading
that skips such calls. -/
theorem projectsTo_xdmpLog {γ : Type} (H : Host W) (f : List Event → List γ)
    (hlogs : ∀ line thrown, LogLine.perDocument line = false → f [.logCall line thrown] = [])
    (line : LogLine) (hline : line.perDocument = false) :
    ProjectsTo f [] (xdmpLog H line) := by
  intro w
  unfold xdmpLog
  rcases H.log w line.render with ⟨o, w1⟩
  cases o with
  | none => exact ⟨by simp [hlogs line none hline], fun _ _ => hlogs line none hline⟩
  | some e => exact ⟨by simp [hlogs line (some e) hline], fun _ _ => hlogs line (some e) hline⟩

/-- Readings of a count query, for a reading that skips count queries. -/
theorem projectsTo_ctsEstimate {γ : Type} (H : Host W) (f : List Event → List γ)
    (hcounts : ∀ collection result, f [.estimateCall collection result] = [])
    (collection : String) : ProjectsTo f [] (ctsEstimate H collection) := by
  intro w
  unfold ctsEstimate
  cases H.estimate w collection with
  | ok n => exact ⟨by simp [hcounts], fun _ _ => hcounts _ _⟩
  | error e => exact ⟨by simp [hcounts], fun _ _ => hcounts _ _⟩

/-- Readings of the trailing log calls. -/
theorem projectsTo_logAll {γ : Type} (H : Host W) (f : List Event → List γ)
    (hf : ∀ a b, f (a ++ b) = f a ++ f b)
    (hlogs : ∀ line thrown, LogLine.perDocument line = false → f [.logCall line thrown] = []) :
    ∀ texts : List String, ProjectsTo f [] (logAll H texts) := by
  intro texts
  induction texts with
  | nil => exact projectsTo_pure f hf ()
  | cons text rest ih =>
    exact projectsTo_bind_left f hf [] _ _ (projectsTo_xdmpLog H f hlogs _ rfl) (fun _ => ih)

/-- Readings of the whole script, for a reading that skips the log calls of the top
level and the count queries: what the red batch gives, then what the blue batch
gives; all of it when the script completes normally, an initial part otherwise. -/
theorem projectsTo_loadScript {γ : Type} (H : Host W) (f : List Event → List γ)
    (hf : ∀ a b, f (a ++ b) = f a ++ f b)
    (hlogs : ∀ line thrown, LogLine.perDocument line = false → f [.logCall line thrown] = [])
    (hcounts : ∀ collection result, f [.estimateCall collection result] = [])
    (Lred Lblue : List γ)
    (hred : ProjectsTo f Lred (insertDocuments H redDocuments "red"))
    (hblue : ProjectsTo f Lblue (insertDocuments H blueDocuments "blue")) :
    ProjectsTo f (Lred ++ Lblue) (loadScript H) := by
  have hbody : ProjectsTo f (Lred ++ Lblue) (loadBody H) := by
    unfold loadBody
    refine projectsTo_bind_left f hf _ _ _ (projectsTo_xdmpLog H f hlogs _ rfl) fun _ => ?_
    refine projectsTo_bind f hf _ _ _ _ hred fun _ => ?_
    refine projectsTo_bind_left f hf _ _ _ (projectsTo_xdmpLog H f hlogs _ rfl) fun _ => ?_
    refine projectsTo_bind_right f hf _ _ _ hblue fun _ => ?_
    refine projectsTo_bind_left f hf _ _ _ (projectsTo_xdmpLog H f hlogs _ rfl) fun _ => ?_
    refine projectsTo_bind_left f hf _ _ _ (projectsTo_xdmpLog H f hlogs _ rfl) fun _ => ?_
    refine projectsTo_bind_left f hf _ _ _ (projectsTo_xdmpLog H f hlogs _ rfl) fun _ => ?_
    refine projectsTo_bind_left f hf _ _ _ (projectsTo_xdmpLog H f hlogs _ rfl) fun _ => ?_
    refine projectsTo_bind_left f hf _ _ _ (projectsTo_ctsEstimate H f hcounts _) fun _ => ?_
    refine projectsTo_bind_left f hf _ _ _ (projectsTo_ctsEstimate H f hcounts _) fun _ => ?_
    refine projectsTo_bind_left f hf _ _ _ (projectsTo_xdmpLog H f hlogs _ rfl) fun _ => ?_
    refine projectsTo_bind_left f hf _ _ _ (projectsTo_xdmpLog H f hlogs _ rfl) fun _ => ?_
    refine projectsTo_bind_left f hf _ _ _ (projectsTo_xdmpLog H f hlogs _ rfl) fun _ => ?_
    exact projectsTo_pure f hf _
  have hblock : ProjectsTo f (Lred ++ Lblue) (loadBlock H) := by
    intro w
    unfold loadBlock
    rcases Prog.tryCatch_cases (loadBody H) (loadHandler H) w with ⟨a, _, h⟩ | ⟨e, he, h⟩
    · rw [h]
      exact hbody w
    · rw [h]
      have hhandler : f (loadHandler H e (loadBody H w).world).events = [] ∧
          ∀ a, (loadHandler H e (loadBody H w).world).completion ≠ .normal a := by
        unfold loadHandler
        rcases Prog.bind_cases (xdmpLog H (.epicFailure e.message))
          (fun _ => (Prog.throw e : Prog W LoadSummary)) (loadBody H w).world with
          ⟨a, _, h2⟩ | ⟨e2, he2, h2⟩
        · rw [h2]
          simp only [hf, Prog.throw, project_nil f hf, List.append_nil]
          exact ⟨List.prefix_nil.mp (projectsTo_xdmpLog H f hlogs (.epicFailure e.message) rfl
            (loadBody H w).world).1, fun a ha => by cases ha⟩
        · rw [h2]
          exact ⟨List.prefix_nil.mp (projectsTo_xdmpLog H f hlogs (.epicFailure e.message) rfl
            (loadBody H w).world).1, fun a ha => by cases ha⟩
      simp only [hf, hhandler.1, List.append_nil]
      exact ⟨(hbody w).1, fun a ha => absurd ha (hhandler.2 a)⟩
  unfold loadScript
  refine projectsTo_bind_right f hf _ _ _ hblock fun _ => ?_
  exact projectsTo_bind_left f hf _ _ _ (projectsTo_logAll H f hf hlogs _)
    (fun _ => projectsTo_pure f hf _)

end Compositional

/-! ## What every insert call carries -/

section Carried

variable {W : Type}

/-- Insert calls of `insertDocuments` on any host: those of an initial part of the
batch, and of the whole batch when the call returns normally. -/
theorem projectsTo_insertAttempts (H : Host W) (documents : List Document)
    (collectionName : String) :
    ProjectsTo insertAttempts (documents.map (insertArgs collectionName))
      (insertDocuments H documents collectionName) := by
  intro w
  obtain ⟨_, h2, _, h4, _⟩ := loop_run_any H collectionName (fun _ => True)
    (fun _ _ _ _ => trivial) (fun _ _ _ => trivial) documents 0 w trivial
  exact ⟨h2, fun k hk => (h4 k hk).1⟩

/-- Per-document records of `insertDocuments` on any host: the URIs of an initial
part of the batch, and of the whole batch when the call returns normally. -/
theorem projectsTo_documentRecords (H : Host W) (documents : List Document)
    (collectionName : String) :
    ProjectsTo documentRecords (documents.map Document.uri)
      (insertDocuments H documents collectionName) := by
  intro w
  obtain ⟨_, _, h3, h4, _⟩ := loop_run_any H collectionName (fun _ => True)
    (fun _ _ _ _ => trivial) (fun _ _ _ => trivial) documents 0 w trivial
  exact ⟨h3, fun k hk => (h4 k hk).2⟩

/-- C19: on any host, whatever the calls do, every insert call made by
`insertDocuments` carries exactly the two permissions ("rest-reader", "read") and
("rest-writer", "update"), in that order, and exactly one collection tag, the
`collectionName` argument; neither depends on the document. -/
theorem insertDocuments_same_options (H : Host W) (documents : List Document)
    (collectionName : String) (w : W) :
    ∀ a ∈ insertAttempts (insertDocuments H documents collectionName w).events,
      a.2.2.permissions = [⟨"rest-reader", "read"⟩, ⟨"rest-writer", "update"⟩] ∧
      a.2.2.collections = [collectionName] ∧
      ∃ doc ∈ documents, a = (doc.uri, doc.content, insertOptions collectionName) := by
  intro a ha
  have hmem := (projectsTo_insertAttempts H documents collectionName w).1.subset ha
  obtain ⟨doc, hdoc, rfl⟩ := List.mem_map.mp hmem
  exact ⟨rfl, rfl, doc, hdoc, rfl⟩

/-- Witness of C19: the second insert call of the blue batch on a store that fails the
third insert. -/
theorem insertDocuments_same_options_witness :
    (insertAttempts (insertDocuments (fixtureHost .reject failThird) blueDocuments "blue"
      FixtureStore.empty).events)[1]?.map (fun a => (a.1, a.2.2)) =
      some ("/test-data/blue/song4.json",
        ⟨["blue"], [⟨"rest-reader", "read"⟩, ⟨"rest-writer", "update"⟩]⟩) ∧
    ∀ a ∈ insertAttempts (insertDocuments (fixtureHost .reject failThird) blueDocuments "blue"
        FixtureStore.empty).events,
      a.2.2.permissions = [⟨"rest-reader", "read"⟩, ⟨"rest-writer", "update"⟩] ∧
      a.2.2.collections = ["blue"] ∧
      ∃ doc ∈ blueDocuments, a = (doc.uri, doc.content, insertOptions "blue") :=
  ⟨by decide,
   insertDocuments_same_options (fixtureHost .reject failThird) blueDocuments "blue"
     FixtureStore.empty⟩

/-- Insert calls of the whole script on any host: those of the red batch, then those
of the blue batch; all of them when the script completes normally, an initial part
otherwise. -/
theorem projectsTo_insertAttempts_loadScript (H : Host W) :
    ProjectsTo insertAttempts
      (redDocuments.map (insertArgs "red") ++ blueDocuments.map (insertArgs "blue"))
      (loadScript H) :=
  projectsTo_loadScript H insertAttempts insertAttempts_append (fun _ _ _ => rfl)
    (fun _ _ => rfl) _ _ (projectsTo_insertAttempts H redDocuments "red")
    (projectsTo_insertAttempts H blueDocuments "blue")

/-- The `collections` property of every red payload is `["red"]`. -/
theorem redDocuments_collections_field :
    ∀ d ∈ redDocuments, d.content.field "collections" = some (strs ["red"]) := by
  intro d hd
  simp only [redDocuments, List.mem_cons, List.mem_singleton, List.not_mem_nil, or_false] at hd
  rcases hd with rfl | rfl | rfl | rfl | rfl <;> rfl

/-- The `collections` property of every blue payload is `["blue"]`. -/
theorem blueDocuments_collections_field :
    ∀ d ∈ blueDocuments, d.content.field "collections" = some (strs ["blue"]) := by
  intro d hd
  simp only [blueDocuments, List.mem_cons, List.mem_singleton, List.not_mem_nil, or_false] at hd
  rcases hd with rfl | rfl | rfl | rfl | rfl <;> rfl

/-- C16: the sample data uses exactly one collection per document.  The payload of
every red fixture has `collections: ["red"]`, that of every blue fixture
`collections: ["blue"]`; on any host every insert call of the load is the call for
a red fixture tagged `["red"]` or for a blue fixture tagged `["blue"]`, so its tag
list has length 1 and equals the `collections` property of its payload; and when
the load completes normally the insert calls are those for all ten fixtures. -/
theorem sample_data_one_collection (H : Host W) (w : W) :
    (∀ d ∈ redDocuments, d.content.field "collections" = some (strs ["red"])) ∧
    (∀ d ∈ blueDocuments, d.content.field "collections" = some (strs ["blue"])) ∧
    (∀ a ∈ insertAttempts (loadScript H w).events,
      a.2.2.collections.length = 1 ∧
      a.2.1.field "collections" = some (strs a.2.2.collections) ∧
      ((a.2.2.collections = ["red"] ∧ ∃ d ∈ redDocuments, a = insertArgs "red" d) ∨
       (a.2.2.collections = ["blue"] ∧ ∃ d ∈ blueDocuments, a = insertArgs "blue" d))) ∧
    (∀ summary : LoadSummary, (loadScript H w).completion = .normal summary →
      insertAttempts (loadScript H w).events =
        redDocuments.map (insertArgs "red") ++ blueDocuments.map (insertArgs "blue")) := by
  refine ⟨redDocuments_collections_field, blueDocuments_collections_field, ?_,
    (projectsTo_insertAttempts_loadScript H w).2⟩
  intro a ha
  have hmem := (projectsTo_insertAttempts_loadScript H w).1.subset ha
  rcases List.mem_append.mp hmem with h | h
  · obtain ⟨d, hd, rfl⟩ := List.mem_map.mp h
    exact ⟨rfl, redDocuments_collections_field d hd, Or.inl ⟨rfl, d, hd, rfl⟩⟩
  · obtain ⟨d, hd, rfl⟩ := List.mem_map.mp h
    exact ⟨rfl, blueDocuments_collections_field d hd, Or.inr ⟨rfl, d, hd, rfl⟩⟩

/-- Witness of C16: on the empty overwriting store the load completes normally and
makes the insert calls for all ten fixtures, each with one tag. -/
theorem sample_data_one_collection_witness :
    (loadScript (fixtureHost .overwrite noFaults) FixtureStore.empty).completion =
      .normal ⟨5, 5, 10, 5, 5⟩ ∧
    insertAttempts (loadScript (fixtureHost .overwrite noFaults) FixtureStore.empty).events =
      redDocuments.map (insertArgs "red") ++ blueDocuments.map (insertArgs "blue") :=
  ⟨by decide,
   (sample_data_one_collection (fixtureHost .overwrite noFaults) FixtureStore.empty).2.2.2
     ⟨5, 5, 10, 5, 5⟩ (by decide)⟩

end Carried

/-! ## The order of the records -/

section RecordOrder

variable {W : Type}

/-- In an initial part of `R ++ B`, with nothing of `R` in `B`, an element of `R`
stands before an element of `B`. -/
theorem index_lt_of_prefix_append (R B records : List String) (hpre : records <+: R ++ B)
    (hdisj : ∀ x ∈ R, x ∉ B) (i j : Nat) (r b : String)
    (hi : records[i]? = some r) (hj : records[j]? = some b) (hr : r ∈ R) (hb : b ∈ B) :
    i < j := by
  obtain ⟨t, ht⟩ := hpre
  have hiLen : i < records.length := by
    by_contra h
    rw [List.getElem?_eq_none (by omega)] at hi
    cases hi
  have hjLen : j < records.length := by
    by_contra h
    rw [List.getElem?_eq_none (by omega)] at hj
    cases hj
  have hi2 : (R ++ B)[i]? = some r := by
    rw [← ht, List.getElem?_append_left hiLen]
    exact hi
  have hj2 : (R ++ B)[j]? = some b := by
    rw [← ht, List.getElem?_append_left hjLen]
    exact hj
  by_contra hij
  by_cases hiR : i < R.length
  · have hjR : j < R.length := by omega
    rw [List.getElem?_append_left hjR] at hj2
    exact hdisj b (List.getElem?_mem hj2) hb
  · rw [List.getElem?_append_right (by omega)] at hi2
    exact hdisj r hr (List.getElem?_mem hi2)

/-- No red fixture URI is a blue fixture URI. -/
theorem red_uris_not_blue :
    ∀ x ∈ redDocuments.map Document.uri, x ∉ blueDocuments.map Document.uri := by decide

/-- Per-document records of the whole script on any host: the red URIs, then the
blue URIs; all of them when the script completes normally, an initial part
otherwise. -/
theorem projectsTo_documentRecords_loadScript (H : Host W) :
    ProjectsTo documentRecords
      (redDocuments.map Document.uri ++ blueDocuments.map Document.uri) (loadScript H) :=
  projectsTo_loadScript H documentRecords documentRecords_append
    (fun line thrown h => by cases line <;> cases thrown <;> first | rfl | cases h)
    (fun _ _ => rfl) _ _ (projectsTo_documentRecords H redDocuments "red")
    (projectsTo_documentRecords H blueDocuments "blue")

/-- C12: reporting keeps the order of insertion.  On any host the per-document
records written by `insertDocuments` name the URIs of an initial part of the input
list, in order, one record per document; they name the whole list when the call
returns normally, which it does when the log calls succeed.  In the full load the
records name an initial part of the red URIs followed by the blue URIs (all ten
when the load completes normally), so every red record precedes every blue one. -/
theorem records_keep_insertion_order (H : Host W) (documents : List Document)
    (collectionName : String) (w : W) :
    documentRecords (insertDocuments H documents collectionName w).events <+:
      documents.map Document.uri ∧
    (∀ k : Nat, (insertDocuments H documents collectionName w).completion = .normal k →
      documentRecords (insertDocuments H documents collectionName w).events =
        documents.map Document.uri) ∧
    (LogSucceeds H →
      documentRecords (insertDocuments H documents collectionName w).events =
        documents.map Document.uri) ∧
    documentRecords (loadScript H w).events <+:
      redDocuments.map Document.uri ++ blueDocuments.map Document.uri ∧
    (∀ summary : LoadSummary, (loadScript H w).completion = .normal summary →
      documentRecords (loadScript H w).events =
        redDocuments.map Document.uri ++ blueDocuments.map Document.uri) ∧
    (∀ (i j : Nat) (r b : String),
      (documentRecords (loadScript H w).events)[i]? = some r →
      (documentRecords (loadScript H w).events)[j]? = some b →
      r ∈ redDocuments.map Document.uri → b ∈ blueDocuments.map Document.uri → i < j) := by
  have hbatch := projectsTo_documentRecords H documents collectionName w
  have hload := projectsTo_documentRecords_loadScript H w
  refine ⟨hbatch.1, hbatch.2, ?_, hload.1, hload.2, ?_⟩
  · intro hlog
    exact hbatch.2 _ (insertDocuments_completion H hlog documents collectionName w)
  · intro i j r b hi hj hr hb
    exact index_lt_of_prefix_append _ _ _ hload.1 red_uris_not_blue i j r b hi hj hr hb

/-- Witness of C12: the records of the load on a rejecting store that already holds
the third red URI name all ten URIs in order, the third by a failure record. -/
theorem records_keep_insertion_order_witness :
    LogSucceeds (fixtureHost .reject noFaults) ∧
    documentRecords (insertDocuments (fixtureHost .reject noFaults) redDocuments "red"
      storeWithProduct1).events = redDocuments.map Document.uri ∧
    failureRecords (insertDocuments (fixtureHost .reject noFaults) redDocuments "red"
      storeWithProduct1).events =
      [("/test-data/red/product1.json", "Document exists at /test-data/red/product1.json")] :=
  ⟨fixtureHost_logSucceeds _ _,
   (records_keep_insertion_order (fixtureHost .reject noFaults) redDocuments "red"
     storeWithProduct1).2.2.1 (fixtureHost_logSucceeds _ _),
   by decide⟩

end RecordOrder

/-! ## A load that fails in the red batch -/

section Abort

variable {W : Type}

/-- The `catch` block of the load: one log call with the message of the error, and
then it throws, the error itself or the one of the log call. -/
theorem loadHandler_run (H : Host W) (e : JsError) (w : W) :
    (∃ thrown : JsError, (loadHandler H e w).completion = .throw thrown) ∧
    (loadHandler H e w).world = (H.log w (LogLine.epicFailure e.message).render).2 ∧
    (loadHandler H e w).events =
      [.logCall (.epicFailure e.message) (H.log w (LogLine.epicFailure e.message).render).1] := by
  simp only [loadHandler, Prog.bind, xdmpLog, Prog.throw]
  rcases H.log w (LogLine.epicFailure e.message).render with ⟨o, w1⟩
  cases o with
  | none => exact ⟨⟨e, rfl⟩, rfl, rfl⟩
  | some e2 => exact ⟨⟨e2, rfl⟩, rfl, rfl⟩

/-- The script when the first log call succeeds and the red batch throws: nothing
runs after the red batch but the log call of the `catch` block. -/
theorem loadScript_of_red_throw (H : Host W) (w : W) (e : JsError)
    (hstart : (H.log w LogLine.starting.render).1 = none)
    (hred : (insertDocuments H redDocuments "red"
      (H.log w LogLine.starting.render).2).completion = .throw e) :
    (∃ thrown : JsError, (loadScript H w).completion = .throw thrown) ∧
    (loadScript H w).world =
      (H.log (insertDocuments H redDocuments "red" (H.log w LogLine.starting.render).2).world
        (LogLine.epicFailure e.message).render).2 ∧
    (loadScript H w).events =
      .logCall .starting none ::
        ((insertDocuments H redDocuments "red" (H.log w LogLine.starting.render).2).events ++
          [.logCall (.epicFailure e.message)
            (H.log (insertDocuments H redDocuments "red"
              (H.log w LogLine.starting.render).2).world
              (LogLine.epicFailure e.message).render).1]) := by
  have hlogrun : xdmpLog H .starting w =
      ⟨.normal (), (H.log w LogLine.starting.render).2, [.logCall .starting none]⟩ := by
    unfold xdmpLog
    rcases hr : H.log w LogLine.starting.render with ⟨o, w1⟩
    rw [hr] at hstart
    simp only at hstart
    subst hstart
    rfl
  have hbody : loadBody H w =
      ⟨.throw e, (insertDocuments H redDocuments "red" (H.log w LogLine.starting.render).2).world,
       .logCall .starting none ::
         (insertDocuments H redDocuments "red" (H.log w LogLine.starting.render).2).events⟩ := by
    unfold loadBody
    rw [Prog.bind_of_normal (xdmpLog H .starting) _ w () (by rw [hlogrun])]
    simp only [hlogrun]
    rw [Prog.bind_of_throw (insertDocuments H redDocuments "red") _ _ e hred]
    rfl
  obtain ⟨⟨thrown, hthrown⟩, hworld, hevents⟩ := loadHandler_run H e
    (insertDocuments H redDocuments "red" (H.log w LogLine.starting.render).2).world
  have hblock : loadBlock H w =
      ⟨.throw thrown,
       (H.log (insertDocuments H redDocuments "red" (H.log w LogLine.starting.render).2).world
        (LogLine.epicFailure e.message).render).2,
       .logCall .starting none ::
        ((insertDocuments H redDocuments "red" (H.log w LogLine.starting.render).2).events ++
          [.logCall (.epicFailure e.message)
            (H.log (insertDocuments H redDocuments "red"
              (H.log w LogLine.starting.render).2).world
              (LogLine.epicFailure e.message).render).1])⟩ := by
    unfold loadBlock
    rw [Prog.tryCatch_of_throw (loadBody H) (loadHandler H) w e (by rw [hbody])]
    simp only [hbody, hthrown, hworld, hevents, List.cons_append]
  unfold loadScript
  rw [Prog.bind_of_throw (loadBlock H) _ w thrown (by rw [hblock])]
  rw [hblock]
  exact ⟨⟨thrown, rfl⟩, rfl, rfl⟩

/-- An insert call leaves the documents of the store as they were or stores the
document under its URI. -/
theorem documentInsert_docs_cases (policy : DuplicatePolicy) (faults : Faults)
    (s : FixtureStore) (uri : String) (content : JVal) (options : InsertOptions) :
    (FixtureStore.documentInsert policy faults s uri content options).2.docs = s.docs ∨
    (FixtureStore.documentInsert policy faults s uri content options).2.docs =
      putDoc s.docs uri ⟨content, options.collections, options.permissions⟩ := by
  cases h : (FixtureStore.documentInsert policy faults s uri content options).1 with
  | none => exact Or.inr (documentInsert_docs_of_ok policy faults s uri content options h)
  | some e => exact Or.inl (documentInsert_docs_of_error policy faults s uri content options e h)

/-- C11: a load-level error in the red batch aborts the blue batch.  On any host,
when the first log call succeeds and `insertDocuments` throws while processing the
red batch, the script ends by throwing, the only insert calls it made are those of
the red batch, each tagged "red" and none for the URI of a blue document; and on
the fixture store with failing log calls every document tagged "blue" after the
script was in the store before. -/
theorem red_failure_aborts_blue :
    (∀ (W : Type) (H : Host W) (w : W) (e : JsError),
      (H.log w LogLine.starting.render).1 = none →
      (insertDocuments H redDocuments "red"
        (H.log w LogLine.starting.render).2).completion = .throw e →
      (∃ thrown : JsError, (loadScript H w).completion = .throw thrown) ∧
      insertAttempts (loadScript H w).events =
        insertAttempts (insertDocuments H redDocuments "red"
          (H.log w LogLine.starting.render).2).events ∧
      insertAttempts (loadScript H w).events <+: redDocuments.map (insertArgs "red") ∧
      (∀ a ∈ insertAttempts (loadScript H w).events,
        a.2.2.collections = ["red"] ∧ a.1 ∉ blueDocuments.map Document.uri)) ∧
    (∀ (policy : DuplicatePolicy) (faults : Faults)
      (logFaults countFaults : FixtureStore → String → Option JsError) (s : FixtureStore)
      (e : JsError),
      logFaults s LogLine.starting.render = none →
      (insertDocuments (faultyHost policy faults logFaults countFaults) redDocuments "red"
        s).completion = .throw e →
      ∀ entry ∈ (loadScript (faultyHost policy faults logFaults countFaults) s).world.docs,
        "blue" ∈ entry.2.collections → entry ∈ s.docs) := by
  constructor
  · intro W H w e hstart hred
    obtain ⟨hthrow, _, hevents⟩ := loadScript_of_red_throw H w e hstart hred
    have hatt : insertAttempts (loadScript H w).events =
        insertAttempts (insertDocuments H redDocuments "red"
          (H.log w LogLine.starting.render).2).events := by
      rw [hevents]
      simp [insertAttempts, insertAttempts_append]
    have hpre := (projectsTo_insertAttempts H redDocuments "red"
      (H.log w LogLine.starting.render).2).1
    refine ⟨hthrow, hatt, hatt ▸ hpre, ?_⟩
    intro a ha
    rw [hatt] at ha
    obtain ⟨d, hd, rfl⟩ := List.mem_map.mp (hpre.subset ha)
    refine ⟨rfl, ?_⟩
    exact red_uris_not_blue d.uri (List.mem_map.mpr ⟨d, hd, rfl⟩)
  · intro policy faults logFaults countFaults s e hstart hred
    obtain ⟨_, hworld, _⟩ := loadScript_of_red_throw
      (faultyHost policy faults logFaults countFaults) s e hstart hred
    rw [hworld]
    have hkeep := preserves_insertDocuments (faultyHost policy faults logFaults countFaults)
      (fun t => ∀ entry ∈ t.docs, "blue" ∈ entry.2.collections → entry ∈ s.docs) "red"
      (fun t uri content ht => by
        rcases documentInsert_docs_cases policy faults t uri content (insertOptions "red")
          with h | h
        · intro entry hentry
          exact ht entry (h ▸ hentry)
        · intro entry hentry hblue
          have hentry2 : entry ∈ putDoc t.docs uri
              ⟨content, (insertOptions "red").collections, (insertOptions "red").permissions⟩ :=
            h ▸ hentry
          rcases mem_putDoc _ _ _ entry hentry2 with h1 | h1
          · exact ht entry h1 hblue
          · subst h1
            simp [insertOptions] at hblue)
      (fun t _ ht => ht) redDocuments s (fun _ h _ => h)
    exact hkeep

/-- Witness of C11: on a store whose third insert fails and whose log is down from
then on, the red batch throws at its third document; three insert calls were made,
none for a blue document, and no document is tagged "blue". -/
theorem red_failure_aborts_blue_witness :
    (insertDocuments (faultyHost .overwrite failThird logDownAfterThird noCountFaults)
      redDocuments "red" FixtureStore.empty).completion =
        .throw ⟨"XDMP-LOG", "log unavailable"⟩ ∧
    (insertAttempts (loadScript (faultyHost .overwrite failThird logDownAfterThird
      noCountFaults) FixtureStore.empty).events).length = 3 ∧
    (∀ a ∈ insertAttempts (loadScript (faultyHost .overwrite failThird logDownAfterThird
        noCountFaults) FixtureStore.empty).events,
      a.2.2.collections = ["red"] ∧ a.1 ∉ blueDocuments.map Document.uri) ∧
    (loadScript (faultyHost .overwrite failThird logDownAfterThird noCountFaults)
      FixtureStore.empty).world.count "blue" = 0 :=
  ⟨by decide, by decide,
   (red_failure_aborts_blue.1 FixtureStore
     (faultyHost .overwrite failThird logDownAfterThird noCountFaults) FixtureStore.empty
     ⟨"XDMP-LOG", "log unavailable"⟩ (by decide) (by decide)).2.2.2,
   by decide⟩

end Abort

/-! ## A load in which every insert fails -/

section AllFail

variable {W : Type}

/-- When every insert throws and the log calls succeed, the loop leaves the counter
as it was and writes one failure record per document, in order. -/
theorem loop_of_insertFails (H : Host W) (hfail : InsertFails H) (hlog : LogSucceeds H)
    (collectionName : String) :
    ∀ (documents : List Document) (n : Nat) (w : W),
      (insertDocumentsFrom H collectionName documents n w).completion = .normal n ∧
      (failureRecords (insertDocumentsFrom H collectionName documents n w).events).map Prod.fst =
        documents.map Document.uri := by
  intro documents
  induction documents with
  | nil => intro n w; exact ⟨rfl, rfl⟩
  | cons doc rest ih =>
    intro n w
    cases h : (H.documentInsert w doc.uri doc.content (insertOptions collectionName)).1 with
    | none => exact absurd h (hfail _ _ _ _)
    | some e =>
      rw [insertDocumentsFrom_cons_err H hlog collectionName doc rest n w e h]
      obtain ⟨h1, h2⟩ := ih n
        (H.log (H.documentInsert w doc.uri doc.content (insertOptions collectionName)).2
          (LogLine.errorInserting doc.uri e.message).render).2
      exact ⟨h1, by simp only [failureRecords, List.map_cons, h2]⟩

/-- C18: zero documents inserted is not a failed load.  On any host, if every insert
call throws while the log calls and count queries succeed, the load block completes
normally with redInserted = blueInserted = totalInserted = 0 and ten failure
records, one per fixture in order; and whenever the load block throws, a log call
or a count query threw before. -/
theorem zero_inserted_is_not_failure (H : Host W) (w : W) :
    (InsertFails H → LogSucceeds H → EstimateSucceeds H →
      ∃ summary : LoadSummary,
        (loadBlock H w).completion = .normal summary ∧
        summary.redInserted = 0 ∧ summary.blueInserted = 0 ∧ summary.totalInserted = 0 ∧
        (failureRecords (loadBlock H w).events).map Prod.fst =
          (redDocuments ++ blueDocuments).map Document.uri ∧
        (failureRecords (loadBlock H w).events).length = 10) ∧
    (∀ e : JsError, (loadBlock H w).completion = .throw e →
      otherFailures (loadBlock H w).events ≠ []) := by
  refine ⟨?_, fun e he => throwsOnly_loadBlock H w e he⟩
  intro hfail hlog hest
  have hc : ∀ (documents : List Document) (collectionName : String) (w : W),
      (insertOutcomes (insertDocuments H documents collectionName w).events).countP
        Option.isNone = 0 := by
    intro documents collectionName w
    have h1 := insertDocuments_completion H hlog documents collectionName w
    have h2 := (loop_of_insertFails H hfail hlog collectionName documents 0 w).1
    unfold insertDocuments at h1 ⊢
    rw [h2] at h1
    injection h1 with h1
    exact h1.symm
  have hf : ∀ (documents : List Document) (collectionName : String) (w : W),
      (failureRecords (insertDocuments H documents collectionName w).events).map Prod.fst =
        documents.map Document.uri :=
    fun documents collectionName w =>
      (loop_of_insertFails H hfail hlog collectionName documents 0 w).2
  have hbody : (∃ redCount blueCount : Nat,
      (loadBody H w).completion = .normal ⟨0, 0, 0, redCount, blueCount⟩) ∧
      (failureRecords (loadBody H w).events).map Prod.fst =
        (redDocuments ++ blueDocuments).map Document.uri := by
    simp only [loadBody, bind_xdmpLog H hlog, bind_insertDocuments H hlog,
      bind_ctsEstimate H hest, Prog.pure, hc]
    refine ⟨⟨_, _, rfl⟩, ?_⟩
    simp only [failureRecords, failureRecords_append, List.map_append, hf, List.append_nil,
      List.map_nil]
  obtain ⟨⟨redCount, blueCount, hcompl⟩, hrecords⟩ := hbody
  have hblock : loadBlock H w = loadBody H w :=
    Prog.tryCatch_of_normal (loadBody H) (loadHandler H) w _ hcompl
  rw [hblock]
  refine ⟨_, hcompl, rfl, rfl, rfl, hrecords, ?_⟩
  have hlen := congrArg List.length hrecords
  simp only [List.length_map, List.length_append] at hlen
  rw [hlen]
  rfl

/-- Witness of C18: on a store that refuses every insert the load block completes
with zero inserted and ten failure records. -/
theorem zero_inserted_is_not_failure_witness :
    InsertFails (fixtureHost .overwrite failAll) ∧
    ∃ summary : LoadSummary,
      (loadBlock (fixtureHost .overwrite failAll) FixtureStore.empty).completion =
        .normal summary ∧
      summary.redInserted = 0 ∧ summary.blueInserted = 0 ∧ summary.totalInserted = 0 ∧
      (failureRecords (loadBlock (fixtureHost .overwrite failAll)
        FixtureStore.empty).events).map Prod.fst =
          (redDocuments ++ blueDocuments).map Document.uri ∧
      (failureRecords (loadBlock (fixtureHost .overwrite failAll)
        FixtureStore.empty).events).length = 10 :=
  ⟨fun s uri content options => by simp [fixtureHost, FixtureStore.documentInsert, failAll],
   (zero_inserted_is_not_failure (fixtureHost .overwrite failAll) FixtureStore.empty).1
     (fun s uri content options => by simp [fixtureHost, FixtureStore.documentInsert, failAll])
     (fixtureHost_logSucceeds _ _) (fixtureHost_estimateSucceeds _ _)⟩

/-- A failed load for comparison: on the store whose count query throws, the load
block throws, and the failing count query is among its calls. -/
theorem failed_load_has_other_failure :
    (loadBlock noCountHost FixtureStore.empty).completion =
      .throw ⟨"XDMP-SAMPLE", "count unavailable"⟩ ∧
    otherFailures (loadBlock noCountHost FixtureStore.empty).events =
      [⟨"XDMP-SAMPLE", "count unavailable"⟩] := by
  refine ⟨by decide, by decide⟩

end AllFail

/-! ## The fixture URIs and ids -/

/-- C17: every red fixture URI is `/test-data/red/<slug>.json` and every blue one
`/test-data/blue/<slug>.json`, with a non-empty slug that has no `/`; so the red
URIs start with "/test-data/red/", the blue ones with "/test-data/blue/", and all
ten end with ".json". -/
theorem fixture_uris_have_shape :
    (∀ d ∈ redDocuments, ∃ slug : String,
      d.uri = fixtureUri "red" slug ∧ slug ≠ "" ∧ '/' ∉ slug.toList) ∧
    (∀ d ∈ blueDocuments, ∃ slug : String,
      d.uri = fixtureUri "blue" slug ∧ slug ≠ "" ∧ '/' ∉ slug.toList) ∧
    (∀ d ∈ redDocuments, "/test-data/red/".toList <+: d.uri.toList) ∧
    (∀ d ∈ blueDocuments, "/test-data/blue/".toList <+: d.uri.toList) ∧
    (∀ d ∈ redDocuments ++ blueDocuments, ".json".toList <:+ d.uri.toList) ∧
    redDocuments.length = 5 ∧ blueDocuments.length = 5 := by
  refine ⟨?_, ?_, ?_, ?_, ?_, rfl, rfl⟩
  · intro d hd
    simp only [redDocuments, List.mem_cons, List.mem_singleton, List.not_mem_nil, or_false] at hd
    rcases hd with rfl | rfl | rfl | rfl | rfl
    · exact ⟨"song1", by decide, by decide, by decide⟩
    · exact ⟨"song2", by decide, by decide, by decide⟩
    · exact ⟨"product1", by decide, by decide, by decide⟩
    · exact ⟨"customer1", by decide, by decide, by decide⟩
    · exact ⟨"article1", by decide, by decide, by decide⟩
  · intro d hd
    simp only [blueDocuments, List.mem_cons, List.mem_singleton, List.not_mem_nil, or_false] at hd
    rcases hd with rfl | rfl | rfl | rfl | rfl
    · exact ⟨"song3", by decide, by decide, by decide⟩
    · exact ⟨"song4", by decide, by decide, by decide⟩
    · exact ⟨"product2", by decide, by decide, by decide⟩
    · exact ⟨"customer2", by decide, by decide, by decide⟩
    · exact ⟨"event1", by decide, by decide, by decide⟩
  · intro d hd
    simp only [redDocuments, List.mem_cons, List.mem_singleton, List.not_mem_nil, or_false] at hd
    rcases hd with rfl | rfl | rfl | rfl | rfl <;> decide
  · intro d hd
    simp only [blueDocuments, List.mem_cons, List.mem_singleton, List.not_mem_nil, or_false] at hd
    rcases hd with rfl | rfl | rfl | rfl | rfl <;> decide
  · intro d hd
    simp only [redDocuments, blueDocuments, List.cons_append, List.nil_append, List.mem_cons,
      List.mem_singleton, List.not_mem_nil, or_false] at hd
    rcases hd with rfl | rfl | rfl | rfl | rfl | rfl | rfl | rfl | rfl | rfl <;> decide

/-! ## Which URIs a store can hold -/

section Presence

/-- A URI present after storing was present before or is the URI stored under. -/
theorem any_putDoc_cases (docs : List (String × StoredDoc)) (uri other : String) (d : StoredDoc)
    (h : ((putDoc docs uri d).any fun e => e.1 == other) = true) :
    (docs.any fun e => e.1 == other) = true ∨ other = uri := by
  obtain ⟨e, he, hk⟩ := List.any_eq_true.mp h
  rcases mem_putDoc docs uri d e he with h1 | h1
  · exact Or.inl (List.any_eq_true.mpr ⟨e, h1, hk⟩)
  · subst h1
    exact Or.inr (Eq.symm (by simpa using hk))

/-- A URI present after an insert call was present before or is the URI of the call. -/
theorem has_after_insert_cases (policy : DuplicatePolicy) (faults : Faults) (s : FixtureStore)
    (uri other : String) (content : JVal) (options : InsertOptions)
    (h : (FixtureStore.documentInsert policy faults s uri content options).2.has other = true) :
    s.has other = true ∨ other = uri := by
  unfold FixtureStore.has at h ⊢
  rcases documentInsert_docs_cases policy faults s uri content options with hd | hd
  · rw [hd] at h
    exact Or.inl h
  · rw [hd] at h
    exact any_putDoc_cases s.docs uri other _ h

/-- A URI present after the loop was present before or is the URI of a document of
the batch. -/
theorem has_after_loop (policy : DuplicatePolicy) (faults : Faults) (collectionName : String)
    (other : String) :
    ∀ (documents : List Document) (n : Nat) (s : FixtureStore),
      (insertDocumentsFrom (fixtureHost policy faults) collectionName documents n
        s).world.has other = true →
      s.has other = true ∨ other ∈ documents.map Document.uri := by
  intro documents
  induction documents with
  | nil => intro n s h; exact Or.inl h
  | cons doc rest ih =>
    intro n s h
    obtain ⟨m, hw, _⟩ := fixture_cons policy faults collectionName doc rest n s
    rw [hw] at h
    rcases ih m _ h with h1 | h1
    · rcases has_after_insert_cases policy faults s doc.uri other _ _ h1 with h2 | h2
      · exact Or.inl h2
      · exact Or.inr (by simp [h2])
    · exact Or.inr (by simp only [List.map_cons, List.mem_cons, h1, or_true])

/-- The world and the calls of the loop do not depend on the value of the counter. -/
theorem loop_counter_irrelevant {W : Type} (H : Host W) (hlog : LogSucceeds H)
    (collectionName : String) :
    ∀ (documents : List Document) (n m : Nat) (w : W),
      (insertDocumentsFrom H collectionName documents n w).world =
        (insertDocumentsFrom H collectionName documents m w).world ∧
      (insertDocumentsFrom H collectionName documents n w).events =
        (insertDocumentsFrom H collectionName documents m w).events := by
  intro documents
  induction documents with
  | nil => intro n m w; exact ⟨rfl, rfl⟩
  | cons doc rest ih =>
    intro n m w
    cases h : (H.documentInsert w doc.uri doc.content (insertOptions collectionName)).1 with
    | none =>
      rw [insertDocumentsFrom_cons_ok H hlog collectionName doc rest n w h,
        insertDocumentsFrom_cons_ok H hlog collectionName doc rest m w h]
      obtain ⟨h1, h2⟩ := ih (n + 1) (m + 1)
        (H.log (H.documentInsert w doc.uri doc.content (insertOptions collectionName)).2
          (LogLine.inserted doc.uri collectionName).render).2
      exact ⟨h1, by simp only [h2]⟩
    | some e =>
      rw [insertDocumentsFrom_cons_err H hlog collectionName doc rest n w e h,
        insertDocumentsFrom_cons_err H hlog collectionName doc rest m w e h]
      obtain ⟨h1, h2⟩ := ih n m
        (H.log (H.documentInsert w doc.uri doc.content (insertOptions collectionName)).2
          (LogLine.errorInserting doc.uri e.message).render).2
      exact ⟨h1, by simp only [h2]⟩

/-- The loop on a batch reaches each later part of the batch in the world the
earlier part left. -/
theorem loop_append_world {W : Type} (H : Host W) (hlog : LogSucceeds H)
    (collectionName : String) (post : List Document) :
    ∀ (pre : List Document) (n : Nat) (w : W),
      (insertDocumentsFrom H collectionName (pre ++ post) n w).world =
        (insertDocumentsFrom H collectionName post n
          (insertDocumentsFrom H collectionName pre n w).world).world := by
  intro pre
  induction pre with
  | nil => intro n w; rfl
  | cons doc rest ih =>
    intro n w
    cases h : (H.documentInsert w doc.uri doc.content (insertOptions collectionName)).1 with
    | none =>
      rw [List.cons_append,
        insertDocumentsFrom_cons_ok H hlog collectionName doc (rest ++ post) n w h,
        insertDocumentsFrom_cons_ok H hlog collectionName doc rest n w h]
      simp only
      rw [ih (n + 1), (loop_counter_irrelevant H hlog collectionName post (n + 1) n _).1]
    | some e =>
      rw [List.cons_append,
        insertDocumentsFrom_cons_err H hlog collectionName doc (rest ++ post) n w e h,
        insertDocumentsFrom_cons_err H hlog collectionName doc rest n w e h]
      simp only
      rw [ih n]

end Presence

/-- The ids of the ten fixtures, in order. -/
theorem fixture_ids :
    (redDocuments ++ blueDocuments).map Document.idString =
      [some "red-001", some "red-002", some "red-003", some "red-004", some "red-005",
       some "blue-001", some "blue-002", some "blue-003", some "blue-004", some "blue-005"] := by
  rfl

/-- The URIs of the ten fixtures are pairwise distinct. -/
theorem fixture_uris_nodup : ((redDocuments ++ blueDocuments).map Document.uri).Nodup := by
  decide

/-- C20: the ten URIs of the red and blue fixtures are pairwise distinct, and so are
the ten `id` values of their payloads.  Hence, on the fixture store under either
duplicate policy and any injected failures, starting from the empty store, the
store in which the loop reaches a document (the one left by the documents before
it, after the whole red batch for a blue document) never holds the URI of that
document. -/
theorem fixture_uris_and_ids_distinct (policy : DuplicatePolicy) (faults : Faults) :
    ((redDocuments ++ blueDocuments).map Document.uri).Nodup ∧
    ((redDocuments ++ blueDocuments).map Document.id).Nodup ∧
    ((redDocuments ++ blueDocuments).map Document.idString).Nodup ∧
    (∀ (pre post : List Document) (d : Document), redDocuments = pre ++ d :: post →
      (insertDocuments (fixtureHost policy faults) redDocuments "red" FixtureStore.empty).world =
        (insertDocumentsFrom (fixtureHost policy faults) "red" (d :: post) 0
          (insertDocuments (fixtureHost policy faults) pre "red"
            FixtureStore.empty).world).world ∧
      (insertDocuments (fixtureHost policy faults) pre "red" FixtureStore.empty).world.has d.uri
        = false) ∧
    (∀ (pre post : List Document) (d : Document), blueDocuments = pre ++ d :: post →
      (insertDocuments (fixtureHost policy faults) blueDocuments "blue"
        (insertDocuments (fixtureHost policy faults) redDocuments "red"
          FixtureStore.empty).world).world =
        (insertDocumentsFrom (fixtureHost policy faults) "blue" (d :: post) 0
          (insertDocuments (fixtureHost policy faults) pre "blue"
            (insertDocuments (fixtureHost policy faults) redDocuments "red"
              FixtureStore.empty).world).world).world ∧
      (insertDocuments (fixtureHost policy faults) pre "blue"
        (insertDocuments (fixtureHost policy faults) redDocuments "red"
          FixtureStore.empty).world).world.has d.uri = false) := by
  have hlog := fixtureHost_logSucceeds policy faults
  have hids : ((redDocuments ++ blueDocuments).map Document.idString).Nodup := by
    rw [fixture_ids]
    decide
  refine ⟨fixture_uris_nodup, ?_, hids, ?_, ?_⟩
  · have h : ((redDocuments ++ blueDocuments).map Document.idString) =
        ((redDocuments ++ blueDocuments).map Document.id).map (fun v => v.bind JVal.asString) := by
      rw [List.map_map]
      rfl
    rw [h] at hids
    exact List.Nodup.of_map _ hids
  · intro pre post d hsplit
    constructor
    · unfold insertDocuments
      rw [hsplit]
      exact loop_append_world (fixtureHost policy faults) hlog "red" (d :: post) pre 0 _
    · have hnd := redDocuments_uri_nodup
      rw [hsplit, List.map_append, List.map_cons] at hnd
      have hfresh : d.uri ∉ pre.map Document.uri := fun hmem =>
        (List.nodup_append.mp hnd).2.2 hmem (List.mem_cons_self _ _)
      by_contra hhas
      rcases has_after_loop policy faults "red" d.uri pre 0 FixtureStore.empty
        (by simpa using hhas) with h1 | h1
      · simp [FixtureStore.has, FixtureStore.empty] at h1
      · exact hfresh h1
  · intro pre post d hsplit
    constructor
    · unfold insertDocuments
      rw [hsplit]
      exact loop_append_world (fixtureHost policy faults) hlog "blue" (d :: post) pre 0 _
    · have hnd := blueDocuments_uri_nodup
      rw [hsplit, List.map_append, List.map_cons] at hnd
      have hfresh : d.uri ∉ pre.map Document.uri := fun hmem =>
        (List.nodup_append.mp hnd).2.2 hmem (List.mem_cons_self _ _)
      have hblue : d.uri ∈ blueDocuments.map Document.uri := by
        rw [hsplit]
        simp
      by_contra hhas
      rcases has_after_loop policy faults "blue" d.uri pre 0 _ (by simpa using hhas) with h1 | h1
      · rcases has_after_loop policy faults "red" d.uri redDocuments 0 FixtureStore.empty h1
          with h2 | h2
        · simp [FixtureStore.has, FixtureStore.empty] at h2
        · exact red_uris_not_blue d.uri h2 hblue
      · exact hfresh h1

/-! ## What later calls do to stored documents -/

section Later

/-- The fixture store is the fixture store with failing operations in which no log
call and no count query fails. -/
theorem fixtureHost_eq_faultyHost (policy : DuplicatePolicy) (faults : Faults) :
    fixtureHost policy faults = faultyHost policy faults (fun _ _ => none) noCountFaults := rfl

/-- Storing never makes the list of documents shorter. -/
theorem length_le_length_putDoc (docs : List (String × StoredDoc)) (uri : String)
    (d : StoredDoc) : docs.length ≤ (putDoc docs uri d).length := by
  unfold putDoc
  split
  · simp
  · simp

/-- A URI under which retrieval finds a document is present. -/
theorem has_of_get (s : FixtureStore) (uri : String) (d : StoredDoc)
    (h : s.get uri = some d) : s.has uri = true := by
  unfold FixtureStore.get at h
  unfold FixtureStore.has
  generalize s.docs = docs at h
  induction docs with
  | nil => simp at h
  | cons e rest ih =>
    obtain ⟨k, v⟩ := e
    rw [List.lookup_cons] at h
    by_cases hk : uri = k
    · simp [List.any_cons, hk]
    · have hb : (uri == k) = false := by simpa using hk
      rw [hb] at h
      simp only [List.any_cons, ih h, Bool.or_true]

/-- On the rejecting store an insert under a present URI leaves the documents as
they are. -/
theorem reject_insert_present (faults : Faults) (s : FixtureStore) (uri : String)
    (content : JVal) (options : InsertOptions) (h : s.has uri = true) :
    (FixtureStore.documentInsert .reject faults s uri content options).2.docs = s.docs := by
  cases ho : (FixtureStore.documentInsert .reject faults s uri content options).1 with
  | some e => exact documentInsert_docs_of_error .reject faults s uri content options e ho
  | none =>
    exfalso
    unfold FixtureStore.documentInsert at ho
    split at ho
    · simp at ho
    · simp [h] at ho

/-- C15: the store only grows.  On the fixture store, under either duplicate policy
and whatever inserts, log calls and count queries fail, every URI present before a
call of `insertDocuments` or a run of the load is present after it, and the number
of stored documents does not decrease. -/
theorem store_only_grows (policy : DuplicatePolicy) (faults : Faults)
    (logFaults countFaults : FixtureStore → String → Option JsError) (s : FixtureStore)
    (documents : List Document) (collectionName : String) :
    (∀ uri : String, s.has uri = true →
      (insertDocuments (faultyHost policy faults logFaults countFaults) documents collectionName
        s).world.has uri = true) ∧
    s.size ≤ (insertDocuments (faultyHost policy faults logFaults countFaults) documents
      collectionName s).world.size ∧
    (∀ uri : String, s.has uri = true →
      (loadScript (faultyHost policy faults logFaults countFaults) s).world.has uri = true) ∧
    s.size ≤ (loadScript (faultyHost policy faults logFaults countFaults) s).world.size := by
  have hI : ∀ (c : String) (t : FixtureStore) (uri : String) (content : JVal),
      ((∀ u : String, s.has u = true → t.has u = true) ∧ s.size ≤ t.size) →
      ((∀ u : String, s.has u = true →
          ((faultyHost policy faults logFaults countFaults).documentInsert t uri content
            (insertOptions c)).2.has u = true) ∧
        s.size ≤ ((faultyHost policy faults logFaults countFaults).documentInsert t uri content
            (insertOptions c)).2.size) := by
    intro c t uri content ht
    show (∀ u : String, s.has u = true →
        (FixtureStore.documentInsert policy faults t uri content (insertOptions c)).2.has u
          = true) ∧
      s.size ≤ (FixtureStore.documentInsert policy faults t uri content (insertOptions c)).2.size
    unfold FixtureStore.has FixtureStore.size at ht ⊢
    rcases documentInsert_docs_cases policy faults t uri content (insertOptions c) with h | h
    · rw [h]
      exact ht
    · rw [h]
      exact ⟨fun u hu => any_putDoc_of_any t.docs uri u _ (ht.1 u hu),
        le_trans ht.2 (length_le_length_putDoc t.docs uri _)⟩
  have hL : ∀ (t : FixtureStore) (text : String),
      ((∀ u : String, s.has u = true → t.has u = true) ∧ s.size ≤ t.size) →
      ((∀ u : String, s.has u = true →
          ((faultyHost policy faults logFaults countFaults).log t text).2.has u = true) ∧
        s.size ≤ ((faultyHost policy faults logFaults countFaults).log t text).2.size) :=
    fun _ _ ht => ht
  have hbatch := preserves_insertDocuments (faultyHost policy faults logFaults countFaults)
    (fun t => (∀ u : String, s.has u = true → t.has u = true) ∧ s.size ≤ t.size)
    collectionName (hI collectionName) hL documents s ⟨fun _ h => h, le_refl _⟩
  have hload := preserves_loadScript (faultyHost policy faults logFaults countFaults)
    (fun t => (∀ u : String, s.has u = true → t.has u = true) ∧ s.size ≤ t.size)
    (hI "red") (hI "blue") hL s ⟨fun _ h => h, le_refl _⟩
  exact ⟨hbatch.1, hbatch.2, hload.1, hload.2⟩

/-- C14, as the code has it: on the fixture store with any injected failures, what is
stored under a URI (tags, payload and permissions) is left as it is by a later call
of `insertDocuments` in which no document with that URI is inserted successfully;
on the rejecting store this is every later call, whatever its batch and collection
name. -/
theorem stored_tags_unchanged (policy : DuplicatePolicy) (faults : Faults)
    (documents : List Document) (collectionName : String) (s : FixtureStore) (uri : String)
    (stored : StoredDoc) (hget : s.get uri = some stored) :
    ((∀ (j : Nat) (later : Document), documents[j]? = some later → later.uri = uri →
        (insertOutcomes (insertDocuments (fixtureHost policy faults) documents collectionName
          s).events)[j]? ≠ some none) →
      (insertDocuments (fixtureHost policy faults) documents collectionName s).world.get uri
        = some stored) ∧
    (policy = .reject →
      (insertDocuments (fixtureHost policy faults) documents collectionName s).world.get uri
        = some stored) := by
  constructor
  · intro hno
    rw [← hget]
    exact get_after_loop_of_no_success policy faults collectionName uri documents 0 s hno
  · intro hpolicy
    subst hpolicy
    refine preserves_insertDocuments (fixtureHost .reject faults)
      (fun t => t.get uri = some stored) collectionName ?_ (fun _ _ ht => ht) documents s hget
    intro t u content ht
    show (FixtureStore.documentInsert .reject faults t u content
      (insertOptions collectionName)).2.get uri = some stored
    by_cases hu : u = uri
    · subst hu
      unfold FixtureStore.get at ht ⊢
      rw [reject_insert_present faults t u content _ (has_of_get t u stored ht)]
      exact ht
    · unfold FixtureStore.get at ht ⊢
      rcases documentInsert_docs_cases .reject faults t u content (insertOptions collectionName)
        with h | h
      · rw [h]
        exact ht
      · rw [h, lookup_putDoc_of_ne t.docs u uri _ (fun h2 => hu h2.symm)]
        exact ht

/-- Witness of C14: the first red document, stored by the red batch on the rejecting
store, is still stored with its tags after the same batch is inserted as "blue". -/
theorem stored_tags_unchanged_witness :
    ((insertDocuments (fixtureHost .reject noFaults) redDocuments "blue"
      (insertDocuments (fixtureHost .reject noFaults) redDocuments "red"
        FixtureStore.empty).world).world.get "/test-data/red/song1.json").map
      StoredDoc.collections = some ["red"] :=
  congrArg (Option.map StoredDoc.collections)
    ((stored_tags_unchanged .reject noFaults redDocuments "blue"
      (insertDocuments (fixtureHost .reject noFaults) redDocuments "red"
        FixtureStore.empty).world "/test-data/red/song1.json"
      (storedDoc "red" (redDocuments.headD ⟨"", .str ""⟩)) rfl).2 rfl)

/-- C14 as stated fails: on the overwriting store the first red document is stored
with the tag "red" by the red batch, and inserting the same batch as "blue" changes
the tags stored for its URI to "blue". -/
theorem stored_tags_changed_by_overwrite :
    ((insertDocuments (fixtureHost .overwrite noFaults) redDocuments "red"
        FixtureStore.empty).world.get "/test-data/red/song1.json").map
      StoredDoc.collections = some ["red"] ∧
    ((insertDocuments (fixtureHost .overwrite noFaults) redDocuments "blue"
      (insertDocuments (fixtureHost .overwrite noFaults) redDocuments "red"
        FixtureStore.empty).world).world.get "/test-data/red/song1.json").map
      StoredDoc.collections = some ["blue"] ∧
    ((insertDocuments (fixtureHost .overwrite noFaults) redDocuments "blue"
      (insertDocuments (fixtureHost .overwrite noFaults) redDocuments "red"
        FixtureStore.empty).world).world.get "/test-data/red/song1.json").map
      StoredDoc.collections ≠
    ((insertDocuments (fixtureHost .overwrite noFaults) redDocuments "red"
        FixtureStore.empty).world.get "/test-data/red/song1.json").map
      StoredDoc.collections := by
  refine ⟨by decide, by decide, by decide⟩

end Later

/-! ## The order of a batch -/

section Order

/-- An insert call succeeds exactly when the store accepts the document. -/
theorem documentInsert_ok_iff_accepts (policy : DuplicatePolicy) (faults : Faults)
    (s : FixtureStore) (collectionName : String) (doc : Document) :
    (FixtureStore.documentInsert policy faults s doc.uri doc.content
      (insertOptions collectionName)).1 = none ↔
    accepts policy faults s collectionName doc = true := by
  unfold FixtureStore.documentInsert accepts
  cases hf : faults s doc.uri doc.content (insertOptions collectionName) with
  | some e => simp
  | none =>
    by_cases hc : (s.has doc.uri && policy == .reject) = true
    · simp [hc]
    · simp [hc]

/-- Retrieval by a URI that the batch does not name gives after the loop what it
gave before. -/
theorem get_after_loop_of_not_mem (policy : DuplicatePolicy) (faults : Faults)
    (collectionName : String) (uri : String) (documents : List Document) (n : Nat)
    (s : FixtureStore) (h : uri ∉ documents.map Document.uri) :
    (insertDocumentsFrom (fixtureHost policy faults) collectionName documents n s).world.get uri
      = s.get uri :=
  get_after_loop_of_no_success policy faults collectionName uri documents n s
    (fun _ later hj hu => absurd (List.mem_map.mpr ⟨later, List.getElem?_mem hj, hu⟩) h)

/-- An insert call under one URI does not change whether another URI is present. -/
theorem has_after_insert_of_ne (policy : DuplicatePolicy) (faults : Faults) (s : FixtureStore)
    (uri other : String) (content : JVal) (options : InsertOptions) (hne : other ≠ uri) :
    (FixtureStore.documentInsert policy faults s uri content options).2.has other = s.has other := by
  cases hs : s.has other with
  | true =>
    unfold FixtureStore.has at hs ⊢
    rcases documentInsert_docs_cases policy faults s uri content options with h | h
    · rw [h]; exact hs
    · rw [h]; exact any_putDoc_of_any s.docs uri other _ hs
  | false =>
    cases h2 : (FixtureStore.documentInsert policy faults s uri content options).2.has other with
    | false => rfl
    | true =>
      rcases has_after_insert_cases policy faults s uri other content options h2 with h3 | h3
      · rw [hs] at h3; cases h3
      · exact absurd h3 hne

/-- An insert call under one URI does not change what retrieval by another URI gives. -/
theorem get_after_insert_of_ne (policy : DuplicatePolicy) (faults : Faults) (s : FixtureStore)
    (uri other : String) (content : JVal) (options : InsertOptions) (hne : other ≠ uri) :
    (FixtureStore.documentInsert policy faults s uri content options).2.get other = s.get other := by
  unfold FixtureStore.get
  rcases documentInsert_docs_cases policy faults s uri content options with h | h
  · rw [h]
  · rw [h, lookup_putDoc_of_ne s.docs uri other _ hne]

/-- What retrieval gives after the loop for a document of a batch with pairwise
distinct URIs, when injected failures do not look at the store: the document if the
initial store accepts it, and what was there before otherwise. -/
theorem get_after_loop_of_mem (policy : DuplicatePolicy) (faults : Faults)
    (hblind : StoreBlind faults) (collectionName : String) :
    ∀ (documents : List Document) (n : Nat) (s : FixtureStore),
      (documents.map Document.uri).Nodup →
      ∀ doc ∈ documents,
        (insertDocumentsFrom (fixtureHost policy faults) collectionName documents n
          s).world.get doc.uri =
        if accepts policy faults s collectionName doc = true
          then some (storedDoc collectionName doc) else s.get doc.uri := by
  intro documents
  induction documents with
  | nil => intro n s _ doc hdoc; simp at hdoc
  | cons first rest ih =>
    intro n s hnd doc hdoc
    obtain ⟨m, hw, _⟩ := fixture_cons policy faults collectionName first rest n s
    have hnd2 : first.uri ∉ rest.map Document.uri ∧ (rest.map Document.uri).Nodup := by
      simpa using hnd
    rw [hw]
    rcases List.mem_cons.mp hdoc with h1 | h1
    · subst h1
      rw [get_after_loop_of_not_mem policy faults collectionName doc.uri rest m _ hnd2.1]
      by_cases hacc : accepts policy faults s collectionName doc = true
      · rw [if_pos hacc]
        have hok := (documentInsert_ok_iff_accepts policy faults s collectionName doc).mpr hacc
        unfold FixtureStore.get
        rw [documentInsert_docs_of_ok policy faults s _ _ _ hok]
        exact lookup_putDoc_self s.docs doc.uri _
      · rw [if_neg hacc]
        cases hout : (FixtureStore.documentInsert policy faults s doc.uri doc.content
            (insertOptions collectionName)).1 with
        | none =>
          exact absurd ((documentInsert_ok_iff_accepts policy faults s collectionName doc).mp
            hout) hacc
        | some e =>
          unfold FixtureStore.get
          rw [documentInsert_docs_of_error policy faults s _ _ _ e hout]
    · have hne : doc.uri ≠ first.uri := by
        intro heq
        exact hnd2.1 (heq ▸ List.mem_map.mpr ⟨doc, h1, rfl⟩)
      rw [ih m _ hnd2.2 doc h1]
      have hacc : accepts policy faults (FixtureStore.documentInsert policy faults s first.uri
          first.content (insertOptions collectionName)).2 collectionName doc =
          accepts policy faults s collectionName doc := by
        unfold accepts
        rw [has_after_insert_of_ne policy faults s first.uri doc.uri _ _ hne,
          hblind _ s doc.uri doc.content (insertOptions collectionName)]
      rw [hacc, get_after_insert_of_ne policy faults s first.uri doc.uri _ _ hne]

/-- C13, as the code has it: on the fixture store, under either duplicate policy and
with injected failures that do not look at the store, for every batch whose URIs
are pairwise distinct, every collection name and every permutation of the batch,
`insertDocuments` on the permuted batch from the same store leaves a store in which
retrieval by any URI gives the same document (payload, tags and permissions). -/
theorem insertDocuments_order_irrelevant (policy : DuplicatePolicy) (faults : Faults)
    (hblind : StoreBlind faults) (documents permuted : List Document)
    (hperm : documents.Perm permuted) (hnodup : (documents.map Document.uri).Nodup)
    (collectionName : String) (s : FixtureStore) (uri : String) :
    (insertDocuments (fixtureHost policy faults) documents collectionName s).world.get uri =
      (insertDocuments (fixtureHost policy faults) permuted collectionName s).world.get uri := by
  have hnodup2 : (permuted.map Document.uri).Nodup :=
    (List.Perm.nodup_iff (hperm.map Document.uri)).mp hnodup
  unfold insertDocuments
  by_cases hmem : uri ∈ documents.map Document.uri
  · obtain ⟨doc, hdoc, rfl⟩ := List.mem_map.mp hmem
    rw [get_after_loop_of_mem policy faults hblind collectionName documents 0 s hnodup doc hdoc,
      get_after_loop_of_mem policy faults hblind collectionName permuted 0 s hnodup2 doc
        (hperm.mem_iff.mp hdoc)]
  · have hmem2 : uri ∉ permuted.map Document.uri :=
      fun h => hmem ((hperm.map Document.uri).mem_iff.mpr h)
    rw [get_after_loop_of_not_mem policy faults collectionName uri documents 0 s hmem,
      get_after_loop_of_not_mem policy faults collectionName uri permuted 0 s hmem2]

/-- Witness of C13: the red batch and the red batch reversed, on the rejecting store
that already holds the third red URI. -/
theorem insertDocuments_order_irrelevant_witness :
    StoreBlind noFaults ∧ redDocuments.Perm redDocuments.reverse ∧
    (redDocuments.map Document.uri).Nodup ∧
    (insertDocuments (fixtureHost .reject noFaults) redDocuments "red"
        storeWithProduct1).world.get "/test-data/red/song2.json" =
      (insertDocuments (fixtureHost .reject noFaults) redDocuments.reverse "red"
        storeWithProduct1).world.get "/test-data/red/song2.json" :=
  ⟨fun _ _ _ _ _ => rfl, (List.reverse_perm redDocuments).symm, redDocuments_uri_nodup,
   insertDocuments_order_irrelevant .reject noFaults (fun _ _ _ _ _ => rfl) redDocuments
     redDocuments.reverse (List.reverse_perm redDocuments).symm redDocuments_uri_nodup "red"
     storeWithProduct1 "/test-data/red/song2.json"⟩

/-- C13 as stated fails: for the batch that names one URI twice and its reversal, a
permutation of it, the overwriting store ends with the second content in one order
and with the first in the other. -/
theorem order_matters_for_repeated_uri :
    twoVersions.Perm twoVersions.reverse ∧
    (insertDocuments (fixtureHost .overwrite noFaults) twoVersions "red"
        FixtureStore.empty).world.get "/test-data/red/song1.json" ≠
      (insertDocuments (fixtureHost .overwrite noFaults) twoVersions.reverse "red"
        FixtureStore.empty).world.get "/test-data/red/song1.json" := by
  refine ⟨(List.reverse_perm twoVersions).symm, ?_⟩
  intro h
  have hA : (insertDocuments (fixtureHost .overwrite noFaults) twoVersions "red"
      FixtureStore.empty).world.get "/test-data/red/song1.json" =
      some ⟨.str "second", ["red"], (insertOptions "red").permissions⟩ := by rfl
  have hB : (insertDocuments (fixtureHost .overwrite noFaults) twoVersions.reverse "red"
      FixtureStore.empty).world.get "/test-data/red/song1.json" =
      some ⟨.str "first", ["red"], (insertOptions "red").permissions⟩ := by rfl
  rw [hA, hB] at h
  simp at h

end Order

/-! ## Frame -/

section Frame

variable {W : Type}

/-- One iteration of the loop on any host, for a property `P` of the world that the
insert call for this document and log calls keep. -/
theorem loop_step_at (H : Host W) (collectionName : String) (P : W → Prop)
    (doc : Document)
    (hI : ∀ w, P w →
      P (H.documentInsert w doc.uri doc.content (insertOptions collectionName)).2)
    (hL : ∀ w text, P w → P (H.log w text).2)
    (rest : List Document) (n : Nat) (w : W) (hw : P w) :
    ∃ (n1 : Nat) (w1 : W) (ev : List Event),
      P w1 ∧ insertAttempts ev = [insertArgs collectionName doc] ∧
      ((insertDocumentsFrom H collectionName (doc :: rest) n w =
          ⟨(insertDocumentsFrom H collectionName rest n1 w1).completion,
           (insertDocumentsFrom H collectionName rest n1 w1).world,
           ev ++ (insertDocumentsFrom H collectionName rest n1 w1).events⟩ ∧
        documentRecords ev = [doc.uri]) ∨
       (∃ e : JsError, insertDocumentsFrom H collectionName (doc :: rest) n w = ⟨.throw e, w1, ev⟩ ∧
          otherFailures ev ≠ [] ∧ documentRecords ev = [])) := by
  have hw1 := hI w hw
  rcases h1 : H.documentInsert w doc.uri doc.content (insertOptions collectionName) with ⟨o1, w1⟩
  rw [h1] at hw1
  simp only at hw1
  cases o1 with
  | none =>
    have hw2 := hL w1 (LogLine.inserted doc.uri collectionName).render hw1
    rcases h2 : H.log w1 (LogLine.inserted doc.uri collectionName).render with ⟨o2, w2⟩
    rw [h2] at hw2
    simp only at hw2
    cases o2 with
    | none =>
      refine ⟨n + 1, w2,
        [.insertCall doc.uri doc.content (insertOptions collectionName) none,
         .logCall (.inserted doc.uri collectionName) none], hw2, rfl, Or.inl ⟨?_, rfl⟩⟩
      simp only [insertDocumentsFrom, Prog.bind, tryInsert, xdmpDocumentInsert, xdmpLog, h1, h2,
        List.singleton_append, List.cons_append, List.nil_append]
    | some e2 =>
      have hw3 := hL w2 (LogLine.errorInserting doc.uri e2.message).render hw2
      rcases h3 : H.log w2 (LogLine.errorInserting doc.uri e2.message).render with ⟨o3, w3⟩
      rw [h3] at hw3
      simp only at hw3
      cases o3 with
      | none =>
        refine ⟨n + 1, w3,
          [.insertCall doc.uri doc.content (insertOptions collectionName) none,
           .logCall (.inserted doc.uri collectionName) (some e2),
           .logCall (.errorInserting doc.uri e2.message) none], hw3, rfl, Or.inl ⟨?_, rfl⟩⟩
        simp only [insertDocumentsFrom, Prog.bind, tryInsert, xdmpDocumentInsert, xdmpLog,
          h1, h2, h3, List.singleton_append, List.cons_append, List.nil_append]
      | some e3 =>
        refine ⟨n + 1, w3,
          [.insertCall doc.uri doc.content (insertOptions collectionName) none,
           .logCall (.inserted doc.uri collectionName) (some e2),
           .logCall (.errorInserting doc.uri e2.message) (some e3)], hw3, rfl,
          Or.inr ⟨e3, ?_, by simp [otherFailures], rfl⟩⟩
        simp only [insertDocumentsFrom, Prog.bind, tryInsert, xdmpDocumentInsert, xdmpLog,
          h1, h2, h3, List.singleton_append, List.cons_append, List.nil_append]
  | some e1 =>
    have hw3 := hL w1 (LogLine.errorInserting doc.uri e1.message).render hw1
    rcases h3 : H.log w1 (LogLine.errorInserting doc.uri e1.message).render with ⟨o3, w3⟩
    rw [h3] at hw3
    simp only at hw3
    cases o3 with
    | none =>
      refine ⟨n, w3,
        [.insertCall doc.uri doc.content (insertOptions collectionName) (some e1),
         .logCall (.errorInserting doc.uri e1.message) none], hw3, rfl, Or.inl ⟨?_, rfl⟩⟩
      simp only [insertDocumentsFrom, Prog.bind, tryInsert, xdmpDocumentInsert, xdmpLog,
        h1, h3, List.singleton_append, List.cons_append, List.nil_append]
    | some e3 =>
      refine ⟨n, w3,
        [.insertCall doc.uri doc.content (insertOptions collectionName) (some e1),
         .logCall (.errorInserting doc.uri e1.message) (some e3)], hw3, rfl,
        Or.inr ⟨e3, ?_, by simp [otherFailures], rfl⟩⟩
      simp only [insertDocumentsFrom, Prog.bind, tryInsert, xdmpDocumentInsert, xdmpLog,
        h1, h3, List.singleton_append, List.cons_append, List.nil_append]

/-- The loop keeps a property of the world that log calls keep and that the insert
call for each document of the batch keeps. -/
theorem loop_keeps_at (H : Host W) (collectionName : String) (P : W → Prop)
    (hL : ∀ w text, P w → P (H.log w text).2) :
    ∀ (documents : List Document) (n : Nat) (w : W),
      (∀ doc ∈ documents, ∀ w, P w →
        P (H.documentInsert w doc.uri doc.content (insertOptions collectionName)).2) →
      P w → P (insertDocumentsFrom H collectionName documents n w).world := by
  intro documents
  induction documents with
  | nil => intro n w _ hw; exact hw
  | cons doc rest ih =>
    intro n w hI hw
    obtain ⟨n1, w1, ev, hw1, _, hstep⟩ := loop_step_at H collectionName P doc
      (hI doc (List.mem_cons_self _ _)) hL rest n w hw
    rcases hstep with ⟨hrun, _⟩ | ⟨e, hrun, _, _⟩
    · rw [hrun]
      exact ih n1 w1 (fun d hd => hI d (List.mem_cons_of_mem _ hd)) hw1
    · rw [hrun]
      exact hw1

end Frame

/-- C21: frame.  On the fixture store, under either duplicate policy and whatever
inserts, log calls or count queries fail, `insertDocuments` leaves every URI that
is not the URI of a document of the batch as it was: retrieval gives the same
document (payload, tags, permissions), and the URI is present exactly if it was.
With the empty batch, on any host, it returns 0, makes no call and leaves the world
as it is. -/
theorem insertDocuments_frame (policy : DuplicatePolicy) (faults : Faults)
    (logFaults countFaults : FixtureStore → String → Option JsError)
    (documents : List Document) (collectionName : String) (s : FixtureStore) :
    (∀ uri : String, uri ∉ documents.map Document.uri →
      (insertDocuments (faultyHost policy faults logFaults countFaults) documents collectionName
        s).world.get uri = s.get uri ∧
      (insertDocuments (faultyHost policy faults logFaults countFaults) documents collectionName
        s).world.has uri = s.has uri) ∧
    insertDocuments (faultyHost policy faults logFaults countFaults) [] collectionName s =
      ⟨.normal 0, s, []⟩ ∧
    (∀ (W : Type) (H : Host W) (w : W),
      insertDocuments H [] collectionName w = ⟨.normal 0, w, []⟩) := by
  refine ⟨?_, rfl, fun _ _ _ => rfl⟩
  intro uri huri
  exact loop_keeps_at (faultyHost policy faults logFaults countFaults) collectionName
    (fun t => t.get uri = s.get uri ∧ t.has uri = s.has uri) (fun _ _ ht => ht) documents 0 s
    (fun doc hdoc t ht => by
      have hne : uri ≠ doc.uri := fun h => huri (List.mem_map.mpr ⟨doc, hdoc, h.symm⟩)
      show (FixtureStore.documentInsert policy faults t doc.uri doc.content
          (insertOptions collectionName)).2.get uri = s.get uri ∧
        (FixtureStore.documentInsert policy faults t doc.uri doc.content
          (insertOptions collectionName)).2.has uri = s.has uri
      rw [get_after_insert_of_ne policy faults t doc.uri uri _ _ hne,
        has_after_insert_of_ne policy faults t doc.uri uri _ _ hne]
      exact ht)
    ⟨rfl, rfl⟩

/-- Witness of C21: the blue batch leaves the document stored under a red URI as it
was, on a store whose third insert fails and whose log is down from then on. -/
theorem insertDocuments_frame_witness :
    "/test-data/red/product1.json" ∉ blueDocuments.map Document.uri ∧
    ((insertDocuments (faultyHost .overwrite failThird logDownAfterThird noCountFaults)
      blueDocuments "blue" storeWithProduct1).world.get "/test-data/red/product1.json").map
        StoredDoc.collections = some ["red"] ∧
    (insertDocuments (faultyHost .overwrite failThird logDownAfterThird noCountFaults)
      blueDocuments "blue" storeWithProduct1).world.get "/test-data/red/product1.json" =
        storeWithProduct1.get "/test-data/red/product1.json" :=
  ⟨by decide, by decide,
   ((insertDocuments_frame .overwrite failThird logDownAfterThird noCountFaults blueDocuments
     "blue" storeWithProduct1).1 "/test-data/red/product1.json" (by decide)).1⟩

/-! ## Runs in which no log call throws -/

section Quiet

variable {W : Type}

/-- What a run of the loop does when none of the log calls it makes throws, whatever
the inserts do and on any host: it returns normally; the counter has grown by the
number of successful inserts; one insert was attempted per document, in order; the
failure and success records are those of the failed and successful inserts. -/
theorem loop_run_quiet (H : Host W) (collectionName : String) :
    ∀ (documents : List Document) (n : Nat) (w : W),
      logFailures (insertDocumentsFrom H collectionName documents n w).events = [] →
      (insertDocumentsFrom H collectionName documents n w).completion =
          .normal (n + (insertOutcomes
            (insertDocumentsFrom H collectionName documents n w).events).countP Option.isNone) ∧
      insertAttempts (insertDocumentsFrom H collectionName documents n w).events =
          documents.map (fun d => (d.uri, d.content, insertOptions collectionName)) ∧
      (insertOutcomes (insertDocumentsFrom H collectionName documents n w).events).length =
          documents.length ∧
      failureRecords (insertDocumentsFrom H collectionName documents n w).events =
          expectedFailures documents
            (insertOutcomes (insertDocumentsFrom H collectionName documents n w).events) ∧
      successRecords (insertDocumentsFrom H collectionName documents n w).events =
          expectedSuccesses collectionName documents
            (insertOutcomes (insertDocumentsFrom H collectionName documents n w).events) := by
  intro documents
  induction documents with
  | nil =>
    intro n w _
    simp [insertDocumentsFrom_nil, insertOutcomes, insertAttempts, failureRecords,
      successRecords, expectedFailures, expectedSuccesses]
  | cons doc rest ih =>
    intro n w hq
    rcases h1 : H.documentInsert w doc.uri doc.content (insertOptions collectionName) with ⟨o1, w1⟩
    cases o1 with
    | none =>
      rcases h2 : H.log w1 (LogLine.inserted doc.uri collectionName).render with ⟨o2, w2⟩
      cases o2 with
      | none =>
        have hrun : insertDocumentsFrom H collectionName (doc :: rest) n w =
            ⟨(insertDocumentsFrom H collectionName rest (n + 1) w2).completion,
             (insertDocumentsFrom H collectionName rest (n + 1) w2).world,
             .insertCall doc.uri doc.content (insertOptions collectionName) none ::
               .logCall (.inserted doc.uri collectionName) none ::
               (insertDocumentsFrom H collectionName rest (n + 1) w2).events⟩ := by
          simp only [insertDocumentsFrom, Prog.bind, tryInsert, xdmpDocumentInsert, xdmpLog, h1, h2,
            List.singleton_append, List.cons_append, List.nil_append]
        rw [hrun] at hq ⊢
        have hq2 : logFailures (insertDocumentsFrom H collectionName rest (n + 1) w2).events =
            [] := by simpa [logFailures] using hq
        obtain ⟨g1, g2, g3, g4, g5⟩ := ih (n + 1) w2 hq2
        refine ⟨?_, ?_, ?_, ?_, ?_⟩
        · simp only [insertOutcomes, g1, List.countP_cons, Option.isNone_none, if_true]
          congr 1
          omega
        · simp only [insertAttempts, g2, List.map_cons]
        · simp only [insertOutcomes, List.length_cons, g3]
        · simp only [insertOutcomes, failureRecords, g4]
          simp [expectedFailures]
        · simp only [insertOutcomes, successRecords, g5]
          simp [expectedSuccesses]
      | some e2 =>
        exfalso
        rcases h3 : H.log w2 (LogLine.errorInserting doc.uri e2.message).render with ⟨o3, w3⟩
        cases o3 <;>
          simp [insertDocumentsFrom, Prog.bind, tryInsert, xdmpDocumentInsert, xdmpLog, h1, h2, h3,
            logFailures] at hq
    | some e1 =>
      rcases h3 : H.log w1 (LogLine.errorInserting doc.uri e1.message).render with ⟨o3, w3⟩
      cases o3 with
      | none =>
        have hrun : insertDocumentsFrom H collectionName (doc :: rest) n w =
            ⟨(insertDocumentsFrom H collectionName rest n w3).completion,
             (insertDocumentsFrom H collectionName rest n w3).world,
             .insertCall doc.uri doc.content (insertOptions collectionName) (some e1) ::
               .logCall (.errorInserting doc.uri e1.message) none ::
               (insertDocumentsFrom H collectionName rest n w3).events⟩ := by
          simp only [insertDocumentsFrom, Prog.bind, tryInsert, xdmpDocumentInsert, xdmpLog, h1, h3,
            List.singleton_append, List.cons_append, List.nil_append]
        rw [hrun] at hq ⊢
        have hq2 : logFailures (insertDocumentsFrom H collectionName rest n w3).events =
            [] := by simpa [logFailures] using hq
        obtain ⟨g1, g2, g3, g4, g5⟩ := ih n w3 hq2
        refine ⟨?_, ?_, ?_, ?_, ?_⟩
        · simp only [insertOutcomes, g1, List.countP_cons, Option.isNone_some]
          simp
        · simp only [insertAttempts, g2, List.map_cons]
        · simp only [insertOutcomes, List.length_cons, g3]
        · simp only [insertOutcomes, failureRecords, g4]
          simp [expectedFailures]
        · simp only [insertOutcomes, successRecords, g5]
          simp [expectedSuccesses]
      | some e3 =>
        exfalso
        simp [insertDocumentsFrom, Prog.bind, tryInsert, xdmpDocumentInsert, xdmpLog, h1, h3,
          logFailures] at hq

end Quiet

/-! ## Runs in which no log call of the `catch` block throws -/

section Caught

variable {W : Type}

/-- Failures of log calls in two runs of calls, one after the other. -/
theorem logFailures_append (a b : List Event) :
    logFailures (a ++ b) = logFailures a ++ logFailures b := by
  induction a with
  | nil => rfl
  | cons e rest ih =>
    rcases e with ⟨uri, content, options, thrown⟩ | ⟨line, thrown⟩ | ⟨collection, result⟩
    · simp [logFailures, ih]
    · cases thrown <;> simp [logFailures, ih]
    · simp [logFailures, ih]

/-- The log calls of the `catch` block that threw are among the log calls that
threw. -/
theorem catchLogFailures_sublist :
    ∀ events : List Event, (catchLogFailures events).Sublist (logFailures events)
  | [] => List.Sublist.slnil
  | .insertCall _ _ _ _ :: rest => by
    simpa [catchLogFailures, logFailures] using catchLogFailures_sublist rest
  | .estimateCall _ _ :: rest => by
    simpa [catchLogFailures, logFailures] using catchLogFailures_sublist rest
  | .logCall line thrown :: rest => by
    have ih := catchLogFailures_sublist rest
    cases thrown with
    | none => cases line <;> simpa [catchLogFailures, logFailures] using ih
    | some e =>
      cases line <;>
        first
        | simpa [catchLogFailures, logFailures] using ih.cons₂ e
        | simpa [catchLogFailures, logFailures] using ih.cons e

/-- A run without a failed log call has no failed log call in a `catch` block. -/
theorem catchLogFailures_of_quiet (events : List Event) (h : logFailures events = []) :
    catchLogFailures events = [] :=
  List.sublist_nil.mp (h ▸ catchLogFailures_sublist events)

/-- What a run of the loop does on any host, whatever the inserts and the log calls
do.  It throws only an error thrown by a log call of the `catch` block, and returns
only when no such log call threw.  When none threw, it returns the counter grown by
the number of successful inserts, one insert was attempted per document, in order,
and every failed insert has its failure record, in order. -/
theorem loop_run_caught (H : Host W) (collectionName : String) :
    ∀ (documents : List Document) (n : Nat) (w : W),
      (∀ e : JsError, (insertDocumentsFrom H collectionName documents n w).completion = .throw e →
        e ∈ catchLogFailures (insertDocumentsFrom H collectionName documents n w).events) ∧
      (∀ k : Nat, (insertDocumentsFrom H collectionName documents n w).completion = .normal k →
        catchLogFailures (insertDocumentsFrom H collectionName documents n w).events = []) ∧
      (catchLogFailures (insertDocumentsFrom H collectionName documents n w).events = [] →
        (insertDocumentsFrom H collectionName documents n w).completion =
          .normal (n + (insertOutcomes
            (insertDocumentsFrom H collectionName documents n w).events).countP Option.isNone) ∧
        insertAttempts (insertDocumentsFrom H collectionName documents n w).events =
          documents.map (insertArgs collectionName) ∧
        (insertOutcomes (insertDocumentsFrom H collectionName documents n w).events).length =
          documents.length ∧
        (expectedFailures documents
          (insertOutcomes (insertDocumentsFrom H collectionName documents n w).events)).Sublist
          (failureRecords (insertDocumentsFrom H collectionName documents n w).events)) := by
  intro documents
  induction documents with
  | nil =>
    intro n w
    refine ⟨fun e he => (by cases he), fun _ _ => rfl, fun _ => ?_⟩
    simp [insertDocumentsFrom_nil, insertOutcomes, insertAttempts, failureRecords,
      expectedFailures]
  | cons doc rest ih =>
    intro n w
    rcases h1 : H.documentInsert w doc.uri doc.content (insertOptions collectionName) with ⟨o1, w1⟩
    cases o1 with
    | none =>
      rcases h2 : H.log w1 (LogLine.inserted doc.uri collectionName).render with ⟨o2, w2⟩
      cases o2 with
      | none =>
        have hrun : insertDocumentsFrom H collectionName (doc :: rest) n w =
            ⟨(insertDocumentsFrom H collectionName rest (n + 1) w2).completion,
             (insertDocumentsFrom H collectionName rest (n + 1) w2).world,
             .insertCall doc.uri doc.content (insertOptions collectionName) none ::
               .logCall (.inserted doc.uri collectionName) none ::
               (insertDocumentsFrom H collectionName rest (n + 1) w2).events⟩ := by
          simp only [insertDocumentsFrom, Prog.bind, tryInsert, xdmpDocumentInsert, xdmpLog, h1, h2,
            List.singleton_append, List.cons_append, List.nil_append]
        rw [hrun]
        obtain ⟨g1, g2, g3⟩ := ih (n + 1) w2
        refine ⟨fun e he => ?_, fun k hk => ?_, fun hc => ?_⟩
        · simpa [catchLogFailures] using g1 e he
        · simpa [catchLogFailures] using g2 k hk
        · obtain ⟨f1, f2, f3, f4⟩ := g3 (by simpa [catchLogFailures] using hc)
          refine ⟨?_, ?_, ?_, ?_⟩
          · simp only [insertOutcomes, f1, List.countP_cons, Option.isNone_none, if_true]
            congr 1
            omega
          · simp only [insertAttempts, f2, List.map_cons, insertArgs]
          · simp only [insertOutcomes, List.length_cons, f3]
          · simpa [insertOutcomes, failureRecords, expectedFailures] using f4
      | some e2 =>
        rcases h3 : H.log w2 (LogLine.errorInserting doc.uri e2.message).render with ⟨o3, w3⟩
        cases o3 with
        | none =>
          have hrun : insertDocumentsFrom H collectionName (doc :: rest) n w =
              ⟨(insertDocumentsFrom H collectionName rest (n + 1) w3).completion,
               (insertDocumentsFrom H collectionName rest (n + 1) w3).world,
               .insertCall doc.uri doc.content (insertOptions collectionName) none ::
                 .logCall (.inserted doc.uri collectionName) (some e2) ::
                 .logCall (.errorInserting doc.uri e2.message) none ::
                 (insertDocumentsFrom H collectionName rest (n + 1) w3).events⟩ := by
            simp only [insertDocumentsFrom, Prog.bind, tryInsert, xdmpDocumentInsert, xdmpLog,
              h1, h2, h3, List.singleton_append, List.cons_append, List.nil_append]
          rw [hrun]
          obtain ⟨g1, g2, g3⟩ := ih (n + 1) w3
          refine ⟨fun e he => ?_, fun k hk => ?_, fun hc => ?_⟩
          · simpa [catchLogFailures] using g1 e he
          · simpa [catchLogFailures] using g2 k hk
          · obtain ⟨f1, f2, f3, f4⟩ := g3 (by simpa [catchLogFailures] using hc)
            refine ⟨?_, ?_, ?_, ?_⟩
            · simp only [insertOutcomes, f1, List.countP_cons, Option.isNone_none, if_true]
              congr 1
              omega
            · simp only [insertAttempts, f2, List.map_cons, insertArgs]
            · simp only [insertOutcomes, List.length_cons, f3]
            · have f5 : (expectedFailures (doc :: rest) (none :: insertOutcomes
                  (insertDocumentsFrom H collectionName rest (n + 1) w3).events)).Sublist
                  (failureRecords (insertDocumentsFrom H collectionName rest (n + 1) w3).events) := by
                simpa [expectedFailures] using f4
              simpa [insertOutcomes, failureRecords] using f5.cons (doc.uri, e2.message)
        | some e3 =>
          have hrun : insertDocumentsFrom H collectionName (doc :: rest) n w =
              ⟨.throw e3, w3,
               [.insertCall doc.uri doc.content (insertOptions collectionName) none,
                .logCall (.inserted doc.uri collectionName) (some e2),
                .logCall (.errorInserting doc.uri e2.message) (some e3)]⟩ := by
            simp only [insertDocumentsFrom, Prog.bind, tryInsert, xdmpDocumentInsert, xdmpLog,
              h1, h2, h3, List.singleton_append, List.cons_append, List.nil_append]
          rw [hrun]
          refine ⟨fun e he => ?_, fun k hk => (by cases hk), fun hc => ?_⟩
          · injection he with he
            simp [catchLogFailures, he]
          · simp [catchLogFailures] at hc
    | some e1 =>
      rcases h3 : H.log w1 (LogLine.errorInserting doc.uri e1.message).render with ⟨o3, w3⟩
      cases o3 with
      | none =>
        have hrun : insertDocumentsFrom H collectionName (doc :: rest) n w =
            ⟨(insertDocumentsFrom H collectionName rest n w3).completion,
             (insertDocumentsFrom H collectionName rest n w3).world,
             .insertCall doc.uri doc.content (insertOptions collectionName) (some e1) ::
               .logCall (.errorInserting doc.uri e1.message) none ::
               (insertDocumentsFrom H collectionName rest n w3).events⟩ := by
          simp only [insertDocumentsFrom, Prog.bind, tryInsert, xdmpDocumentInsert, xdmpLog, h1, h3,
            List.singleton_append, List.cons_append, List.nil_append]
        rw [hrun]
        obtain ⟨g1, g2, g3⟩ := ih n w3
        refine ⟨fun e he => ?_, fun k hk => ?_, fun hc => ?_⟩
        · simpa [catchLogFailures] using g1 e he
        · simpa [catchLogFailures] using g2 k hk
        · obtain ⟨f1, f2, f3, f4⟩ := g3 (by simpa [catchLogFailures] using hc)
          refine ⟨?_, ?_, ?_, ?_⟩
          · simp only [insertOutcomes, f1, List.countP_cons, Option.isNone_some]
            simp
          · simp only [insertAttempts, f2, List.map_cons, insertArgs]
          · simp only [insertOutcomes, List.length_cons, f3]
          · have f5 := f4.cons₂ (doc.uri, e1.message)
            simpa [insertOutcomes, failureRecords, expectedFailures] using f5
      | some e3 =>
        have hrun : insertDocumentsFrom H collectionName (doc :: rest) n w =
            ⟨.throw e3, w3,
             [.insertCall doc.uri doc.content (insertOptions collectionName) (some e1),
              .logCall (.errorInserting doc.uri e1.message) (some e3)]⟩ := by
          simp only [insertDocumentsFrom, Prog.bind, tryInsert, xdmpDocumentInsert, xdmpLog,
            h1, h3, List.singleton_append, List.cons_append, List.nil_append]
        rw [hrun]
        refine ⟨fun e he => ?_, fun k hk => (by cases hk), fun hc => ?_⟩
        · injection he with he
          simp [catchLogFailures, he]
        · simp [catchLogFailures] at hc

/-- Counts written to the log in two runs of calls, one after the other. -/
theorem countsLogged_append (a b : List Event) :
    countsLogged (a ++ b) = countsLogged a ++ countsLogged b := by
  induction a with
  | nil => rfl
  | cons e rest ih =>
    rcases e with ⟨uri, content, options, thrown⟩ | ⟨line, thrown⟩ | ⟨collection, result⟩
    · simp [countsLogged, ih]
    · cases line <;> cases thrown <;> simp [countsLogged, ih]
    · simp [countsLogged, ih]

/-- The loop writes none of the counts of the load to the log. -/
theorem loop_countsLogged (H : Host W) (collectionName : String) :
    ∀ (documents : List Document) (n : Nat) (w : W),
      countsLogged (insertDocumentsFrom H collectionName documents n w).events = [] := by
  intro documents
  induction documents with
  | nil => intro n w; rfl
  | cons doc rest ih =>
    intro n w
    rcases h1 : H.documentInsert w doc.uri doc.content (insertOptions collectionName) with ⟨o1, w1⟩
    cases o1 with
    | none =>
      rcases h2 : H.log w1 (LogLine.inserted doc.uri collectionName).render with ⟨o2, w2⟩
      cases o2 with
      | none =>
        simp only [insertDocumentsFrom, Prog.bind, tryInsert, xdmpDocumentInsert, xdmpLog, h1, h2,
          List.singleton_append, List.cons_append, List.nil_append]
        simpa [countsLogged] using ih (n + 1) w2
      | some e2 =>
        rcases h3 : H.log w2 (LogLine.errorInserting doc.uri e2.message).render with ⟨o3, w3⟩
        cases o3 with
        | none =>
          simp only [insertDocumentsFrom, Prog.bind, tryInsert, xdmpDocumentInsert, xdmpLog,
            h1, h2, h3, List.singleton_append, List.cons_append, List.nil_append]
          simpa [countsLogged] using ih (n + 1) w3
        | some e3 =>
          simp [insertDocumentsFrom, Prog.bind, tryInsert, xdmpDocumentInsert, xdmpLog,
            h1, h2, h3, countsLogged]
    | some e1 =>
      rcases h3 : H.log w1 (LogLine.errorInserting doc.uri e1.message).render with ⟨o3, w3⟩
      cases o3 with
      | none =>
        simp only [insertDocumentsFrom, Prog.bind, tryInsert, xdmpDocumentInsert, xdmpLog,
          h1, h3, List.singleton_append, List.cons_append, List.nil_append]
        simpa [countsLogged] using ih n w3
      | some e3 =>
        simp [insertDocumentsFrom, Prog.bind, tryInsert, xdmpDocumentInsert, xdmpLog,
          h1, h3, countsLogged]

end Caught

/-! ## The accounting of `insertDocuments` -/

section Accounting

variable {W : Type}

/-- C1 as stated fails: on a store where every insert succeeds and the log call for
the success line of the second red document throws, `insertDocuments` counts all
five documents and also logs a failure record for the second one, so that the count
and the number of failure records add up to six for a batch of five. -/
theorem count_add_failures_exceeds_length :
    insertOutcomes (insertDocuments (faultyHost .overwrite noFaults
        (logDownFor (.inserted "/test-data/red/song2.json" "red")) noCountFaults)
        redDocuments "red" FixtureStore.empty).events = List.replicate 5 none ∧
    (insertDocuments (faultyHost .overwrite noFaults
        (logDownFor (.inserted "/test-data/red/song2.json" "red")) noCountFaults)
        redDocuments "red" FixtureStore.empty).completion = .normal 5 ∧
    failureRecords (insertDocuments (faultyHost .overwrite noFaults
        (logDownFor (.inserted "/test-data/red/song2.json" "red")) noCountFaults)
        redDocuments "red" FixtureStore.empty).events =
      [("/test-data/red/song2.json", "log unavailable")] ∧
    5 + (failureRecords (insertDocuments (faultyHost .overwrite noFaults
        (logDownFor (.inserted "/test-data/red/song2.json" "red")) noCountFaults)
        redDocuments "red" FixtureStore.empty).events).length ≠ redDocuments.length := by
  refine ⟨by decide, by decide, by decide, by decide⟩

/-- C1, as the code has it: on any host, for every batch, every collection name and
every outcome of the insert calls, when none of the `xdmp.log` calls that
`insertDocuments` makes throws, it returns a count which, added to the number of
failure records it logged, is `documents.length`. -/
theorem insertDocuments_count_add_failures (H : Host W)
    (documents : List Document) (collectionName : String) (w : W)
    (hlogs : logFailures (insertDocuments H documents collectionName w).events = []) :
    ∃ insertedCount : Nat,
      (insertDocuments H documents collectionName w).completion = .normal insertedCount ∧
      insertedCount + (failureRecords (insertDocuments H documents collectionName w).events).length
        = documents.length := by
  obtain ⟨h1, _, h3, h4, _⟩ := loop_run_quiet H collectionName documents 0 w hlogs
  refine ⟨_, h1, ?_⟩
  unfold insertDocuments
  rw [h4, expectedFailures_length _ _ h3, Nat.zero_add, countP_isNone_add_isSome, h3]

/-- Witness of C1: the red batch on a store that fails the third insert and whose
log calls would throw for a line that this run does not write. -/
theorem insertDocuments_count_add_failures_witness :
    logFailures (insertDocuments (faultyHost .overwrite failThird
        (logDownFor (.inserted "/test-data/blue/song3.json" "blue")) noCountFaults)
        redDocuments "red" FixtureStore.empty).events = [] ∧
    ∃ insertedCount : Nat,
      (insertDocuments (faultyHost .overwrite failThird
        (logDownFor (.inserted "/test-data/blue/song3.json" "blue")) noCountFaults)
        redDocuments "red" FixtureStore.empty).completion = .normal insertedCount ∧
      insertedCount + (failureRecords (insertDocuments (faultyHost .overwrite failThird
        (logDownFor (.inserted "/test-data/blue/song3.json" "blue")) noCountFaults)
        redDocuments "red" FixtureStore.empty).events).length = redDocuments.length :=
  ⟨by decide,
   insertDocuments_count_add_failures (faultyHost .overwrite failThird
     (logDownFor (.inserted "/test-data/blue/song3.json" "blue")) noCountFaults)
     redDocuments "red" FixtureStore.empty (by decide)⟩

/-- C2 as stated fails: on a store that fails the third insert and whose log calls
throw from then on, `insertDocuments` throws out of the `catch` block of the third
red document; inserts were attempted for the first three documents only, not for
the fourth and the fifth. -/
theorem attempts_stop_after_log_failure :
    (insertDocuments (faultyHost .overwrite failThird logDownAfterThird noCountFaults)
        redDocuments "red" FixtureStore.empty).completion =
      .throw ⟨"XDMP-LOG", "log unavailable"⟩ ∧
    insertOutcomes (insertDocuments (faultyHost .overwrite failThird logDownAfterThird
        noCountFaults) redDocuments "red" FixtureStore.empty).events =
      [none, none, some ⟨"XDMP-SAMPLE", "payload refused"⟩] ∧
    (insertAttempts (insertDocuments (faultyHost .overwrite failThird logDownAfterThird
        noCountFaults) redDocuments "red" FixtureStore.empty).events).map (fun a => a.1) =
      ["/test-data/red/song1.json", "/test-data/red/song2.json",
       "/test-data/red/product1.json"] ∧
    redDocuments.length = 5 := by
  refine ⟨by decide, by decide, by decide, by decide⟩

/-- C2, as the code has it: on any host, for every batch and every pattern of insert
failures, the `xdmp.documentInsert` calls made by `insertDocuments` are one per
document, in list order, for an initial part of the batch, each with the URI and
content of its document; they are one per document of the whole batch whenever
`insertDocuments` returns, and that is whenever no `xdmp.log` call of its `catch`
block throws: then no failed insert keeps a later document from being attempted. -/
theorem insertDocuments_attempts_every_document (H : Host W)
    (documents : List Document) (collectionName : String) (w : W) :
    (catchLogFailures (insertDocuments H documents collectionName w).events = [] →
      insertAttempts (insertDocuments H documents collectionName w).events =
        documents.map (insertArgs collectionName) ∧
      (insertOutcomes (insertDocuments H documents collectionName w).events).length =
        documents.length) ∧
    insertAttempts (insertDocuments H documents collectionName w).events <+:
      documents.map (insertArgs collectionName) ∧
    (∀ k : Nat, (insertDocuments H documents collectionName w).completion = .normal k →
      insertAttempts (insertDocuments H documents collectionName w).events =
        documents.map (insertArgs collectionName)) := by
  obtain ⟨_, _, g3⟩ := loop_run_caught H collectionName documents 0 w
  obtain ⟨_, a2, _, a4, _⟩ := loop_run_any H collectionName (fun _ => True)
    (fun _ _ _ _ => trivial) (fun _ _ _ => trivial) documents 0 w trivial
  exact ⟨fun hc => ⟨(g3 hc).2.1, (g3 hc).2.2.1⟩, a2, fun k hk => (a4 k hk).1⟩

/-- Witness of C2: the red batch on a store that fails the third insert and whose
log call for the success line of the second document throws; a log call threw, but
none of the `catch` block; the call returns and all five inserts are attempted. -/
theorem insertDocuments_attempts_every_document_witness :
    catchLogFailures (insertDocuments (faultyHost .reject failThird
        (logDownFor (.inserted "/test-data/red/song2.json" "red")) noCountFaults)
        redDocuments "red" FixtureStore.empty).events = [] ∧
    logFailures (insertDocuments (faultyHost .reject failThird
        (logDownFor (.inserted "/test-data/red/song2.json" "red")) noCountFaults)
        redDocuments "red" FixtureStore.empty).events ≠ [] ∧
    (insertOutcomes (insertDocuments (faultyHost .reject failThird
        (logDownFor (.inserted "/test-data/red/song2.json" "red")) noCountFaults)
        redDocuments "red" FixtureStore.empty).events).length = redDocuments.length ∧
    (insertDocuments (faultyHost .reject failThird
        (logDownFor (.inserted "/test-data/red/song2.json" "red")) noCountFaults)
        redDocuments "red" FixtureStore.empty).completion = .normal 4 ∧
    insertAttempts (insertDocuments (faultyHost .reject failThird
        (logDownFor (.inserted "/test-data/red/song2.json" "red")) noCountFaults)
        redDocuments "red" FixtureStore.empty).events =
      redDocuments.map (insertArgs "red") :=
  ⟨by decide, by decide,
   ((insertDocuments_attempts_every_document (faultyHost .reject failThird
     (logDownFor (.inserted "/test-data/red/song2.json" "red")) noCountFaults)
     redDocuments "red" FixtureStore.empty).1 (by decide)).2,
   by decide,
   (insertDocuments_attempts_every_document (faultyHost .reject failThird
     (logDownFor (.inserted "/test-data/red/song2.json" "red")) noCountFaults)
     redDocuments "red" FixtureStore.empty).2.2 4 (by decide)⟩

/-- C3 as stated fails: on a store that refuses every insert and whose log calls
throw once three inserts were made, the error of the third insert is caught, but the
log call that should record it throws, and `insertDocuments` throws that error
instead of returning a count; only the first two failures are recorded. -/
theorem insert_error_lost_to_log_failure :
    insertOutcomes (insertDocuments (faultyHost .overwrite failAll logDownAfterThird
        noCountFaults) blueDocuments "blue" FixtureStore.empty).events =
      [some ⟨"XDMP-SAMPLE", "refused /test-data/blue/song3.json"⟩,
       some ⟨"XDMP-SAMPLE", "refused /test-data/blue/song4.json"⟩,
       some ⟨"XDMP-SAMPLE", "refused /test-data/blue/product2.json"⟩] ∧
    (insertDocuments (faultyHost .overwrite failAll logDownAfterThird noCountFaults)
        blueDocuments "blue" FixtureStore.empty).completion =
      .throw ⟨"XDMP-LOG", "log unavailable"⟩ ∧
    (∀ k : Nat, (insertDocuments (faultyHost .overwrite failAll logDownAfterThird noCountFaults)
        blueDocuments "blue" FixtureStore.empty).completion ≠ .normal k) ∧
    failureRecords (insertDocuments (faultyHost .overwrite failAll logDownAfterThird
        noCountFaults) blueDocuments "blue" FixtureStore.empty).events =
      [("/test-data/blue/song3.json", "refused /test-data/blue/song3.json"),
       ("/test-data/blue/song4.json", "refused /test-data/blue/song4.json")] := by
  have hthrow : (insertDocuments (faultyHost .overwrite failAll logDownAfterThird noCountFaults)
      blueDocuments "blue" FixtureStore.empty).completion =
      .throw ⟨"XDMP-LOG", "log unavailable"⟩ := by decide
  refine ⟨by decide, hthrow, fun k hk => ?_, by decide⟩
  rw [hthrow] at hk
  cases hk

/-- C3, as the code has it: on any host, for every batch and whatever errors the
insert calls throw, `insertDocuments` throws only an error thrown by an `xdmp.log`
call of its `catch` block.  When no such log call throws, no error leaves the
function: it returns a count normally and every failed insert has its failure
record, in order, with the URI of the document and the message of the error; when
no `xdmp.log` call throws at all, these are all the failure records. -/
theorem insertDocuments_catches_insert_errors (H : Host W)
    (documents : List Document) (collectionName : String) (w : W) :
    (catchLogFailures (insertDocuments H documents collectionName w).events = [] →
      (∃ insertedCount : Nat,
        (insertDocuments H documents collectionName w).completion = .normal insertedCount) ∧
      (insertOutcomes (insertDocuments H documents collectionName w).events).length =
        documents.length ∧
      (expectedFailures documents
        (insertOutcomes (insertDocuments H documents collectionName w).events)).Sublist
        (failureRecords (insertDocuments H documents collectionName w).events)) ∧
    (logFailures (insertDocuments H documents collectionName w).events = [] →
      failureRecords (insertDocuments H documents collectionName w).events =
        expectedFailures documents
          (insertOutcomes (insertDocuments H documents collectionName w).events)) ∧
    (∀ e : JsError, (insertDocuments H documents collectionName w).completion = .throw e →
      e ∈ catchLogFailures (insertDocuments H documents collectionName w).events) := by
  obtain ⟨g1, _, g3⟩ := loop_run_caught H collectionName documents 0 w
  refine ⟨fun hc => ?_, fun hq => ?_, g1⟩
  · obtain ⟨f1, _, f3, f4⟩ := g3 hc
    exact ⟨⟨_, f1⟩, f3, f4⟩
  · exact (loop_run_quiet H collectionName documents 0 w hq).2.2.2.1

/-- Witness of C3.  The red batch on a rejecting store that fails the third insert
and whose log call for the success line of the second document throws: no log call
of the `catch` block throws, the call returns and the failure is recorded.  The same
batch when no log call throws: the failure records are those of the failed inserts.
The blue batch on a store that refuses every insert and whose log calls throw once
three inserts were made: the error thrown is that of a log call of the `catch`
block. -/
theorem insertDocuments_catches_insert_errors_witness :
    catchLogFailures (insertDocuments (faultyHost .reject failThird
        (logDownFor (.inserted "/test-data/red/song2.json" "red")) noCountFaults)
        redDocuments "red" FixtureStore.empty).events = [] ∧
    ((∃ insertedCount : Nat,
      (insertDocuments (faultyHost .reject failThird
        (logDownFor (.inserted "/test-data/red/song2.json" "red")) noCountFaults)
        redDocuments "red" FixtureStore.empty).completion = .normal insertedCount) ∧
     (insertOutcomes (insertDocuments (faultyHost .reject failThird
        (logDownFor (.inserted "/test-data/red/song2.json" "red")) noCountFaults)
        redDocuments "red" FixtureStore.empty).events).length = redDocuments.length ∧
     (expectedFailures redDocuments
      (insertOutcomes (insertDocuments (faultyHost .reject failThird
        (logDownFor (.inserted "/test-data/red/song2.json" "red")) noCountFaults)
        redDocuments "red" FixtureStore.empty).events)).Sublist
      (failureRecords (insertDocuments (faultyHost .reject failThird
        (logDownFor (.inserted "/test-data/red/song2.json" "red")) noCountFaults)
        redDocuments "red" FixtureStore.empty).events)) ∧
    logFailures (insertDocuments (faultyHost .reject failThird
        (logDownFor (.inserted "/test-data/blue/song3.json" "blue")) noCountFaults)
        redDocuments "red" FixtureStore.empty).events = [] ∧
    failureRecords (insertDocuments (faultyHost .reject failThird
        (logDownFor (.inserted "/test-data/blue/song3.json" "blue")) noCountFaults)
        redDocuments "red" FixtureStore.empty).events =
      expectedFailures redDocuments
        (insertOutcomes (insertDocuments (faultyHost .reject failThird
          (logDownFor (.inserted "/test-data/blue/song3.json" "blue")) noCountFaults)
          redDocuments "red" FixtureStore.empty).events) ∧
    (insertDocuments (faultyHost .overwrite failAll logDownAfterThird noCountFaults)
        blueDocuments "blue" FixtureStore.empty).completion =
      .throw ⟨"XDMP-LOG", "log unavailable"⟩ ∧
    (⟨"XDMP-LOG", "log unavailable"⟩ : JsError) ∈
      catchLogFailures (insertDocuments (faultyHost .overwrite failAll logDownAfterThird
        noCountFaults) blueDocuments "blue" FixtureStore.empty).events :=
  ⟨by decide,
   (insertDocuments_catches_insert_errors (faultyHost .reject failThird
     (logDownFor (.inserted "/test-data/red/song2.json" "red")) noCountFaults)
     redDocuments "red" FixtureStore.empty).1 (by decide),
   by decide,
   (insertDocuments_catches_insert_errors (faultyHost .reject failThird
     (logDownFor (.inserted "/test-data/blue/song3.json" "blue")) noCountFaults)
     redDocuments "red" FixtureStore.empty).2.1 (by decide),
   by decide,
   (insertDocuments_catches_insert_errors (faultyHost .overwrite failAll logDownAfterThird
     noCountFaults) blueDocuments "blue" FixtureStore.empty).2.2 _ (by decide)⟩

/-- C4 as stated fails.  On a rejecting store that already holds the third red URI,
exactly one insert of the red batch fails.  When the log call for its failure record
throws, `insertDocuments` throws instead of returning four, no failure record is
logged, and the fourth and fifth documents are not processed.  When instead the log
call for the success line of the second document throws, four is returned but two
failure records are logged, the first for a document that was inserted. -/
theorem one_failed_insert_with_log_failure :
    insertOutcomes (insertDocuments (faultyHost .reject noFaults
        (logDownFor (.errorInserting "/test-data/red/product1.json"
          (duplicateUri "/test-data/red/product1.json").message)) noCountFaults)
        redDocuments "red" storeWithProduct1).events =
      [none, none, some (duplicateUri "/test-data/red/product1.json")] ∧
    (insertDocuments (faultyHost .reject noFaults
        (logDownFor (.errorInserting "/test-data/red/product1.json"
          (duplicateUri "/test-data/red/product1.json").message)) noCountFaults)
        redDocuments "red" storeWithProduct1).completion =
      .throw ⟨"XDMP-LOG", "log unavailable"⟩ ∧
    failureRecords (insertDocuments (faultyHost .reject noFaults
        (logDownFor (.errorInserting "/test-data/red/product1.json"
          (duplicateUri "/test-data/red/product1.json").message)) noCountFaults)
        redDocuments "red" storeWithProduct1).events = [] ∧
    (insertOutcomes (insertDocuments (faultyHost .reject noFaults
        (logDownFor (.inserted "/test-data/red/song2.json" "red")) noCountFaults)
        redDocuments "red" storeWithProduct1).events).countP Option.isSome = 1 ∧
    (insertDocuments (faultyHost .reject noFaults
        (logDownFor (.inserted "/test-data/red/song2.json" "red")) noCountFaults)
        redDocuments "red" storeWithProduct1).completion = .normal 4 ∧
    failureRecords (insertDocuments (faultyHost .reject noFaults
        (logDownFor (.inserted "/test-data/red/song2.json" "red")) noCountFaults)
        redDocuments "red" storeWithProduct1).events =
      [("/test-data/red/song2.json", "log unavailable"),
       ("/test-data/red/product1.json", "Document exists at /test-data/red/product1.json")] := by
  refine ⟨by decide, by decide, by decide, by decide, by decide, by decide⟩

/-- C4, as the code has it: on any host, whenever `insertDocuments` returns, it
returns the number of insert calls that succeeded, one call having been made per
document.  When exactly one insert failed and no `xdmp.log` call of the `catch`
block throws, the result is `documents.length - 1`, an insert was attempted for
every document, those after the failing one included, and a failure record is logged
that carries the URI of the failing document and the message of its error; it is the
only failure record when no `xdmp.log` call throws at all. -/
theorem insertDocuments_returns_successes (H : Host W)
    (documents : List Document) (collectionName : String) (w : W) :
    (∀ k : Nat, (insertDocuments H documents collectionName w).completion = .normal k →
      k = (insertOutcomes
        (insertDocuments H documents collectionName w).events).countP Option.isNone ∧
      (insertOutcomes (insertDocuments H documents collectionName w).events).length =
        documents.length) ∧
    (catchLogFailures (insertDocuments H documents collectionName w).events = [] →
      (insertOutcomes (insertDocuments H documents collectionName w).events).countP
        Option.isSome = 1 →
      (insertDocuments H documents collectionName w).completion =
        .normal (documents.length - 1) ∧
      insertAttempts (insertDocuments H documents collectionName w).events =
        documents.map (insertArgs collectionName) ∧
      ∃ (i : Nat) (e : JsError) (hi : i < documents.length),
        (insertOutcomes (insertDocuments H documents collectionName w).events)[i]? =
          some (some e) ∧
        ((documents.get ⟨i, hi⟩).uri, e.message) ∈
          failureRecords (insertDocuments H documents collectionName w).events ∧
        (logFailures (insertDocuments H documents collectionName w).events = [] →
          failureRecords (insertDocuments H documents collectionName w).events =
            [((documents.get ⟨i, hi⟩).uri, e.message)])) := by
  obtain ⟨_, g2, g3⟩ := loop_run_caught H collectionName documents 0 w
  have hcount : catchLogFailures (insertDocuments H documents collectionName w).events = [] →
      (insertDocuments H documents collectionName w).completion =
        .normal ((insertOutcomes
          (insertDocuments H documents collectionName w).events).countP Option.isNone) := by
    intro hc
    have f1 := (g3 hc).1
    unfold insertDocuments
    rw [f1, Nat.zero_add]
  refine ⟨fun k hk => ?_, fun hc hone => ?_⟩
  · have hc := g2 k hk
    have h1 := hcount hc
    rw [hk] at h1
    injection h1 with h1
    exact ⟨h1, (g3 hc).2.2.1⟩
  · obtain ⟨_, f2, f3, f4⟩ := g3 hc
    obtain ⟨i, e, hi, hget, hrec⟩ := expectedFailures_of_one_failure documents _ f3 hone
    refine ⟨?_, f2, i, e, hi, hget, ?_, fun hq => ?_⟩
    · rw [hcount hc]
      congr 1
      have hsum := countP_isNone_add_isSome
        (insertOutcomes (insertDocuments H documents collectionName w).events)
      have f3r : (insertOutcomes (insertDocuments H documents collectionName w).events).length =
          documents.length := f3
      omega
    · rw [hrec] at f4
      exact f4.subset (List.mem_singleton.mpr rfl)
    · exact ((loop_run_quiet H collectionName documents 0 w hq).2.2.2.1).trans hrec

/-- Witness of C4: the red batch on a rejecting store that already holds the URI of
the third red document, with a log call that throws for the success line of the
second document; the call returns four, the number of inserts that succeeded, which
is the length of the batch less one. -/
theorem insertDocuments_returns_successes_witness :
    catchLogFailures (insertDocuments (faultyHost .reject noFaults
        (logDownFor (.inserted "/test-data/red/song2.json" "red")) noCountFaults)
        redDocuments "red" storeWithProduct1).events = [] ∧
    (insertOutcomes (insertDocuments (faultyHost .reject noFaults
        (logDownFor (.inserted "/test-data/red/song2.json" "red")) noCountFaults)
        redDocuments "red" storeWithProduct1).events).countP Option.isSome = 1 ∧
    (insertDocuments (faultyHost .reject noFaults
        (logDownFor (.inserted "/test-data/red/song2.json" "red")) noCountFaults)
        redDocuments "red" storeWithProduct1).completion = .normal (redDocuments.length - 1) ∧
    (insertDocuments (faultyHost .reject noFaults
        (logDownFor (.inserted "/test-data/red/song2.json" "red")) noCountFaults)
        redDocuments "red" storeWithProduct1).completion = .normal 4 ∧
    4 = (insertOutcomes (insertDocuments (faultyHost .reject noFaults
        (logDownFor (.inserted "/test-data/red/song2.json" "red")) noCountFaults)
        redDocuments "red" storeWithProduct1).events).countP Option.isNone :=
  ⟨by decide, by decide,
   ((insertDocuments_returns_successes (faultyHost .reject noFaults
     (logDownFor (.inserted "/test-data/red/song2.json" "red")) noCountFaults)
     redDocuments "red" storeWithProduct1).2 (by decide) (by decide)).1,
   by decide,
   ((insertDocuments_returns_successes (faultyHost .reject noFaults
     (logDownFor (.inserted "/test-data/red/song2.json" "red")) noCountFaults)
     redDocuments "red" storeWithProduct1).1 4 (by decide)).1⟩

end Accounting

/-! ## A load in which no log call throws -/

section QuietLoad

variable {W : Type}

/-- A log call followed by more of the script, in a run without a failed log call:
the log call returned, and the run goes on with what follows. -/
theorem quiet_log_then {β : Type} (H : Host W) (line : LogLine) (q : Unit → Prog W β) (w : W)
    (h : logFailures (Prog.bind (xdmpLog H line) q w).events = []) :
    logFailures (q () (H.log w line.render).2).events = [] ∧
    (Prog.bind (xdmpLog H line) q w).completion = (q () (H.log w line.render).2).completion ∧
    (Prog.bind (xdmpLog H line) q w).events =
      .logCall line none :: (q () (H.log w line.render).2).events := by
  rcases hl : H.log w line.render with ⟨o, w1⟩
  cases o with
  | some e => simp [Prog.bind, xdmpLog, hl, logFailures] at h
  | none =>
    have hrun : Prog.bind (xdmpLog H line) q w =
        ⟨(q () w1).completion, (q () w1).world, .logCall line none :: (q () w1).events⟩ := by
      simp only [Prog.bind, xdmpLog, hl, List.singleton_append]
    rw [hrun] at h ⊢
    exact ⟨by simpa [logFailures] using h, rfl, rfl⟩

/-- A call of `insertDocuments` followed by more of the script, in a run without a
failed log call: the call returned a count, and the run goes on with what follows. -/
theorem quiet_insert_then {β : Type} (H : Host W) (documents : List Document)
    (collectionName : String) (q : Nat → Prog W β) (w : W)
    (h : logFailures (Prog.bind (insertDocuments H documents collectionName) q w).events = []) :
    ∃ k : Nat, (insertDocuments H documents collectionName w).completion = .normal k ∧
      logFailures (insertDocuments H documents collectionName w).events = [] ∧
      logFailures (q k (insertDocuments H documents collectionName w).world).events = [] ∧
      (Prog.bind (insertDocuments H documents collectionName) q w).completion =
        (q k (insertDocuments H documents collectionName w).world).completion ∧
      (Prog.bind (insertDocuments H documents collectionName) q w).events =
        (insertDocuments H documents collectionName w).events ++
          (q k (insertDocuments H documents collectionName w).world).events := by
  rcases Prog.bind_cases (insertDocuments H documents collectionName) q w with
    ⟨k, hk, hrun⟩ | ⟨e, he, hrun⟩
  · rw [hrun] at h ⊢
    simp only [logFailures_append, List.append_eq_nil] at h
    exact ⟨k, hk, h.1, h.2, rfl, rfl⟩
  · rw [hrun] at h
    have hmem := (loop_run_caught H collectionName documents 0 w).1 e he
    have hnil := catchLogFailures_of_quiet _ h
    rw [show catchLogFailures (insertDocumentsFrom H collectionName documents 0 w).events = []
      from hnil] at hmem
    cases hmem

/-- The verification step of the load (lines 307-313) followed by the summary, in a
run without a failed log call: it makes no insert call and writes no failure record
and none of the counts of the load; when no count query throws either, it
completes with the summary. -/
theorem quiet_verification (H : Host W) (summary : Nat → Nat → LoadSummary) (w : W)
    (h : logFailures ((Prog.bind (ctsEstimate H "red") fun redCount =>
      Prog.bind (ctsEstimate H "blue") fun blueCount =>
      Prog.bind (xdmpLog H (.redCount redCount)) fun _ =>
      Prog.bind (xdmpLog H (.blueCount blueCount)) fun _ =>
      Prog.bind (xdmpLog H .complete) fun _ =>
      Prog.pure (summary redCount blueCount)) w).events = []) :
    failureRecords ((Prog.bind (ctsEstimate H "red") fun redCount =>
      Prog.bind (ctsEstimate H "blue") fun blueCount =>
      Prog.bind (xdmpLog H (.redCount redCount)) fun _ =>
      Prog.bind (xdmpLog H (.blueCount blueCount)) fun _ =>
      Prog.bind (xdmpLog H .complete) fun _ =>
      Prog.pure (summary redCount blueCount)) w).events = [] ∧
    insertOutcomes ((Prog.bind (ctsEstimate H "red") fun redCount =>
      Prog.bind (ctsEstimate H "blue") fun blueCount =>
      Prog.bind (xdmpLog H (.redCount redCount)) fun _ =>
      Prog.bind (xdmpLog H (.blueCount blueCount)) fun _ =>
      Prog.bind (xdmpLog H .complete) fun _ =>
      Prog.pure (summary redCount blueCount)) w).events = [] ∧
    countsLogged ((Prog.bind (ctsEstimate H "red") fun redCount =>
      Prog.bind (ctsEstimate H "blue") fun blueCount =>
      Prog.bind (xdmpLog H (.redCount redCount)) fun _ =>
      Prog.bind (xdmpLog H (.blueCount blueCount)) fun _ =>
      Prog.bind (xdmpLog H .complete) fun _ =>
      Prog.pure (summary redCount blueCount)) w).events = [] ∧
    ((∃ e : JsError, ((Prog.bind (ctsEstimate H "red") fun redCount =>
        Prog.bind (ctsEstimate H "blue") fun blueCount =>
        Prog.bind (xdmpLog H (.redCount redCount)) fun _ =>
        Prog.bind (xdmpLog H (.blueCount blueCount)) fun _ =>
        Prog.bind (xdmpLog H .complete) fun _ =>
        Prog.pure (summary redCount blueCount)) w).completion = .throw e ∧
      otherFailures ((Prog.bind (ctsEstimate H "red") fun redCount =>
        Prog.bind (ctsEstimate H "blue") fun blueCount =>
        Prog.bind (xdmpLog H (.redCount redCount)) fun _ =>
        Prog.bind (xdmpLog H (.blueCount blueCount)) fun _ =>
        Prog.bind (xdmpLog H .complete) fun _ =>
        Prog.pure (summary redCount blueCount)) w).events ≠ []) ∨
     (∃ redCount blueCount : Nat, ((Prog.bind (ctsEstimate H "red") fun redCount =>
        Prog.bind (ctsEstimate H "blue") fun blueCount =>
        Prog.bind (xdmpLog H (.redCount redCount)) fun _ =>
        Prog.bind (xdmpLog H (.blueCount blueCount)) fun _ =>
        Prog.bind (xdmpLog H .complete) fun _ =>
        Prog.pure (summary redCount blueCount)) w).completion =
          .normal (summary redCount blueCount))) := by
  cases hr : H.estimate w "red" with
  | error e =>
    simp [Prog.bind, ctsEstimate, hr, failureRecords, insertOutcomes, countsLogged,
      otherFailures]
  | ok cr =>
    cases hb : H.estimate w "blue" with
    | error e =>
      simp [Prog.bind, ctsEstimate, hr, hb, failureRecords, insertOutcomes, countsLogged,
        otherFailures]
    | ok cb =>
      have hrun : ((Prog.bind (ctsEstimate H "red") fun redCount =>
          Prog.bind (ctsEstimate H "blue") fun blueCount =>
          Prog.bind (xdmpLog H (.redCount redCount)) fun _ =>
          Prog.bind (xdmpLog H (.blueCount blueCount)) fun _ =>
          Prog.bind (xdmpLog H .complete) fun _ =>
          Prog.pure (summary redCount blueCount)) w) =
          ⟨((Prog.bind (xdmpLog H (.redCount cr)) fun _ =>
              Prog.bind (xdmpLog H (.blueCount cb)) fun _ =>
              Prog.bind (xdmpLog H .complete) fun _ =>
              Prog.pure (summary cr cb)) w).completion,
           ((Prog.bind (xdmpLog H (.redCount cr)) fun _ =>
              Prog.bind (xdmpLog H (.blueCount cb)) fun _ =>
              Prog.bind (xdmpLog H .complete) fun _ =>
              Prog.pure (summary cr cb)) w).world,
           .estimateCall "red" (.ok cr) :: .estimateCall "blue" (.ok cb) ::
             ((Prog.bind (xdmpLog H (.redCount cr)) fun _ =>
              Prog.bind (xdmpLog H (.blueCount cb)) fun _ =>
              Prog.bind (xdmpLog H .complete) fun _ =>
              Prog.pure (summary cr cb)) w).events⟩ := by
        simp only [Prog.bind, ctsEstimate, hr, hb, List.singleton_append, List.cons_append,
          List.nil_append]
      rw [hrun] at h ⊢
      have h0 : logFailures ((Prog.bind (xdmpLog H (.redCount cr)) fun _ =>
          Prog.bind (xdmpLog H (.blueCount cb)) fun _ =>
          Prog.bind (xdmpLog H .complete) fun _ =>
          Prog.pure (summary cr cb)) w).events = [] := by simpa [logFailures] using h
      obtain ⟨q1, c1, e1⟩ := quiet_log_then H (.redCount cr) _ w h0
      obtain ⟨q2, c2, e2⟩ := quiet_log_then H (.blueCount cb) _ _ q1
      obtain ⟨_, c3, e3⟩ := quiet_log_then H .complete _ _ q2
      refine ⟨?_, ?_, ?_, Or.inr ⟨cr, cb, ?_⟩⟩
      · simp only [e1, e2, e3]
        simp [failureRecords, Prog.pure]
      · simp only [e1, e2, e3]
        simp [insertOutcomes, Prog.pure]
      · simp only [e1, e2, e3]
        simp [countsLogged, Prog.pure]
      · simp only [c1, c2, c3]
        rfl

/-- What follows a call in a run without a failed log call or count query has no
such failure either. -/
theorem otherFailures_of_cons (event : Event) (rest : List Event)
    (h : otherFailures (event :: rest) = []) : otherFailures rest = [] := by
  rcases event with ⟨uri, content, options, thrown⟩ | ⟨line, thrown⟩ | ⟨collection, result⟩
  · simpa [otherFailures] using h
  · cases thrown with
    | none => simpa [otherFailures] using h
    | some e => simp [otherFailures] at h
  · cases result with
    | ok n => simpa [otherFailures] using h
    | error e => simp [otherFailures] at h

/-- The load body in a run without a failed log call: both calls of
`insertDocuments` return a count, without a failed log call of their own; the calls
of the body are the starting line, those of the red call, the red count, those of
the blue call, the four count lines, and then those of the verification step, which
makes no insert call and writes no failure record and no count of the load; the
body completes with the two counts and their sum unless a count query throws. -/
theorem loadBody_logquiet (H : Host W) (w : W)
    (h : logFailures (loadBody H w).events = []) :
    ∃ (redInserted blueInserted : Nat) (tail : List Event),
      (insertDocuments H redDocuments "red" (H.log w LogLine.starting.render).2).completion =
        .normal redInserted ∧
      logFailures (insertDocuments H redDocuments "red"
        (H.log w LogLine.starting.render).2).events = [] ∧
      (insertDocuments H blueDocuments "blue"
        (H.log (insertDocuments H redDocuments "red" (H.log w LogLine.starting.render).2).world
          (LogLine.redInserted redInserted).render).2).completion = .normal blueInserted ∧
      logFailures (insertDocuments H blueDocuments "blue"
        (H.log (insertDocuments H redDocuments "red" (H.log w LogLine.starting.render).2).world
          (LogLine.redInserted redInserted).render).2).events = [] ∧
      (loadBody H w).events =
        .logCall .starting none ::
          ((insertDocuments H redDocuments "red" (H.log w LogLine.starting.render).2).events ++
            .logCall (.redInserted redInserted) none ::
              ((insertDocuments H blueDocuments "blue"
                (H.log (insertDocuments H redDocuments "red"
                  (H.log w LogLine.starting.render).2).world
                  (LogLine.redInserted redInserted).render).2).events ++
                .logCall (.blueInserted blueInserted) none ::
                .logCall (.totalInserted (redInserted + blueInserted)) none ::
                .logCall (.redSummary redInserted) none ::
                .logCall (.blueSummary blueInserted) none :: tail)) ∧
      failureRecords tail = [] ∧ insertOutcomes tail = [] ∧ countsLogged tail = [] ∧
      ((∃ e : JsError, (loadBody H w).completion = .throw e ∧ otherFailures tail ≠ []) ∨
       (∃ redCount blueCount : Nat, (loadBody H w).completion =
          .normal ⟨redInserted, blueInserted, redInserted + blueInserted, redCount,
            blueCount⟩)) := by
  unfold loadBody at h ⊢
  obtain ⟨q1, c1, e1⟩ := quiet_log_then H .starting _ w h
  obtain ⟨kr, hkr, hqr, q2, c2, e2⟩ := quiet_insert_then H redDocuments "red" _ _ q1
  obtain ⟨q3, c3, e3⟩ := quiet_log_then H (.redInserted kr) _ _ q2
  obtain ⟨kb, hkb, hqb, q4, c4, e4⟩ := quiet_insert_then H blueDocuments "blue" _ _ q3
  obtain ⟨q5, c5, e5⟩ := quiet_log_then H (.blueInserted kb) _ _ q4
  obtain ⟨q6, c6, e6⟩ := quiet_log_then H (.totalInserted (kr + kb)) _ _ q5
  obtain ⟨q7, c7, e7⟩ := quiet_log_then H (.redSummary kr) _ _ q6
  obtain ⟨q8, c8, e8⟩ := quiet_log_then H (.blueSummary kb) _ _ q7
  obtain ⟨v1, v2, v3, v4⟩ := quiet_verification H
    (fun redCount blueCount => ⟨kr, kb, kr + kb, redCount, blueCount⟩) _ q8
  refine ⟨kr, kb, _, hkr, hqr, hkb, hqb, ?_, v1, v2, v3, ?_⟩
  · rw [e1, e2, e3, e4, e5, e6, e7, e8]
  · rw [c1, c2, c3, c4, c5, c6, c7, c8]
    exact v4

/-- The load block in a run without a failed log call.  Both calls of
`insertDocuments` return a count, without a failed log call of their own.  The
failure records and the insert outcomes of the block are those of the red call
followed by those of the blue call.  The counts written to the log are the count of
the red call, the count of the blue call, their sum, and the two counts again.  When
no count query throws either, the block completes with these counts. -/
theorem loadBlock_logquiet (H : Host W) (w : W)
    (h : logFailures (loadBlock H w).events = []) :
    ∃ redInserted blueInserted : Nat,
      (insertDocuments H redDocuments "red" (H.log w LogLine.starting.render).2).completion =
        .normal redInserted ∧
      logFailures (insertDocuments H redDocuments "red"
        (H.log w LogLine.starting.render).2).events = [] ∧
      (insertDocuments H blueDocuments "blue"
        (H.log (insertDocuments H redDocuments "red" (H.log w LogLine.starting.render).2).world
          (LogLine.redInserted redInserted).render).2).completion = .normal blueInserted ∧
      logFailures (insertDocuments H blueDocuments "blue"
        (H.log (insertDocuments H redDocuments "red" (H.log w LogLine.starting.render).2).world
          (LogLine.redInserted redInserted).render).2).events = [] ∧
      failureRecords (loadBlock H w).events =
        failureRecords (insertDocuments H redDocuments "red"
          (H.log w LogLine.starting.render).2).events ++
        failureRecords (insertDocuments H blueDocuments "blue"
          (H.log (insertDocuments H redDocuments "red" (H.log w LogLine.starting.render).2).world
            (LogLine.redInserted redInserted).render).2).events ∧
      insertOutcomes (loadBlock H w).events =
        insertOutcomes (insertDocuments H redDocuments "red"
          (H.log w LogLine.starting.render).2).events ++
        insertOutcomes (insertDocuments H blueDocuments "blue"
          (H.log (insertDocuments H redDocuments "red" (H.log w LogLine.starting.render).2).world
            (LogLine.redInserted redInserted).render).2).events ∧
      countsLogged (loadBlock H w).events =
        [.redInserted redInserted, .blueInserted blueInserted,
         .totalInserted (redInserted + blueInserted), .redSummary redInserted,
         .blueSummary blueInserted] ∧
      (otherFailures (loadBlock H w).events = [] →
        ∃ redCount blueCount : Nat, (loadBlock H w).completion =
          .normal ⟨redInserted, blueInserted, redInserted + blueInserted, redCount,
            blueCount⟩) := by
  have hbodyquiet : logFailures (loadBody H w).events = [] := by
    unfold loadBlock at h
    rcases Prog.tryCatch_cases (loadBody H) (loadHandler H) w with ⟨a, _, hrun⟩ | ⟨e, _, hrun⟩
    · rw [hrun] at h; exact h
    · rw [hrun] at h
      simp only [logFailures_append, List.append_eq_nil] at h
      exact h.1
  obtain ⟨kr, kb, tail, hkr, hqr, hkb, hqb, hev, t1, t2, t3, hc⟩ :=
    loadBody_logquiet H w hbodyquiet
  have hcr : countsLogged (insertDocuments H redDocuments "red"
      (H.log w LogLine.starting.render).2).events = [] :=
    loop_countsLogged H "red" redDocuments 0 _
  have hcb : countsLogged (insertDocuments H blueDocuments "blue"
      (H.log (insertDocuments H redDocuments "red" (H.log w LogLine.starting.render).2).world
        (LogLine.redInserted kr).render).2).events = [] :=
    loop_countsLogged H "blue" blueDocuments 0 _
  have hfr : failureRecords (loadBody H w).events =
      failureRecords (insertDocuments H redDocuments "red"
        (H.log w LogLine.starting.render).2).events ++
      failureRecords (insertDocuments H blueDocuments "blue"
        (H.log (insertDocuments H redDocuments "red" (H.log w LogLine.starting.render).2).world
          (LogLine.redInserted kr).render).2).events := by
    rw [hev]
    simp [failureRecords, failureRecords_append, t1]
  have hio : insertOutcomes (loadBody H w).events =
      insertOutcomes (insertDocuments H redDocuments "red"
        (H.log w LogLine.starting.render).2).events ++
      insertOutcomes (insertDocuments H blueDocuments "blue"
        (H.log (insertDocuments H redDocuments "red" (H.log w LogLine.starting.render).2).world
          (LogLine.redInserted kr).render).2).events := by
    rw [hev]
    simp [insertOutcomes, insertOutcomes_append, t2]
  have hcl : countsLogged (loadBody H w).events =
      [.redInserted kr, .blueInserted kb, .totalInserted (kr + kb), .redSummary kr,
       .blueSummary kb] := by
    rw [hev]
    simp [countsLogged, countsLogged_append, t3, hcr, hcb]
  refine ⟨kr, kb, hkr, hqr, hkb, hqb, ?_⟩
  unfold loadBlock at h ⊢
  rcases Prog.tryCatch_cases (loadBody H) (loadHandler H) w with ⟨a, ha, hrun⟩ | ⟨e, he, hrun⟩
  · rw [hrun]
    refine ⟨hfr, hio, hcl, fun _ => ?_⟩
    rcases hc with ⟨e, he, _⟩ | hn
    · rw [ha] at he; cases he
    · exact hn
  · rw [hrun] at h ⊢
    simp only [logFailures_append, List.append_eq_nil] at h
    have hh := h.2
    unfold loadHandler at hh ⊢
    obtain ⟨_, _, e1⟩ := quiet_log_then H (.epicFailure e.message)
      (fun _ => (Prog.throw e : Prog W LoadSummary)) _ hh
    simp only [e1, failureRecords_append, insertOutcomes_append, countsLogged_append,
      otherFailures_append, hfr, hio, hcl]
    refine ⟨by simp [failureRecords, Prog.throw], by simp [insertOutcomes, Prog.throw],
      by simp [countsLogged, Prog.throw], fun hq => ?_⟩
    exfalso
    rcases hc with ⟨e2, _, hne⟩ | ⟨cr, cb, hn⟩
    · apply hne
      have hq1 := (List.append_eq_nil.mp hq).1
      rw [hev] at hq1
      have s1 := otherFailures_of_cons _ _ hq1
      rw [otherFailures_append] at s1
      have s2 := otherFailures_of_cons _ _ (List.append_eq_nil.mp s1).2
      rw [otherFailures_append] at s2
      exact otherFailures_of_cons _ _ (otherFailures_of_cons _ _ (otherFailures_of_cons _ _
        (otherFailures_of_cons _ _ (List.append_eq_nil.mp s2).2)))
    · rw [he] at hn; cases hn

/-- A run without a failed log call or count query has no failed log call. -/
theorem logFailures_of_quiet :
    ∀ events : List Event, otherFailures events = [] → logFailures events = []
  | [], _ => rfl
  | .insertCall _ _ _ _ :: rest, h => by
    simpa [logFailures] using logFailures_of_quiet rest (otherFailures_of_cons _ _ h)
  | .estimateCall _ _ :: rest, h => by
    simpa [logFailures] using logFailures_of_quiet rest (otherFailures_of_cons _ _ h)
  | .logCall line thrown :: rest, h => by
    cases thrown with
    | some e => simp [otherFailures] at h
    | none => simpa [logFailures] using logFailures_of_quiet rest (otherFailures_of_cons _ _ h)

/-- The trailing log calls in a run without a failed log call: they return, and
write no failure record. -/
theorem logAll_quiet (H : Host W) :
    ∀ (texts : List String) (w : W), logFailures (logAll H texts w).events = [] →
      (logAll H texts w).completion = .normal () ∧
      failureRecords (logAll H texts w).events = []
  | [], _, _ => ⟨rfl, rfl⟩
  | text :: rest, w, h => by
    unfold logAll at h ⊢
    obtain ⟨q1, c1, e1⟩ := quiet_log_then H (.sample text) _ w h
    obtain ⟨c2, f2⟩ := logAll_quiet H rest _ q1
    exact ⟨c1.trans c2, by rw [e1]; simpa [failureRecords] using f2⟩

/-- When every insert of a list of outcomes succeeded, all of them count as
successes. -/
theorem countP_isNone_of_all_none (outcomes : List (Option JsError))
    (h : ∀ o ∈ outcomes, o = none) : outcomes.countP Option.isNone = outcomes.length := by
  rw [List.countP_eq_length]
  intro o ho
  rw [h o ho]
  rfl

/-- When every insert of a batch succeeded, no failure record is expected. -/
theorem expectedFailures_of_all_none (documents : List Document)
    (outcomes : List (Option JsError)) (hlen : outcomes.length = documents.length)
    (h : ∀ o ∈ outcomes, o = none) : expectedFailures documents outcomes = [] := by
  apply List.eq_nil_of_length_eq_zero
  rw [expectedFailures_length documents outcomes hlen, List.countP_eq_zero]
  intro o ho
  rw [h o ho]
  simp

/-- A call of `insertDocuments` in which every insert succeeds and no log call
throws returns the length of the batch and logs no failure record. -/
theorem insertDocuments_quiet_all_ok (H : Host W) (documents : List Document)
    (collectionName : String) (w : W)
    (hins : ∀ o ∈ insertOutcomes (insertDocuments H documents collectionName w).events, o = none)
    (hquiet : logFailures (insertDocuments H documents collectionName w).events = []) :
    (insertDocuments H documents collectionName w).completion = .normal documents.length ∧
    failureRecords (insertDocuments H documents collectionName w).events = [] := by
  obtain ⟨h1, _, h3, h4, _⟩ := loop_run_quiet H collectionName documents 0 w hquiet
  have h3r : (insertOutcomes (insertDocuments H documents collectionName w).events).length =
      documents.length := h3
  have h1r : (insertDocuments H documents collectionName w).completion =
      .normal (0 + (insertOutcomes
        (insertDocuments H documents collectionName w).events).countP Option.isNone) := h1
  have h4r : failureRecords (insertDocuments H documents collectionName w).events =
      expectedFailures documents
        (insertOutcomes (insertDocuments H documents collectionName w).events) := h4
  rw [countP_isNone_of_all_none _ hins, h3r, Nat.zero_add] at h1r
  exact ⟨h1r, h4r.trans (expectedFailures_of_all_none documents _ h3r hins)⟩

/-- C6 as stated fails: on a store where every insert succeeds and the log call for
the success line of the second red document throws, the load completes with
redInserted = 5, blueInserted = 5, totalInserted = 10, and yet a failure record is
logged, for a document that was inserted. -/
theorem load_records_failure_without_failed_insert :
    insertOutcomes (loadBlock (faultyHost .overwrite noFaults
        (logDownFor (.inserted "/test-data/red/song2.json" "red")) noCountFaults)
        FixtureStore.empty).events = List.replicate 10 none ∧
    (loadBlock (faultyHost .overwrite noFaults
        (logDownFor (.inserted "/test-data/red/song2.json" "red")) noCountFaults)
        FixtureStore.empty).completion = .normal ⟨5, 5, 10, 5, 5⟩ ∧
    failureRecords (loadBlock (faultyHost .overwrite noFaults
        (logDownFor (.inserted "/test-data/red/song2.json" "red")) noCountFaults)
        FixtureStore.empty).events = [("/test-data/red/song2.json", "log unavailable")] := by
  refine ⟨by decide, by decide, by decide⟩

/-- C6, as the code has it: on any host, when every insert of the load succeeds and
no log call of the load throws, loading the reference fixtures, whose ids are
red-001..red-005 and blue-001..blue-005 in that order, writes to the log
redInserted = 5, blueInserted = 5, totalInserted = 10 and the two counts again, and
no failure record; when no count query throws either, the load completes with
redInserted = 5, blueInserted = 5, totalInserted = 10; and when the trailing log
calls of the script do not throw either, the script as a whole completes with that
summary and without a failure record. -/
theorem load_all_inserts_succeed (H : Host W) (w : W)
    (hins : ∀ o ∈ insertOutcomes (loadBlock H w).events, o = none)
    (hlogs : logFailures (loadBlock H w).events = []) :
    redDocuments.map Document.id =
      [some (.str "red-001"), some (.str "red-002"), some (.str "red-003"),
       some (.str "red-004"), some (.str "red-005")] ∧
    blueDocuments.map Document.id =
      [some (.str "blue-001"), some (.str "blue-002"), some (.str "blue-003"),
       some (.str "blue-004"), some (.str "blue-005")] ∧
    countsLogged (loadBlock H w).events =
      [.redInserted 5, .blueInserted 5, .totalInserted 10, .redSummary 5, .blueSummary 5] ∧
    failureRecords (loadBlock H w).events = [] ∧
    (otherFailures (loadBlock H w).events = [] →
      ∃ summary : LoadSummary,
        (loadBlock H w).completion = .normal summary ∧
        summary.redInserted = 5 ∧ summary.blueInserted = 5 ∧ summary.totalInserted = 10) ∧
    (otherFailures (loadScript H w).events = [] →
      ∃ summary : LoadSummary,
        (loadScript H w).completion = .normal summary ∧
        summary.redInserted = 5 ∧ summary.blueInserted = 5 ∧ summary.totalInserted = 10 ∧
        failureRecords (loadScript H w).events = []) := by
  obtain ⟨kr, kb, hkr, hqr, hkb, hqb, hf, ho, hcl, hc⟩ := loadBlock_logquiet H w hlogs
  rw [ho] at hins
  obtain ⟨hr1, hr2⟩ := insertDocuments_quiet_all_ok H redDocuments "red" _
    (fun o h => hins o (List.mem_append_left _ h)) hqr
  obtain ⟨hb1, hb2⟩ := insertDocuments_quiet_all_ok H blueDocuments "blue" _
    (fun o h => hins o (List.mem_append_right _ h)) hqb
  rw [hkr] at hr1
  rw [hkb] at hb1
  injection hr1 with hr1
  injection hb1 with hb1
  subst hr1
  subst hb1
  have hfail : failureRecords (loadBlock H w).events = [] := by
    rw [hf, hr2, hb2]
    rfl
  have hblock : otherFailures (loadBlock H w).events = [] →
      ∃ summary : LoadSummary,
        (loadBlock H w).completion = .normal summary ∧
        summary.redInserted = 5 ∧ summary.blueInserted = 5 ∧ summary.totalInserted = 10 := by
    intro hq
    obtain ⟨cr, cb, hn⟩ := hc hq
    exact ⟨_, hn, rfl, rfl, rfl⟩
  refine ⟨rfl, rfl, hcl, hfail, hblock, fun hscript => ?_⟩
  unfold loadScript at hscript ⊢
  rcases Prog.bind_cases (loadBlock H)
      (fun summary => Prog.bind (logAll H sampleQueries) fun _ => Prog.pure summary) w with
    ⟨a, ha, hrun⟩ | ⟨e, he, hrun⟩
  · rw [hrun] at hscript ⊢
    simp only [otherFailures_append, List.append_eq_nil] at hscript
    obtain ⟨summary, hn, s1, s2, s3⟩ := hblock hscript.1
    have hsa : a = summary := by
      rw [ha] at hn
      injection hn
    subst hsa
    rcases Prog.bind_cases (logAll H sampleQueries)
        (fun _ => (Prog.pure a : Prog W LoadSummary)) (loadBlock H w).world with
      ⟨u, _, hrest⟩ | ⟨e, he, hrest⟩
    · rw [hrest] at hscript ⊢
      have hq : logFailures (logAll H sampleQueries (loadBlock H w).world).events = [] := by
        apply logFailures_of_quiet
        have h2 := hscript.2
        simp only [otherFailures_append, List.append_eq_nil] at h2
        exact h2.1
      obtain ⟨_, f2⟩ := logAll_quiet H sampleQueries _ hq
      refine ⟨a, rfl, s1, s2, s3, ?_⟩
      simp only [failureRecords_append, hfail, f2, List.nil_append]
      rfl
    · rw [hrest] at hscript
      obtain ⟨c2, _⟩ := logAll_quiet H sampleQueries _ (logFailures_of_quiet _ hscript.2)
      rw [he] at c2
      cases c2
  · rw [hrun] at hscript
    obtain ⟨summary, hn, _⟩ := hblock hscript
    rw [he] at hn
    cases hn

/-- Witness of C6.  The load on the empty overwriting store whose count queries
throw and whose log would throw for a line the load does not write: the counts are
logged and no failure record is.  The same load with count queries that answer: the
load, and the script as a whole, complete with the summary. -/
theorem load_all_inserts_succeed_witness :
    (∀ o ∈ insertOutcomes (loadBlock (faultyHost .overwrite noFaults
        (logDownFor (.inserted "/test-data/red/song2.json" "blue"))
        (fun _ _ => some ⟨"XDMP-SAMPLE", "count unavailable"⟩))
        FixtureStore.empty).events, o = none) ∧
    logFailures (loadBlock (faultyHost .overwrite noFaults
        (logDownFor (.inserted "/test-data/red/song2.json" "blue"))
        (fun _ _ => some ⟨"XDMP-SAMPLE", "count unavailable"⟩))
        FixtureStore.empty).events = [] ∧
    countsLogged (loadBlock (faultyHost .overwrite noFaults
        (logDownFor (.inserted "/test-data/red/song2.json" "blue"))
        (fun _ _ => some ⟨"XDMP-SAMPLE", "count unavailable"⟩))
        FixtureStore.empty).events =
      [.redInserted 5, .blueInserted 5, .totalInserted 10, .redSummary 5, .blueSummary 5] ∧
    failureRecords (loadBlock (faultyHost .overwrite noFaults
        (logDownFor (.inserted "/test-data/red/song2.json" "blue"))
        (fun _ _ => some ⟨"XDMP-SAMPLE", "count unavailable"⟩))
        FixtureStore.empty).events = [] ∧
    otherFailures (loadScript (faultyHost .overwrite noFaults
        (logDownFor (.inserted "/test-data/red/song2.json" "blue")) noCountFaults)
        FixtureStore.empty).events = [] ∧
    (∃ summary : LoadSummary,
      (loadBlock (faultyHost .overwrite noFaults
        (logDownFor (.inserted "/test-data/red/song2.json" "blue")) noCountFaults)
        FixtureStore.empty).completion = .normal summary ∧
      summary.redInserted = 5 ∧ summary.blueInserted = 5 ∧ summary.totalInserted = 10) ∧
    (∃ summary : LoadSummary,
      (loadScript (faultyHost .overwrite noFaults
        (logDownFor (.inserted "/test-data/red/song2.json" "blue")) noCountFaults)
        FixtureStore.empty).completion = .normal summary ∧
      summary.redInserted = 5 ∧ summary.blueInserted = 5 ∧ summary.totalInserted = 10 ∧
      failureRecords (loadScript (faultyHost .overwrite noFaults
        (logDownFor (.inserted "/test-data/red/song2.json" "blue")) noCountFaults)
        FixtureStore.empty).events = []) :=
  ⟨by decide, by decide,
   (load_all_inserts_succeed (faultyHost .overwrite noFaults
     (logDownFor (.inserted "/test-data/red/song2.json" "blue"))
     (fun _ _ => some ⟨"XDMP-SAMPLE", "count unavailable"⟩))
     FixtureStore.empty (by decide) (by decide)).2.2.1,
   (load_all_inserts_succeed (faultyHost .overwrite noFaults
     (logDownFor (.inserted "/test-data/red/song2.json" "blue"))
     (fun _ _ => some ⟨"XDMP-SAMPLE", "count unavailable"⟩))
     FixtureStore.empty (by decide) (by decide)).2.2.2.1,
   by decide,
   (load_all_inserts_succeed (faultyHost .overwrite noFaults
     (logDownFor (.inserted "/test-data/red/song2.json" "blue")) noCountFaults)
     FixtureStore.empty (by decide) (by decide)).2.2.2.2.1 (by decide),
   (load_all_inserts_succeed (faultyHost .overwrite noFaults
     (logDownFor (.inserted "/test-data/red/song2.json" "blue")) noCountFaults)
     FixtureStore.empty (by decide) (by decide)).2.2.2.2.2 (by decide)⟩

end QuietLoad

/-! ## The store after a run, from the calls of the run -/

section Replay

/-- Replaying two runs of calls, one after the other. -/
theorem replay_append (a b : List Event) :
    ∀ docs, replay (a ++ b) docs = replay b (replay a docs) := by
  induction a with
  | nil => intro docs; rfl
  | cons e rest ih =>
    intro docs
    rcases e with ⟨uri, content, options, thrown⟩ | ⟨line, thrown⟩ | ⟨collection, result⟩
    · cases thrown <;> simp [replay, ih]
    · simp [replay, ih]
    · simp [replay, ih]

/-- A sequence replays if its parts do. -/
theorem replays_bind {α β : Type} (p : Prog FixtureStore α) (q : α → Prog FixtureStore β)
    (hp : Replays p) (hq : ∀ a, Replays (q a)) : Replays (Prog.bind p q) := by
  intro s
  rcases Prog.bind_cases p q s with ⟨a, _, h⟩ | ⟨e, _, h⟩
  · rw [h]
    show (q a (p s).world).world.docs = replay ((p s).events ++ (q a (p s).world).events) s.docs
    rw [replay_append, ← hp s]
    exact hq a _
  · rw [h]
    exact hp s

/-- A `try` replays if its body and its handler do. -/
theorem replays_tryCatch {α : Type} (p : Prog FixtureStore α)
    (handler : JsError → Prog FixtureStore α) (hp : Replays p) (hh : ∀ e, Replays (handler e)) :
    Replays (Prog.tryCatch p handler) := by
  intro s
  rcases Prog.tryCatch_cases p handler s with ⟨a, _, h⟩ | ⟨e, _, h⟩
  · rw [h]
    exact hp s
  · rw [h]
    show (handler e (p s).world).world.docs =
      replay ((p s).events ++ (handler e (p s).world).events) s.docs
    rw [replay_append, ← hp s]
    exact hh e _

/-- Doing nothing replays. -/
theorem replays_pure {α : Type} (a : α) : Replays (Prog.pure a : Prog FixtureStore α) :=
  fun _ => rfl

/-- Throwing replays. -/
theorem replays_throw {α : Type} (e : JsError) : Replays (Prog.throw e : Prog FixtureStore α) :=
  fun _ => rfl

/-- A log call on the fixture store replays: it changes no document. -/
theorem replays_xdmpLog (policy : DuplicatePolicy) (faults : Faults)
    (logFaults countFaults : FixtureStore → String → Option JsError) (line : LogLine) :
    Replays (xdmpLog (faultyHost policy faults logFaults countFaults) line) := by
  intro s
  have hlog : (faultyHost policy faults logFaults countFaults).log s line.render =
      (logFaults s line.render, s) := rfl
  simp only [xdmpLog, hlog]
  cases logFaults s line.render <;> rfl

/-- A count query on the fixture store replays: it changes no document. -/
theorem replays_ctsEstimate (policy : DuplicatePolicy) (faults : Faults)
    (logFaults countFaults : FixtureStore → String → Option JsError) (collection : String) :
    Replays (ctsEstimate (faultyHost policy faults logFaults countFaults) collection) := by
  intro s
  unfold ctsEstimate
  cases (faultyHost policy faults logFaults countFaults).estimate s collection <;> rfl

/-- The `try` block of one iteration on the fixture store replays. -/
theorem replays_tryInsert (policy : DuplicatePolicy) (faults : Faults)
    (logFaults countFaults : FixtureStore → String → Option JsError) (collectionName : String)
    (doc : Document) (n : Nat) :
    Replays (tryInsert (faultyHost policy faults logFaults countFaults) collectionName doc n) := by
  intro s
  have hok := documentInsert_docs_of_ok policy faults s doc.uri doc.content
    (insertOptions collectionName)
  have herr := documentInsert_docs_of_error policy faults s doc.uri doc.content
    (insertOptions collectionName)
  have hdef : (faultyHost policy faults logFaults countFaults).documentInsert s doc.uri doc.content
      (insertOptions collectionName) =
      FixtureStore.documentInsert policy faults s doc.uri doc.content
        (insertOptions collectionName) := rfl
  rcases h1 : FixtureStore.documentInsert policy faults s doc.uri doc.content
    (insertOptions collectionName) with ⟨o1, s1⟩
  rw [h1] at hok herr hdef
  cases o1 with
  | some e1 =>
    have hd := herr e1 rfl
    simp only [tryInsert, xdmpDocumentInsert, hdef]
    simpa [replay] using hd
  | none =>
    have hd := hok rfl
    have hlog : (faultyHost policy faults logFaults countFaults).log s1
        (LogLine.inserted doc.uri collectionName).render =
        (logFaults s1 (LogLine.inserted doc.uri collectionName).render, s1) := rfl
    simp only [tryInsert, xdmpDocumentInsert, xdmpLog, hdef, hlog]
    cases logFaults s1 (LogLine.inserted doc.uri collectionName).render <;>
      simpa [replay] using hd

/-- The loop on the fixture store replays. -/
theorem replays_loop (policy : DuplicatePolicy) (faults : Faults)
    (logFaults countFaults : FixtureStore → String → Option JsError) (collectionName : String) :
    ∀ (documents : List Document) (n : Nat),
      Replays (insertDocumentsFrom (faultyHost policy faults logFaults countFaults)
        collectionName documents n)
  | [], n => replays_pure n
  | doc :: rest, n => by
    unfold insertDocumentsFrom
    refine replays_bind _ _ (replays_tryInsert policy faults logFaults countFaults
      collectionName doc n) fun r => ?_
    rcases r with ⟨o, m⟩
    cases o with
    | none => exact replays_loop policy faults logFaults countFaults collectionName rest m
    | some error =>
      exact replays_bind _ _ (replays_xdmpLog policy faults logFaults countFaults _) fun _ =>
        replays_loop policy faults logFaults countFaults collectionName rest m

/-- The function `insertDocuments` on the fixture store replays. -/
theorem replays_insertDocuments (policy : DuplicatePolicy) (faults : Faults)
    (logFaults countFaults : FixtureStore → String → Option JsError)
    (documents : List Document) (collectionName : String) :
    Replays (insertDocuments (faultyHost policy faults logFaults countFaults) documents
      collectionName) :=
  replays_loop policy faults logFaults countFaults collectionName documents 0

/-- The trailing log calls on the fixture store replay. -/
theorem replays_logAll (policy : DuplicatePolicy) (faults : Faults)
    (logFaults countFaults : FixtureStore → String → Option JsError) :
    ∀ texts : List String, Replays (logAll (faultyHost policy faults logFaults countFaults) texts)
  | [] => replays_pure ()
  | text :: rest => by
    unfold logAll
    exact replays_bind _ _ (replays_xdmpLog policy faults logFaults countFaults _) fun _ =>
      replays_logAll policy faults logFaults countFaults rest

/-- The whole script on the fixture store replays, however it ends: the documents it
leaves are those its successful insert calls stored, in the order of the calls. -/
theorem replays_loadScript (policy : DuplicatePolicy) (faults : Faults)
    (logFaults countFaults : FixtureStore → String → Option JsError) :
    Replays (loadScript (faultyHost policy faults logFaults countFaults)) := by
  have hlog := replays_xdmpLog policy faults logFaults countFaults
  have hest := replays_ctsEstimate policy faults logFaults countFaults
  have hins := replays_insertDocuments policy faults logFaults countFaults
  unfold loadScript loadBlock
  refine replays_bind _ _ ?_ fun _ => ?_
  · refine replays_tryCatch _ _ ?_ fun e => ?_
    · unfold loadBody
      refine replays_bind _ _ (hlog _) fun _ => ?_
      refine replays_bind _ _ (hins _ _) fun _ => ?_
      refine replays_bind _ _ (hlog _) fun _ => ?_
      refine replays_bind _ _ (hins _ _) fun _ => ?_
      refine replays_bind _ _ (hlog _) fun _ => ?_
      refine replays_bind _ _ (hlog _) fun _ => ?_
      refine replays_bind _ _ (hlog _) fun _ => ?_
      refine replays_bind _ _ (hlog _) fun _ => ?_
      refine replays_bind _ _ (hest _) fun _ => ?_
      refine replays_bind _ _ (hest _) fun _ => ?_
      refine replays_bind _ _ (hlog _) fun _ => ?_
      refine replays_bind _ _ (hlog _) fun _ => ?_
      refine replays_bind _ _ (hlog _) fun _ => ?_
      exact replays_pure _
    · exact replays_bind _ _ (hlog _) fun _ => replays_throw e
  · exact replays_bind _ _ (replays_logAll policy faults logFaults countFaults _) fun _ =>
      replays_pure _

/-- There are as many insert outcomes in a run as insert attempts. -/
theorem insertOutcomes_length (events : List Event) :
    (insertOutcomes events).length = (insertAttempts events).length := by
  induction events with
  | nil => rfl
  | cons e rest ih =>
    rcases e with ⟨uri, content, options, thrown⟩ | ⟨line, thrown⟩ | ⟨collection, result⟩ <;>
      simp [insertOutcomes, insertAttempts, ih]

/-- When every insert call of a run returned, replaying the run stores the document
of each insert call, in the order of the calls. -/
theorem replay_of_all_ok :
    ∀ (events : List Event) (docs : List (String × StoredDoc)),
      (∀ o ∈ insertOutcomes events, o = none) →
      replay events docs =
        (insertAttempts events).foldl (fun acc args => putDoc acc args.1 (storedBy args)) docs := by
  intro events
  induction events with
  | nil => intro docs _; rfl
  | cons e rest ih =>
    intro docs h
    rcases e with ⟨uri, content, options, thrown⟩ | ⟨line, thrown⟩ | ⟨collection, result⟩
    · have hthrown : thrown = none := h thrown (by simp [insertOutcomes])
      subst hthrown
      have hrest : ∀ o ∈ insertOutcomes rest, o = none :=
        fun o ho => h o (by simp [insertOutcomes, ho])
      simp only [replay, insertAttempts, List.foldl_cons, ih _ hrest, storedBy]
    · have hrest : ∀ o ∈ insertOutcomes rest, o = none :=
        fun o ho => h o (by simpa [insertOutcomes] using ho)
      simp only [replay, insertAttempts, ih _ hrest]
    · have hrest : ∀ o ∈ insertOutcomes rest, o = none :=
        fun o ho => h o (by simpa [insertOutcomes] using ho)
      simp only [replay, insertAttempts, ih _ hrest]

/-- Storing documents under other URIs leaves what is held under a URI. -/
theorem holds_foldl_of_not_mem (uri : String) (held : StoredDoc) :
    ∀ (calls : List (String × JVal × InsertOptions)) (docs : List (String × StoredDoc)),
      uri ∉ calls.map (fun args => args.1) → Holds docs uri held →
      Holds (calls.foldl (fun acc args => putDoc acc args.1 (storedBy args)) docs) uri held := by
  intro calls
  induction calls with
  | nil => intro docs _ h; exact h
  | cons c rest ih =>
    intro docs hne h
    have hne2 : uri ≠ c.1 ∧ uri ∉ rest.map (fun args => args.1) := by
      simpa [not_or] using hne
    exact ih _ hne2.2 (holds_putDoc_of_ne docs uri c.1 _ held hne2.1 h)

/-- After storing the documents of calls with pairwise distinct URIs, the store
holds the document of each call under its URI. -/
theorem holds_foldl :
    ∀ (calls : List (String × JVal × InsertOptions)) (docs : List (String × StoredDoc)),
      (calls.map (fun args => args.1)).Nodup →
      ∀ c ∈ calls,
        Holds (calls.foldl (fun acc args => putDoc acc args.1 (storedBy args)) docs) c.1
          (storedBy c) := by
  intro calls
  induction calls with
  | nil => intro docs _ c hc; simp at hc
  | cons first rest ih =>
    intro docs hnd c hc
    have hnd2 : first.1 ∉ rest.map (fun args => args.1) ∧
        (rest.map (fun args => args.1)).Nodup := by simpa using hnd
    rcases List.mem_cons.mp hc with h1 | h1
    · subst h1
      exact holds_foldl_of_not_mem c.1 _ rest _ hnd2.1 (holds_putDoc_self docs c.1 _)
    · exact ih _ hnd2.2 c h1

end Replay

/-! ## Loading twice, whatever fails -/

section TwiceAny

/-- The whole script keeps what its two calls of `insertDocuments` and the log calls
keep, however it ends. -/
theorem preserves_loadScript_of {W : Type} (H : Host W) (P : W → Prop)
    (hR : Preserves P (insertDocuments H redDocuments "red"))
    (hB : Preserves P (insertDocuments H blueDocuments "blue"))
    (hL : ∀ w text, P w → P (H.log w text).2) : Preserves P (loadScript H) := by
  unfold loadScript loadBlock
  refine preserves_bind P _ _ ?_ fun _ => ?_
  · refine preserves_tryCatch P _ _ ?_ fun e => ?_
    · unfold loadBody
      refine preserves_bind P _ _ (preserves_xdmpLog H P hL _) fun _ => ?_
      refine preserves_bind P _ _ hR fun _ => ?_
      refine preserves_bind P _ _ (preserves_xdmpLog H P hL _) fun _ => ?_
      refine preserves_bind P _ _ hB fun _ => ?_
      refine preserves_bind P _ _ (preserves_xdmpLog H P hL _) fun _ => ?_
      refine preserves_bind P _ _ (preserves_xdmpLog H P hL _) fun _ => ?_
      refine preserves_bind P _ _ (preserves_xdmpLog H P hL _) fun _ => ?_
      refine preserves_bind P _ _ (preserves_xdmpLog H P hL _) fun _ => ?_
      refine preserves_bind P _ _ (preserves_ctsEstimate H P _) fun _ => ?_
      refine preserves_bind P _ _ (preserves_ctsEstimate H P _) fun _ => ?_
      refine preserves_bind P _ _ (preserves_xdmpLog H P hL _) fun _ => ?_
      refine preserves_bind P _ _ (preserves_xdmpLog H P hL _) fun _ => ?_
      refine preserves_bind P _ _ (preserves_xdmpLog H P hL _) fun _ => ?_
      exact preserves_pure P _
    · exact preserves_bind P _ _ (preserves_xdmpLog H P hL _) fun _ => preserves_throw P e
  · exact preserves_bind P _ _ (preserves_logAll H P hL _) fun _ => preserves_pure P _

/-- When each of the ten inserts of a run of the script was made and succeeded, the
store afterwards holds every fixture as the load writes it, whatever else failed. -/
theorem fixtures_held_after_load (policy : DuplicatePolicy) (faults : Faults)
    (logFaults countFaults : FixtureStore → String → Option JsError) (s : FixtureStore)
    (hfirst : insertOutcomes (loadScript (faultyHost policy faults logFaults countFaults)
      s).events = List.replicate 10 none) :
    (∀ r ∈ redDocuments,
      Holds (loadScript (faultyHost policy faults logFaults countFaults) s).world.docs r.uri
        (storedDoc "red" r)) ∧
    (∀ b ∈ blueDocuments,
      Holds (loadScript (faultyHost policy faults logFaults countFaults) s).world.docs b.uri
        (storedDoc "blue" b)) := by
  have hall : ∀ o ∈ insertOutcomes (loadScript (faultyHost policy faults logFaults countFaults)
      s).events, o = none := by
    intro o ho
    rw [hfirst] at ho
    exact List.eq_of_mem_replicate ho
  have hlen : (insertAttempts (loadScript (faultyHost policy faults logFaults countFaults)
      s).events).length = 10 := by
    rw [← insertOutcomes_length, hfirst]
    rfl
  have hatt : insertAttempts (loadScript (faultyHost policy faults logFaults countFaults)
      s).events =
      redDocuments.map (insertArgs "red") ++ blueDocuments.map (insertArgs "blue") :=
    ((projectsTo_insertAttempts_loadScript (faultyHost policy faults logFaults countFaults)
      s).1).eq_of_length (by rw [hlen]; rfl)
  have hdocs := replays_loadScript policy faults logFaults countFaults s
  rw [replay_of_all_ok _ _ hall, hatt] at hdocs
  have hnodup : ((redDocuments.map (insertArgs "red") ++
      blueDocuments.map (insertArgs "blue")).map (fun args => args.1)).Nodup := by decide
  constructor
  · intro r hr
    rw [hdocs]
    exact holds_foldl _ s.docs hnodup (insertArgs "red" r)
      (List.mem_append_left _ (List.mem_map_of_mem _ hr))
  · intro b hb
    rw [hdocs]
    exact holds_foldl _ s.docs hnodup (insertArgs "blue" b)
      (List.mem_append_right _ (List.mem_map_of_mem _ hb))

/-- A call of `insertDocuments` for documents that the store holds already, as the
call would write them, leaves the documents of the store as they are, under either
policy and whatever fails. -/
theorem insertDocuments_docs_of_held (policy : DuplicatePolicy) (faults : Faults)
    (logFaults countFaults : FixtureStore → String → Option JsError)
    (documents : List Document) (collectionName : String) (held : List (String × StoredDoc))
    (hheld : ∀ d ∈ documents, Holds held d.uri (storedDoc collectionName d)) :
    Preserves (fun s : FixtureStore => s.docs = held)
      (insertDocuments (faultyHost policy faults logFaults countFaults) documents
        collectionName) := by
  intro s hs
  refine loop_keeps_at (faultyHost policy faults logFaults countFaults) collectionName
    (fun s : FixtureStore => s.docs = held) (fun _ _ hw => hw) documents 0 s ?_ hs
  intro d hd w hw
  show (FixtureStore.documentInsert policy faults w d.uri d.content
    (insertOptions collectionName)).2.docs = held
  cases ho : (FixtureStore.documentInsert policy faults w d.uri d.content
      (insertOptions collectionName)).1 with
  | some e => rw [documentInsert_docs_of_error policy faults w _ _ _ e ho]; exact hw
  | none =>
    rw [documentInsert_docs_of_ok policy faults w _ _ _ ho, hw]
    exact putDoc_eq_self held d.uri _ (hheld d hd)

/-- A run of the script on a store that holds every fixture as the load writes it
leaves the documents of the store as they are, under either policy and whatever
fails. -/
theorem loadScript_docs_of_held (policy : DuplicatePolicy) (faults : Faults)
    (logFaults countFaults : FixtureStore → String → Option JsError) (s : FixtureStore)
    (hred : ∀ r ∈ redDocuments, Holds s.docs r.uri (storedDoc "red" r))
    (hblue : ∀ b ∈ blueDocuments, Holds s.docs b.uri (storedDoc "blue" b)) :
    (loadScript (faultyHost policy faults logFaults countFaults) s).world.docs = s.docs :=
  preserves_loadScript_of (faultyHost policy faults logFaults countFaults)
    (fun w : FixtureStore => w.docs = s.docs)
    (insertDocuments_docs_of_held policy faults logFaults countFaults redDocuments "red" s.docs
      hred)
    (insertDocuments_docs_of_held policy faults logFaults countFaults blueDocuments "blue" s.docs
      hblue)
    (fun _ _ hw => hw) s rfl

/-- When no insert call of a run returned, replaying the run changes no document. -/
theorem replay_of_all_failed :
    ∀ (events : List Event) (docs : List (String × StoredDoc)),
      (∀ o ∈ insertOutcomes events, o ≠ none) → replay events docs = docs := by
  intro events
  induction events with
  | nil => intro docs _; rfl
  | cons e rest ih =>
    intro docs h
    rcases e with ⟨uri, content, options, thrown⟩ | ⟨line, thrown⟩ | ⟨collection, result⟩
    · have hrest : ∀ o ∈ insertOutcomes rest, o ≠ none :=
        fun o ho => h o (by simp [insertOutcomes, ho])
      cases thrown with
      | none => exact absurd rfl (h none (by simp [insertOutcomes]))
      | some err => simpa [replay] using ih docs hrest
    · have hrest : ∀ o ∈ insertOutcomes rest, o ≠ none :=
        fun o ho => h o (by simpa [insertOutcomes] using ho)
      simpa [replay] using ih docs hrest
    · have hrest : ∀ o ∈ insertOutcomes rest, o ≠ none :=
        fun o ho => h o (by simpa [insertOutcomes] using ho)
      simpa [replay] using ih docs hrest

/-- On the rejecting store an insert under a present URI throws, whatever else is
injected. -/
theorem reject_insert_fails (faults : Faults) (s : FixtureStore) (uri : String)
    (content : JVal) (options : InsertOptions) (h : s.has uri = true) :
    (FixtureStore.documentInsert .reject faults s uri content options).1 ≠ none := by
  intro ho
  unfold FixtureStore.documentInsert at ho
  split at ho
  · simp at ho
  · simp [h] at ho

/-- On the rejecting store, in a call of `insertDocuments` for documents whose URIs
are all present, every insert call that is made throws, whatever else fails. -/
theorem loop_fails_when_present (faults : Faults)
    (logFaults countFaults : FixtureStore → String → Option JsError) (collectionName : String) :
    ∀ (documents : List Document) (n : Nat) (s : FixtureStore),
      (∀ d ∈ documents, s.has d.uri = true) →
      ∀ o ∈ insertOutcomes (insertDocumentsFrom (faultyHost .reject faults logFaults countFaults)
        collectionName documents n s).events, o ≠ none := by
  intro documents
  induction documents with
  | nil => intro n s _ o ho; simp [insertDocumentsFrom_nil, insertOutcomes] at ho
  | cons doc rest ih =>
    intro n s hhas
    have hfail := reject_insert_fails faults s doc.uri doc.content (insertOptions collectionName)
      (hhas doc (List.mem_cons_self _ _))
    have hdocs := reject_insert_present faults s doc.uri doc.content (insertOptions collectionName)
      (hhas doc (List.mem_cons_self _ _))
    have hdef : (faultyHost .reject faults logFaults countFaults).documentInsert s doc.uri
        doc.content (insertOptions collectionName) =
        FixtureStore.documentInsert .reject faults s doc.uri doc.content
          (insertOptions collectionName) := rfl
    rcases h1 : FixtureStore.documentInsert .reject faults s doc.uri doc.content
      (insertOptions collectionName) with ⟨o1, s1⟩
    rw [h1] at hfail hdocs hdef
    cases o1 with
    | none => exact absurd rfl hfail
    | some e1 =>
      have hrest : ∀ d ∈ rest, s1.has d.uri = true := by
        intro d hd
        have := hhas d (List.mem_cons_of_mem _ hd)
        unfold FixtureStore.has at this ⊢
        rw [show s1.docs = s.docs from hdocs]
        exact this
      have hlog : (faultyHost .reject faults logFaults countFaults).log s1
          (LogLine.errorInserting doc.uri e1.message).render =
          (logFaults s1 (LogLine.errorInserting doc.uri e1.message).render, s1) := rfl
      cases h3 : logFaults s1 (LogLine.errorInserting doc.uri e1.message).render with
      | none =>
        have hrun : insertDocumentsFrom (faultyHost .reject faults logFaults countFaults)
            collectionName (doc :: rest) n s =
            ⟨(insertDocumentsFrom (faultyHost .reject faults logFaults countFaults)
                collectionName rest n s1).completion,
             (insertDocumentsFrom (faultyHost .reject faults logFaults countFaults)
                collectionName rest n s1).world,
             .insertCall doc.uri doc.content (insertOptions collectionName) (some e1) ::
               .logCall (.errorInserting doc.uri e1.message) none ::
               (insertDocumentsFrom (faultyHost .reject faults logFaults countFaults)
                collectionName rest n s1).events⟩ := by
          simp only [insertDocumentsFrom, Prog.bind, tryInsert, xdmpDocumentInsert, xdmpLog, hdef,
            hlog, h3, List.singleton_append, List.cons_append, List.nil_append]
        rw [hrun]
        intro o ho
        simp only [insertOutcomes, List.mem_cons] at ho
        rcases ho with ho | ho
        · rw [ho]; simp
        · exact ih n s1 hrest o ho
      | some e3 =>
        have hrun : insertDocumentsFrom (faultyHost .reject faults logFaults countFaults)
            collectionName (doc :: rest) n s =
            ⟨.throw e3, s1,
             [.insertCall doc.uri doc.content (insertOptions collectionName) (some e1),
              .logCall (.errorInserting doc.uri e1.message) (some e3)]⟩ := by
          simp only [insertDocumentsFrom, Prog.bind, tryInsert, xdmpDocumentInsert, xdmpLog, hdef,
            hlog, h3, List.singleton_append, List.cons_append, List.nil_append]
        rw [hrun]
        intro o ho
        simp only [insertOutcomes, List.mem_cons, List.mem_singleton, List.not_mem_nil,
          or_false] at ho
        rw [ho]; simp

/-- When every insert of a batch failed, the expected failure records name the URIs
of the batch, in order. -/
theorem expectedFailures_uris :
    ∀ (documents : List Document) (outcomes : List (Option JsError)),
      outcomes.length = documents.length → (∀ o ∈ outcomes, o ≠ none) →
      (expectedFailures documents outcomes).map Prod.fst = documents.map Document.uri := by
  intro documents
  induction documents with
  | nil =>
    intro outcomes h _
    cases outcomes with
    | nil => rfl
    | cons o os => simp at h
  | cons d ds ih =>
    intro outcomes h hall
    cases outcomes with
    | nil => simp at h
    | cons o os =>
      have ih2 := ih os (by simpa using h) (fun x hx => hall x (List.mem_cons_of_mem _ hx))
      cases o with
      | none => exact absurd rfl (hall none (List.mem_cons_self _ _))
      | some e =>
        unfold expectedFailures at ih2 ⊢
        simpa [List.zip_cons_cons, List.filterMap_cons] using ih2

/-- A call of `insertDocuments` on the rejecting store for documents whose URIs are
all present, in which no log call throws: it returns `0`, leaves the documents of
the store as they are, and logs one failure record per document, in order. -/
theorem insertDocuments_rejected_quiet (faults : Faults)
    (logFaults countFaults : FixtureStore → String → Option JsError)
    (documents : List Document) (collectionName : String) (s : FixtureStore)
    (hhas : ∀ d ∈ documents, s.has d.uri = true)
    (hquiet : logFailures (insertDocuments (faultyHost .reject faults logFaults countFaults)
      documents collectionName s).events = []) :
    (insertDocuments (faultyHost .reject faults logFaults countFaults) documents collectionName
      s).completion = .normal 0 ∧
    (insertDocuments (faultyHost .reject faults logFaults countFaults) documents collectionName
      s).world.docs = s.docs ∧
    (failureRecords (insertDocuments (faultyHost .reject faults logFaults countFaults) documents
      collectionName s).events).map Prod.fst = documents.map Document.uri := by
  have hall := loop_fails_when_present faults logFaults countFaults collectionName documents 0 s
    hhas
  obtain ⟨h1, _, h3, h4, _⟩ := loop_run_quiet (faultyHost .reject faults logFaults countFaults)
    collectionName documents 0 s hquiet
  have hzero : (insertOutcomes (insertDocumentsFrom (faultyHost .reject faults logFaults
      countFaults) collectionName documents 0 s).events).countP Option.isNone = 0 := by
    rw [List.countP_eq_zero]
    intro o ho hnone
    cases o with
    | none => exact hall none ho rfl
    | some e => simp at hnone
  refine ⟨?_, ?_, ?_⟩
  · unfold insertDocuments
    rw [h1, hzero]
  · have hr := replays_insertDocuments .reject faults logFaults countFaults documents
      collectionName s
    rw [hr]
    exact replay_of_all_failed _ _ hall
  · unfold insertDocuments
    rw [h4]
    exact expectedFailures_uris documents _ h3 hall

/-- Loading twice on the fixture store without injected failures, from any store:
the second load either (overwriting store) leaves count("red") and count("blue")
as they were after the first run, or (rejecting store) completes with
redInserted = blueInserted = 0 and a failure record for each of the ten documents. -/
theorem load_twice_without_faults (s : FixtureStore) :
    ((loadScript (fixtureHost .overwrite noFaults)
        (loadScript (fixtureHost .overwrite noFaults) s).world).world.count "red" =
      (loadScript (fixtureHost .overwrite noFaults) s).world.count "red" ∧
     (loadScript (fixtureHost .overwrite noFaults)
        (loadScript (fixtureHost .overwrite noFaults) s).world).world.count "blue" =
      (loadScript (fixtureHost .overwrite noFaults) s).world.count "blue") ∧
    (∃ summary : LoadSummary,
      (loadScript (fixtureHost .reject noFaults)
        (loadScript (fixtureHost .reject noFaults) s).world).completion = .normal summary ∧
      summary.redInserted = 0 ∧ summary.blueInserted = 0 ∧
      failureRecords (loadScript (fixtureHost .reject noFaults)
        (loadScript (fixtureHost .reject noFaults) s).world).events =
          (redDocuments ++ blueDocuments).map (fun d => (d.uri, (duplicateUri d.uri).message)) ∧
      (failureRecords (loadScript (fixtureHost .reject noFaults)
        (loadScript (fixtureHost .reject noFaults) s).world).events).length = 10) := by
  constructor
  · unfold FixtureStore.count
    rw [load_twice_overwrite_docs s]
    exact ⟨rfl, rfl⟩
  · obtain ⟨hr, hb⟩ := load_twice_reject_outcomes s
    obtain ⟨_, hc, hf, _⟩ := loadScript_fixture .reject noFaults
      (loadScript (fixtureHost .reject noFaults) s).world
    have hlog := fixtureHost_logSucceeds .reject noFaults
    have hfr : failureRecords (insertDocuments (fixtureHost .reject noFaults) redDocuments "red"
        (loadScript (fixtureHost .reject noFaults) s).world).events =
        expectedFailures redDocuments (insertOutcomes (insertDocuments
          (fixtureHost .reject noFaults) redDocuments "red"
          (loadScript (fixtureHost .reject noFaults) s).world).events) :=
      (insertDocumentsFrom_run (fixtureHost .reject noFaults) hlog "red"
        redDocuments 0 (loadScript (fixtureHost .reject noFaults) s).world).2.2.2.1
    have hfb : failureRecords (insertDocuments (fixtureHost .reject noFaults) blueDocuments "blue"
        (insertDocuments (fixtureHost .reject noFaults) redDocuments "red"
          (loadScript (fixtureHost .reject noFaults) s).world).world).events =
        expectedFailures blueDocuments (insertOutcomes (insertDocuments
          (fixtureHost .reject noFaults) blueDocuments "blue"
          (insertDocuments (fixtureHost .reject noFaults) redDocuments "red"
            (loadScript (fixtureHost .reject noFaults) s).world).world).events) :=
      (insertDocumentsFrom_run (fixtureHost .reject noFaults) hlog "blue"
        blueDocuments 0 (insertDocuments (fixtureHost .reject noFaults) redDocuments "red"
          (loadScript (fixtureHost .reject noFaults) s).world).world).2.2.2.1
    have hrecords : failureRecords (loadScript (fixtureHost .reject noFaults)
        (loadScript (fixtureHost .reject noFaults) s).world).events =
          (redDocuments ++ blueDocuments).map
            (fun d => (d.uri, (duplicateUri d.uri).message)) := by
      rw [hf, hfr, hfb, hr, hb, expectedFailures_of_rejected, expectedFailures_of_rejected,
        List.map_append]
    have hr0 : (insertOutcomes (insertDocuments (fixtureHost .reject noFaults) redDocuments
        "red" (loadScript (fixtureHost .reject noFaults) s).world).events).countP
        Option.isNone = 0 := by
      rw [hr]
      exact countP_isNone_of_rejected redDocuments
    have hb0 : (insertOutcomes (insertDocuments (fixtureHost .reject noFaults) blueDocuments
        "blue" (insertDocuments (fixtureHost .reject noFaults) redDocuments "red"
          (loadScript (fixtureHost .reject noFaults) s).world).world).events).countP
        Option.isNone = 0 := by
      rw [hb]
      exact countP_isNone_of_rejected blueDocuments
    rw [hr0, hb0] at hc
    refine ⟨_, hc, rfl, rfl, hrecords, ?_⟩
    rw [hrecords, List.length_map, List.length_append]
    rfl

/-- C9 as stated fails.  On a store whose third insert call fails once, the first
load stores nine documents.  On the overwriting store the second load stores the
tenth, and count("red") goes from 4 to 5.  On the rejecting store the second load
inserts that document, so that redInserted = 1, and reports nine failures, not
ten. -/
theorem second_load_after_failed_insert :
    (loadScript (fixtureHost .overwrite failThird) FixtureStore.empty).world.count "red" = 4 ∧
    (loadScript (fixtureHost .overwrite failThird)
      (loadScript (fixtureHost .overwrite failThird) FixtureStore.empty).world).world.count
        "red" = 5 ∧
    (loadScript (fixtureHost .reject failThird)
      (loadScript (fixtureHost .reject failThird) FixtureStore.empty).world).completion =
        .normal ⟨1, 0, 1, 5, 5⟩ ∧
    (failureRecords (loadScript (fixtureHost .reject failThird)
      (loadScript (fixtureHost .reject failThird) FixtureStore.empty).world).events).length =
        9 := by
  refine ⟨by decide, by decide, by decide, by decide⟩

/-- C9, as the code has it, on the fixture store with any injected failures of
inserts, log calls and count queries, from any store.  On the overwriting store,
when each of the ten inserts of the first run was made and succeeded, the second run
leaves the documents of the store, hence count("red") and count("blue"), as they
were after the first run.  On the rejecting store, when all ten URIs are present
after the first run and no log call of the second load throws, the second load logs
a failure record for each of the ten documents, in order, and writes
redInserted = 0 and blueInserted = 0 to the log; when no count query throws either,
it completes with redInserted = blueInserted = 0.  Both conditions on the first run
are met from any store when no failure is injected. -/
theorem load_twice (faults : Faults)
    (logFaults countFaults : FixtureStore → String → Option JsError) (s : FixtureStore) :
    (insertOutcomes (loadScript (faultyHost .overwrite faults logFaults countFaults) s).events =
        List.replicate 10 none →
      (loadScript (faultyHost .overwrite faults logFaults countFaults)
        (loadScript (faultyHost .overwrite faults logFaults countFaults) s).world).world.count
          "red" =
        (loadScript (faultyHost .overwrite faults logFaults countFaults) s).world.count "red" ∧
      (loadScript (faultyHost .overwrite faults logFaults countFaults)
        (loadScript (faultyHost .overwrite faults logFaults countFaults) s).world).world.count
          "blue" =
        (loadScript (faultyHost .overwrite faults logFaults countFaults) s).world.count "blue") ∧
    ((∀ d ∈ redDocuments ++ blueDocuments,
        (loadScript (faultyHost .reject faults logFaults countFaults) s).world.has d.uri = true) →
      logFailures (loadBlock (faultyHost .reject faults logFaults countFaults)
        (loadScript (faultyHost .reject faults logFaults countFaults) s).world).events = [] →
      (failureRecords (loadBlock (faultyHost .reject faults logFaults countFaults)
        (loadScript (faultyHost .reject faults logFaults countFaults) s).world).events).map
          Prod.fst = (redDocuments ++ blueDocuments).map Document.uri ∧
      countsLogged (loadBlock (faultyHost .reject faults logFaults countFaults)
        (loadScript (faultyHost .reject faults logFaults countFaults) s).world).events =
          [.redInserted 0, .blueInserted 0, .totalInserted 0, .redSummary 0, .blueSummary 0] ∧
      (otherFailures (loadBlock (faultyHost .reject faults logFaults countFaults)
        (loadScript (faultyHost .reject faults logFaults countFaults) s).world).events = [] →
        ∃ summary : LoadSummary,
          (loadBlock (faultyHost .reject faults logFaults countFaults)
            (loadScript (faultyHost .reject faults logFaults countFaults) s).world).completion =
              .normal summary ∧
          summary.redInserted = 0 ∧ summary.blueInserted = 0)) ∧
    ((loadScript (fixtureHost .overwrite noFaults)
        (loadScript (fixtureHost .overwrite noFaults) s).world).world.count "red" =
      (loadScript (fixtureHost .overwrite noFaults) s).world.count "red" ∧
     (loadScript (fixtureHost .overwrite noFaults)
        (loadScript (fixtureHost .overwrite noFaults) s).world).world.count "blue" =
      (loadScript (fixtureHost .overwrite noFaults) s).world.count "blue") ∧
    (∃ summary : LoadSummary,
      (loadScript (fixtureHost .reject noFaults)
        (loadScript (fixtureHost .reject noFaults) s).world).completion = .normal summary ∧
      summary.redInserted = 0 ∧ summary.blueInserted = 0 ∧
      failureRecords (loadScript (fixtureHost .reject noFaults)
        (loadScript (fixtureHost .reject noFaults) s).world).events =
          (redDocuments ++ blueDocuments).map (fun d => (d.uri, (duplicateUri d.uri).message)) ∧
      (failureRecords (loadScript (fixtureHost .reject noFaults)
        (loadScript (fixtureHost .reject noFaults) s).world).events).length = 10) := by
  refine ⟨fun hfirst => ?_, fun hhas hquiet => ?_, (load_twice_without_faults s).1,
    (load_twice_without_faults s).2⟩
  · obtain ⟨hred, hblue⟩ := fixtures_held_after_load .overwrite faults logFaults countFaults s
      hfirst
    have hdocs := loadScript_docs_of_held .overwrite faults logFaults countFaults _ hred hblue
    unfold FixtureStore.count
    rw [hdocs]
    exact ⟨rfl, rfl⟩
  · generalize hs1 : (loadScript (faultyHost .reject faults logFaults countFaults) s).world = s1
      at hhas hquiet ⊢
    obtain ⟨kr, kb, hkr, hqr, hkb, hqb, hf, _, hcl, hc⟩ :=
      loadBlock_logquiet (faultyHost .reject faults logFaults countFaults) s1 hquiet
    obtain ⟨r1, r2, r3⟩ := insertDocuments_rejected_quiet faults logFaults countFaults
      redDocuments "red" s1 (fun d hd => hhas d (List.mem_append_left _ hd)) hqr
    have hhasBlue : ∀ d ∈ blueDocuments,
        (insertDocuments (faultyHost .reject faults logFaults countFaults) redDocuments "red"
          s1).world.has d.uri = true := by
      intro d hd
      have := hhas d (List.mem_append_right _ hd)
      unfold FixtureStore.has at this ⊢
      rw [r2]
      exact this
    obtain ⟨b1, _, b3⟩ := insertDocuments_rejected_quiet faults logFaults countFaults
      blueDocuments "blue" _ hhasBlue hqb
    have hkr0 : kr = 0 := by
      have h := hkr.symm.trans r1
      injection h
    have hkb0 : kb = 0 := by
      have h := hkb.symm.trans b1
      injection h
    subst hkr0
    subst hkb0
    refine ⟨?_, hcl, fun hq => ?_⟩
    · rw [hf, List.map_append, List.map_append]
      exact congrArg₂ (· ++ ·) r3 b3
    · obtain ⟨cr, cb, hn⟩ := hc hq
      exact ⟨_, hn, rfl, rfl⟩

/-- Witness of C9: from the empty store, with a log that would throw for a line the
load does not write, both conditions on the first run hold, the second run on the
overwriting store leaves the counts as they were, and the second load on the
rejecting store reports ten failures and completes with
redInserted = blueInserted = 0. -/
theorem load_twice_witness :
    insertOutcomes (loadScript (faultyHost .overwrite noFaults
        (logDownFor (.inserted "/test-data/red/song2.json" "blue")) noCountFaults)
        FixtureStore.empty).events = List.replicate 10 none ∧
    (loadScript (faultyHost .overwrite noFaults
        (logDownFor (.inserted "/test-data/red/song2.json" "blue")) noCountFaults)
      (loadScript (faultyHost .overwrite noFaults
        (logDownFor (.inserted "/test-data/red/song2.json" "blue")) noCountFaults)
        FixtureStore.empty).world).world.count "red" =
      (loadScript (faultyHost .overwrite noFaults
        (logDownFor (.inserted "/test-data/red/song2.json" "blue")) noCountFaults)
        FixtureStore.empty).world.count "red" ∧
    (∀ d ∈ redDocuments ++ blueDocuments,
      (loadScript (faultyHost .reject noFaults
        (logDownFor (.inserted "/test-data/red/song2.json" "blue")) noCountFaults)
        FixtureStore.empty).world.has d.uri = true) ∧
    logFailures (loadBlock (faultyHost .reject noFaults
        (logDownFor (.inserted "/test-data/red/song2.json" "blue")) noCountFaults)
      (loadScript (faultyHost .reject noFaults
        (logDownFor (.inserted "/test-data/red/song2.json" "blue")) noCountFaults)
        FixtureStore.empty).world).events = [] ∧
    (failureRecords (loadBlock (faultyHost .reject noFaults
        (logDownFor (.inserted "/test-data/red/song2.json" "blue")) noCountFaults)
      (loadScript (faultyHost .reject noFaults
        (logDownFor (.inserted "/test-data/red/song2.json" "blue")) noCountFaults)
        FixtureStore.empty).world).events).map Prod.fst =
      (redDocuments ++ blueDocuments).map Document.uri ∧
    otherFailures (loadBlock (faultyHost .reject noFaults
        (logDownFor (.inserted "/test-data/red/song2.json" "blue")) noCountFaults)
      (loadScript (faultyHost .reject noFaults
        (logDownFor (.inserted "/test-data/red/song2.json" "blue")) noCountFaults)
        FixtureStore.empty).world).events = [] ∧
    ∃ summary : LoadSummary,
      (loadBlock (faultyHost .reject noFaults
          (logDownFor (.inserted "/test-data/red/song2.json" "blue")) noCountFaults)
        (loadScript (faultyHost .reject noFaults
          (logDownFor (.inserted "/test-data/red/song2.json" "blue")) noCountFaults)
          FixtureStore.empty).world).completion = .normal summary ∧
      summary.redInserted = 0 ∧ summary.blueInserted = 0 :=
  ⟨by decide,
   ((load_twice noFaults (logDownFor (.inserted "/test-data/red/song2.json" "blue"))
      noCountFaults FixtureStore.empty).1 (by decide)).1,
   by decide, by decide,
   ((load_twice noFaults (logDownFor (.inserted "/test-data/red/song2.json" "blue"))
      noCountFaults FixtureStore.empty).2.1 (by decide) (by decide)).1,
   by decide,
   ((load_twice noFaults (logDownFor (.inserted "/test-data/red/song2.json" "blue"))
      noCountFaults FixtureStore.empty).2.1 (by decide) (by decide)).2.2 (by decide)⟩

end TwiceAny

end MarkLogicTestData

namespace OpticExamples

open MarkLogicTestData (JVal)

/-! ## The `validated_email` column -/

/-- The pattern literal of line 951 evaluates to a string without the backslash. -/
theorem emailPattern_value : emailPattern = some "^[^@]+@[^@]+.[^@]+$" := by decide

/-- The pattern `op.matches` is given reads as: anchored at both ends; one or more
characters other than `@`; an `@`; one or more characters other than `@`; any one
character; one or more characters other than `@`. -/
theorem emailPattern_items :
    parsePattern "^[^@]+@[^@]+.[^@]+$".toList =
      some ⟨true, true,
        [⟨.noneOf ['@'], .plus⟩, ⟨.oneOf ['@'], .one⟩, ⟨.noneOf ['@'], .plus⟩, ⟨.dot, .one⟩,
         ⟨.noneOf ['@'], .plus⟩]⟩ := by decide

/-- C22 fails on the code: the string `a@bcd`, which has no `.` at all, and the
string `a@b@c`, which has two `@`, are not of the shape `local@domain.tld`, yet the
`validated_email` column holds them unchanged instead of `INVALID_EMAIL`; the `.` of
the pattern that `op.matches` receives stands for any character. -/
theorem validated_email_accepts_without_dot :
    emailPattern = some "^[^@]+@[^@]+.[^@]+$" ∧
    hasEmailShape "a@bcd" = false ∧ validatedEmail "a@bcd" = some "a@bcd" ∧
    hasEmailShape "a@b@c" = false ∧ validatedEmail "a@b@c" = some "a@b@c" ∧
    validatedEmail "neil.drums@rush.com" = some "neil.drums@rush.com" ∧
    validatedEmail "neil.drums" = some "INVALID_EMAIL" := by
  refine ⟨by decide, by decide, by decide, by decide, by decide, by decide, by decide⟩

/-! ## Sorting and filtering rows -/

/-- Inserting a row in front of rows that all come after it puts it first. -/
theorem orderedInsert_before (a : Row) :
    ∀ l : List Row, (∀ x ∈ l, Row.le a x) → l.orderedInsert Row.le a = a :: l
  | [], _ => rfl
  | b :: l, h => List.orderedInsert_of_le Row.le l (h b (List.mem_cons_self b l))

/-- Filtering after an ordered insertion is an ordered insertion, or none, after
filtering. -/
theorem filter_orderedInsert (p : Row → Bool) (a : Row) :
    ∀ l : List Row, l.Sorted Row.le →
      (l.orderedInsert Row.le a).filter p =
        if p a then (l.filter p).orderedInsert Row.le a else l.filter p
  | [], _ => by
    by_cases hpa : p a = true <;> simp [hpa]
  | b :: l, hs => by
    have hsl : l.Sorted Row.le := hs.of_cons
    have ih := filter_orderedInsert p a l hsl
    by_cases hab : Row.le a b
    · rw [List.orderedInsert_of_le Row.le l hab]
      by_cases hpa : p a = true
      · have hall : ∀ x ∈ (b :: l).filter p, Row.le a x := by
          intro x hx
          have hxm : x ∈ b :: l := (List.mem_filter.mp hx).1
          rcases List.mem_cons.mp hxm with rfl | hxl
          · exact hab
          · exact Int.le_trans hab (List.rel_of_sorted_cons hs x hxl)
        rw [if_pos hpa, orderedInsert_before a _ hall, List.filter_cons_of_pos hpa]
      · rw [if_neg hpa, List.filter_cons_of_neg hpa]
    · have hins : (b :: l).orderedInsert Row.le a = b :: l.orderedInsert Row.le a := by
        simp [List.orderedInsert, hab]
      rw [hins]
      by_cases hpb : p b = true
      · rw [List.filter_cons_of_pos hpb, List.filter_cons_of_pos hpb, ih]
        by_cases hpa : p a = true
        · simp [hpa, List.orderedInsert, hab]
        · simp [hpa]
      · rw [List.filter_cons_of_neg hpb, List.filter_cons_of_neg hpb, ih]

/-- Filtering sorted rows gives the same as sorting filtered rows. -/
theorem filter_opOrderById (p : Row → Bool) :
    ∀ l : List Row, (opOrderById l).filter p = opOrderById (l.filter p)
  | [] => rfl
  | a :: l => by
    have ih := filter_opOrderById p l
    have hs : (opOrderById l).Sorted Row.le := List.sorted_insertionSort Row.le l
    unfold opOrderById at ih hs ⊢
    by_cases hpa : p a = true
    · rw [List.filter_cons_of_pos hpa]
      show ((l.insertionSort Row.le).orderedInsert Row.le a).filter p =
        ((l.filter p).insertionSort Row.le).orderedInsert Row.le a
      rw [filter_orderedInsert p a _ hs, if_pos hpa, ih]
    · rw [List.filter_cons_of_neg hpa]
      show ((l.insertionSort Row.le).orderedInsert Row.le a).filter p =
        (l.filter p).insertionSort Row.le
      rw [filter_orderedInsert p a _ hs, if_neg hpa, ih]

/-- The rows a call sorts are sorted by `id`. -/
theorem sorted_opOrderById (rows : List Row) : (opOrderById rows).Sorted Row.le :=
  List.sorted_insertionSort Row.le rows

/-- Sorting keeps the rows: the sorted rows are a rearrangement of the rows given. -/
theorem perm_opOrderById (rows : List Row) : (opOrderById rows).Perm rows :=
  List.perm_insertionSort Row.le rows

/-- With pairwise distinct ids in the view, the filtered and sorted rows have
strictly increasing ids. -/
theorem strict_of_nodup (view : List Row) (offsetValue : Int)
    (hnodup : (view.map Row.id).Nodup) :
    (opOrderById (opWhereIdGt offsetValue view)).Pairwise fun a b => a.id < b.id := by
  have hsub : ((opWhereIdGt offsetValue view).map Row.id).Nodup :=
    List.Nodup.sublist (List.Sublist.map Row.id (List.filter_sublist view)) hnodup
  have hperm : ((opOrderById (opWhereIdGt offsetValue view)).map Row.id).Nodup :=
    (List.Perm.nodup_iff (List.Perm.map Row.id (perm_opOrderById _))).mpr hsub
  have hne : (opOrderById (opWhereIdGt offsetValue view)).Pairwise
      fun a b => a.id ≠ b.id := List.pairwise_map.mp hperm
  have hle : (opOrderById (opWhereIdGt offsetValue view)).Pairwise Row.le :=
    sorted_opOrderById _
  exact (hle.and hne).imp fun h => lt_of_le_of_ne h.1 h.2

/-- In rows of strictly increasing ids, the rows after the last row of the first
`n` are those with a greater id than that row. -/
theorem filter_gt_last_eq_drop (rows : List Row) (n : Nat) (last : Row)
    (hstrict : rows.Pairwise fun a b => a.id < b.id)
    (hlast : (rows.take n).getLast? = some last) :
    rows.filter (fun r => decide (last.id < r.id)) = rows.drop n := by
  obtain ⟨init, hinit⟩ := List.getLast?_eq_some_iff.mp hlast
  have hsplit : rows = (init ++ [last]) ++ rows.drop n := by
    rw [← hinit, List.take_append_drop]
  have hp : ((init ++ [last]) ++ rows.drop n).Pairwise fun a b => a.id < b.id := by
    rw [← hsplit]; exact hstrict
  obtain ⟨hfront, _, hcross⟩ := List.pairwise_append.mp hp
  obtain ⟨_, _, hinner⟩ := List.pairwise_append.mp hfront
  have h1 : init.filter (fun r => decide (last.id < r.id)) = [] := by
    rw [List.filter_eq_nil_iff]
    intro a ha
    have := hinner a ha last (List.mem_singleton.mpr rfl)
    simp only [decide_eq_true_eq]; omega
  have h2 : [last].filter (fun r => decide (last.id < r.id)) = [] := by
    simp
  have h3 : (rows.drop n).filter (fun r => decide (last.id < r.id)) = rows.drop n := by
    rw [List.filter_eq_self]
    intro a ha
    have := hcross last (List.mem_append.mpr (Or.inr (List.mem_singleton.mpr rfl))) a ha
    simpa using this
  conv_lhs => rw [hsplit]
  rw [List.filter_append, List.filter_append, h1, h2, h3]
  rfl

/-- The rows above a greater offset are the rows above the smaller offset that lie
above the greater one. -/
theorem opWhereIdGt_of_le (view : List Row) (o1 o2 : Int) (h : o1 ≤ o2) :
    opWhereIdGt o2 view = (opWhereIdGt o1 view).filter fun r => decide (o2 < r.id) := by
  unfold opWhereIdGt
  rw [List.filter_filter]
  apply List.filter_congr
  intro r _
  by_cases h2 : o2 < r.id
  · have h1 : o1 < r.id := by omega
    simp [h1, h2]
  · simp [h2]

/-- With pairwise distinct ids, the rows waiting after a batch of `n` rows are the
sorted rows of the call before without their first `n`. -/
theorem next_offset_rows (view : List Row) (n : Nat) (offsetValue : Int) (last : Row)
    (hnodup : (view.map Row.id).Nodup)
    (hlast : ((opOrderById (opWhereIdGt offsetValue view)).take n).getLast? = some last) :
    opOrderById (opWhereIdGt last.id view) =
      (opOrderById (opWhereIdGt offsetValue view)).drop n := by
  have hmem : last ∈ opWhereIdGt offsetValue view := by
    have h1 : last ∈ (opOrderById (opWhereIdGt offsetValue view)).take n :=
      List.mem_of_getLast?_eq_some hlast
    exact (perm_opOrderById _).mem_iff.mp (List.mem_of_mem_take h1)
  have hgt : offsetValue < last.id := by
    have := (List.mem_filter.mp hmem).2
    simpa using this
  rw [opWhereIdGt_of_le view offsetValue last.id (Int.le_of_lt hgt),
    ← filter_opOrderById,
    filter_gt_last_eq_drop _ n last (strict_of_nodup view offsetValue hnodup) hlast]

/-! ## Batches -/

/-- The batches of repeated calls, laid end to end, are the sorted rows above the
first offset: with pairwise distinct ids, a batch size of at least one, and more
calls allowed than there are such rows. -/
theorem allBatches_flatten (view : List Row) (batchSize : Option Nat)
    (hnodup : (view.map Row.id).Nodup) (hsize : 1 ≤ batchSize.getD 1000) :
    ∀ (calls : Nat) (offsetValue : Option Int),
      (opOrderById (opWhereIdGt (offsetValue.getD 0) view)).length < calls →
      (allBatches view batchSize calls offsetValue).flatten =
        opSelect (opOrderById (opWhereIdGt (offsetValue.getD 0) view))
  | 0, _, h => absurd h (Nat.not_lt_zero _)
  | calls + 1, offsetValue, h => by
    have hb : batchProcessing view batchSize offsetValue =
        opSelect ((opOrderById (opWhereIdGt (offsetValue.getD 0) view)).take
          (batchSize.getD 1000)) := rfl
    have hl : (batchProcessing view batchSize offsetValue).getLast? =
        (((opOrderById (opWhereIdGt (offsetValue.getD 0) view)).take
          (batchSize.getD 1000)).getLast?).map
            fun r => (⟨r.id, r.data_field, r.processed_flag⟩ : BatchRow) := by
      rw [hb]; unfold opSelect; exact List.getLast?_map _ _
    cases hlast : ((opOrderById (opWhereIdGt (offsetValue.getD 0) view)).take
        (batchSize.getD 1000)).getLast? with
    | none =>
      have hnil : opOrderById (opWhereIdGt (offsetValue.getD 0) view) = [] := by
        rcases List.take_eq_nil_iff.mp (List.getLast?_eq_none_iff.mp hlast) with h0 | h0
        · omega
        · exact h0
      have hl2 : (batchProcessing view batchSize offsetValue).getLast? = none := by
        rw [hl, hlast]; rfl
      simp only [allBatches, hl2]
      rw [hnil]
      rfl
    | some last =>
      have hnext := next_offset_rows view (batchSize.getD 1000) (offsetValue.getD 0) last
        hnodup hlast
      have hne : opOrderById (opWhereIdGt (offsetValue.getD 0) view) ≠ [] := by
        intro h0
        rw [h0] at hlast
        simp at hlast
      have hpos : 0 < (opOrderById (opWhereIdGt (offsetValue.getD 0) view)).length :=
        List.length_pos.mpr hne
      have hlen : (opOrderById (opWhereIdGt ((some last.id).getD 0) view)).length < calls := by
        show (opOrderById (opWhereIdGt last.id view)).length < calls
        rw [hnext, List.length_drop]
        omega
      have ih := allBatches_flatten view batchSize hnodup hsize calls (some last.id) hlen
      have ih2 : (allBatches view batchSize calls (some last.id)).flatten =
          opSelect ((opOrderById (opWhereIdGt (offsetValue.getD 0) view)).drop
            (batchSize.getD 1000)) := by
        rw [ih]
        show opSelect (opOrderById (opWhereIdGt last.id view)) = _
        rw [hnext]
      have hl2 : (batchProcessing view batchSize offsetValue).getLast? =
          some ⟨last.id, last.data_field, last.processed_flag⟩ := by
        rw [hl, hlast]; rfl
      simp only [allBatches, hl2, List.flatten_cons]
      rw [ih2, hb]
      unfold opSelect
      rw [← List.map_append, List.take_append_drop]

/-- The ids of a batch are the ids of the rows taken from the view. -/
theorem batch_ids (view : List Row) (batchSize : Option Nat) (offsetValue : Option Int) :
    (batchProcessing view batchSize offsetValue).map BatchRow.id =
      ((opOrderById (opWhereIdGt (offsetValue.getD 0) view)).take (batchSize.getD 1000)).map
        Row.id := by
  unfold batchProcessing batchRows opSelect opLimit
  rw [List.map_map]
  rfl

/-- C23: a call of `batchProcessing` returns at most `batchSize` rows, all with an
`id` above `offsetValue`, in ascending order of `id`, and their ids are the
`batchSize` smallest such ids of the view (all of them when there are fewer): the
other ids above the offset are at least as large as each one returned.  When the
ids of the view are pairwise distinct and the batch size is at least one (the
default `1000` is), calling it repeatedly, each time from the last `id` of the
batch before, returns, once enough calls are made, exactly the rows above the
first offset (the default `0` when left out), each once, in strictly ascending
order of `id` across the batches. -/
theorem batchProcessing_batches (view : List Row) (batchSize : Option Nat)
    (offsetValue : Option Int) :
    (batchProcessing view batchSize offsetValue).length ≤ batchSize.getD 1000 ∧
    (∀ r ∈ batchProcessing view batchSize offsetValue, offsetValue.getD 0 < r.id) ∧
    ((batchProcessing view batchSize offsetValue).map BatchRow.id).Sorted (· ≤ ·) ∧
    (batchProcessing view batchSize offsetValue).length =
      min (batchSize.getD 1000)
        ((view.map Row.id).filter fun i => decide (offsetValue.getD 0 < i)).length ∧
    (∃ rest : List Int,
      (((batchProcessing view batchSize offsetValue).map BatchRow.id) ++ rest).Perm
        ((view.map Row.id).filter fun i => decide (offsetValue.getD 0 < i)) ∧
      ∀ a ∈ (batchProcessing view batchSize offsetValue).map BatchRow.id,
        ∀ b ∈ rest, a ≤ b) ∧
    ((view.map Row.id).Nodup → 1 ≤ batchSize.getD 1000 →
      ∀ calls : Nat, view.length < calls →
        (allBatches view batchSize calls offsetValue).flatten =
          opSelect (opOrderById (opWhereIdGt (offsetValue.getD 0) view)) ∧
        ((allBatches view batchSize calls offsetValue).flatten).Perm
          (opSelect (opWhereIdGt (offsetValue.getD 0) view)) ∧
        (((allBatches view batchSize calls offsetValue).flatten).map BatchRow.id).Sorted
          (· < ·)) := by
  have hfilter : (view.map Row.id).filter (fun i => decide (offsetValue.getD 0 < i)) =
      (opWhereIdGt (offsetValue.getD 0) view).map Row.id := by
    unfold opWhereIdGt
    rw [List.filter_map]
    rfl
  have hsorted := sorted_opOrderById (opWhereIdGt (offsetValue.getD 0) view)
  have hperm := perm_opOrderById (opWhereIdGt (offsetValue.getD 0) view)
  refine ⟨?_, ?_, ?_, ?_, ?_, ?_⟩
  · have h := congrArg List.length (batch_ids view batchSize offsetValue)
    simp only [List.length_map, List.length_take] at h
    omega
  · intro r hr
    have hid : r.id ∈ (batchProcessing view batchSize offsetValue).map BatchRow.id :=
      List.mem_map_of_mem BatchRow.id hr
    rw [batch_ids] at hid
    obtain ⟨x, hx, hxid⟩ := List.mem_map.mp hid
    have hxf : x ∈ opWhereIdGt (offsetValue.getD 0) view :=
      hperm.mem_iff.mp (List.mem_of_mem_take hx)
    have := (List.mem_filter.mp hxf).2
    rw [← hxid]
    simpa using this
  · rw [batch_ids]
    exact List.pairwise_map.mpr
      (List.Pairwise.sublist (List.take_sublist _ _) hsorted)
  · have h := congrArg List.length (batch_ids view batchSize offsetValue)
    simp only [List.length_map, List.length_take] at h
    rw [h, hfilter, List.length_map, hperm.length_eq]
  · refine ⟨((opOrderById (opWhereIdGt (offsetValue.getD 0) view)).drop
      (batchSize.getD 1000)).map Row.id, ?_, ?_⟩
    · rw [batch_ids, ← List.map_append, List.take_append_drop, hfilter]
      exact hperm.map Row.id
    · intro a ha b hb
      rw [batch_ids] at ha
      obtain ⟨x, hx, rfl⟩ := List.mem_map.mp ha
      obtain ⟨y, hy, rfl⟩ := List.mem_map.mp hb
      exact hsorted.rel_of_mem_take_of_mem_drop hx hy
  · intro hnodup hsize calls hcalls
    have hlen : (opOrderById (opWhereIdGt (offsetValue.getD 0) view)).length < calls := by
      have h1 : (opWhereIdGt (offsetValue.getD 0) view).length ≤ view.length :=
        List.length_filter_le _ _
      rw [hperm.length_eq]
      omega
    have hflat := allBatches_flatten view batchSize hnodup hsize calls offsetValue hlen
    refine ⟨hflat, ?_, ?_⟩
    · rw [hflat]
      exact hperm.map _
    · rw [hflat]
      unfold opSelect
      rw [List.map_map]
      exact List.pairwise_map.mpr (strict_of_nodup view (offsetValue.getD 0) hnodup)

/-- On the sample view with batches of two, the hypotheses of C23 hold and six
calls return the rows above `0`, sorted. -/
theorem batchProcessing_batches_witness :
    (sampleView.map Row.id).Nodup ∧ 1 ≤ (some 2 : Option Nat).getD 1000 ∧
    sampleView.length < 6 ∧
    (allBatches sampleView (some 2) 6 none).flatten =
      opSelect (opOrderById (opWhereIdGt 0 sampleView)) :=
  ⟨by decide, by decide, by decide,
   ((batchProcessing_batches sampleView (some 2) none).2.2.2.2.2 (by decide) (by decide) 6
     (by decide)).1⟩

/-- On the sample view, batches of two from the default offset are the ids `3, 5`
and then `7, 9`; the row with id `-1` is in no batch. -/
theorem allBatches_sample :
    (allBatches sampleView (some 2) 6 none).map (fun batch => batch.map BatchRow.id) =
      [[3, 5], [7, 9]] := by
  decide

end OpticExamples
